import Mathlib

/-!
# wguser: the configuration writer and the transport client

A shallow embedding of `internal/wguser/configure.go`: `hexKey`, `writeConfig`
and `configureDevice`, together with the parts of the Go standard library they
call (`encoding/hex`, the `%s` and `%d` verbs of `fmt`, `time.Duration.Seconds`,
`strings.TrimSpace`, `os.NewSyscallError`).

Go strings and byte slices are sequences of bytes, so text is a list of bytes
here.  A writer is the list of bytes written to it so far, and the network is a
record of the outcomes of its operations; `configureDevice` returns its error
together with the sequence of channel operations it performed.
-/

namespace Wguser

/-! ## Bytes and text -/

/-- A Go `byte`. -/
abbrev Byte := Fin 256

/-- A Go `string` or `[]byte`: a sequence of bytes. -/
abbrev Bytes := List Byte

/-- The bytes of a string literal of the source.  All literals of the source are
ASCII, for which the byte is the code point. -/
def lit (s : String) : Bytes := s.toList.map fun c => Fin.ofNat c.toNat

/-- The line feed, `'\n'`. -/
def NL : Byte := 10

/-! ## encoding/hex -/

/-- The table `hextable` of `encoding/hex`. -/
def hextable : Bytes := lit "0123456789abcdef"

/-- The function `hex.EncodeToString`: for every byte `v` of the input the two
characters `hextable[v>>4]` and `hextable[v&0x0f]`. -/
def EncodeToString : Bytes → Bytes
  | [] => []
  | v :: src => hextable.getD (v.val >>> 4) 0 :: hextable.getD (v.val &&& 0x0f) 0 :: EncodeToString src

/-- The function `fromHexChar` of `encoding/hex` (the table `reverseHexTable`
of later versions): the value of a hexadecimal digit, of either case. -/
def fromHexChar (c : Byte) : Option Nat :=
  if 48 ≤ c.val ∧ c.val ≤ 57 then some (c.val - 48)
  else if 97 ≤ c.val ∧ c.val ≤ 102 then some (c.val - 97 + 10)
  else if 65 ≤ c.val ∧ c.val ≤ 70 then some (c.val - 65 + 10)
  else none

/-- The errors of `hex.DecodeString`. -/
inductive HexError where
  | InvalidByteError (b : Byte)
  | ErrLength
  deriving DecidableEq, Repr

/-- The function `hex.DecodeString`: the bytes decoded before the first error,
and the error if there is one.  Two characters give one byte,
`(a << 4) | b`. -/
def DecodeString : Bytes → Bytes × Option HexError
  | [] => ([], none)
  | [p] =>
    match fromHexChar p with
    | none => ([], some (.InvalidByteError p))
    | some _ => ([], some .ErrLength)
  | p :: q :: src =>
    match fromHexChar p, fromHexChar q with
    | none, _ => ([], some (.InvalidByteError p))
    | some _, none => ([], some (.InvalidByteError q))
    | some a, some b =>
      let r := DecodeString src
      (Fin.ofNat ((a <<< 4) ||| b) :: r.1, r.2)

/-! ## Decimal integers: the verb `%d` -/

/-- The decimal digits of `n`, most significant first, in front of `acc`; the
loop of `strconv.FormatInt`, one digit per round. -/
def digitsLoop : Nat → Nat → Bytes → Bytes
  | 0, _, acc => acc
  | fuel + 1, n, acc =>
    let acc := (Fin.ofNat (48 + n % 10) : Byte) :: acc
    if n / 10 = 0 then acc else digitsLoop fuel (n / 10) acc

/-- The decimal text of a natural number. -/
def uitoa (n : Nat) : Bytes := digitsLoop (n + 1) n []

/-- The verb `%d` on a Go `int`: a minus sign for a negative number, then the
decimal digits of the magnitude. -/
def fmtInt (i : Int) : Bytes :=
  if i < 0 then (45 : Byte) :: uitoa i.natAbs else uitoa i.natAbs

/-! ## float64 and time.Duration

`Duration.Seconds` computes in `float64`.  The finite values of that type are
modelled exactly, as a sign, a natural mantissa and a binary exponent, and each
operation rounds its exact result to the nearest value with a 53-bit mantissa,
ties to even, as IEEE 754 prescribes.  The quantities of this program lie
between `1e-9` and `1e10` in magnitude (or are zero), far inside the normal
range, so overflow and subnormal numbers are left out. -/

/-- The number of binary digits of `n`, by halving. -/
def bitLenLoop : Nat → Nat → Nat
  | 0, _ => 0
  | fuel + 1, n => if n = 0 then 0 else bitLenLoop fuel (n / 2) + 1

/-- The number of binary digits of `n`: `0` for `0`, else `⌊log₂ n⌋ + 1`. -/
def bitLen (n : Nat) : Nat := bitLenLoop n n

/-- The fraction `a / b` multiplied by `2 ^ k`, as a fraction again. -/
def scale2 (a b : Nat) (k : Int) : Nat × Nat :=
  if 0 ≤ k then (a * 2 ^ k.toNat, b) else (a, b * 2 ^ (-k).toNat)

/-- The integer nearest to `a / b`, the even one of the two at a tie. -/
def roundHalfEven (a b : Nat) : Nat :=
  let q := a / b
  let r := a % b
  if 2 * r < b then q
  else if b < 2 * r then q + 1
  else if q % 2 = 0 then q else q + 1

/-- A finite `float64`: the number `(-1) ^ neg * mant * 2 ^ exp`. -/
structure Float64 where
  neg : Bool
  mant : Nat
  exp : Int
  deriving DecidableEq, Repr

namespace Float64

/-- The `float64` nearest to `± a / b` (for `b > 0`), ties to even: the
exponent is chosen so that the mantissa has 53 bits. -/
def round (neg : Bool) (a b : Nat) : Float64 :=
  if a = 0 then ⟨neg, 0, 0⟩
  else
    let l0 : Int := (bitLen a : Int) - (bitLen b : Int)
    let t := scale2 a b (-l0)
    let l : Int := if t.2 ≤ t.1 then l0 else l0 - 1
    let e : Int := l - 52
    let s := scale2 a b (-e)
    ⟨neg, roundHalfEven s.1 s.2, e⟩

/-- The conversion `float64(i)` of an integer. -/
def ofInt (i : Int) : Float64 := round (decide (i < 0)) i.natAbs 1

/-- The mantissa with its sign. -/
def smant (x : Float64) : Int := if x.neg then -(x.mant : Int) else x.mant

/-- The quotient `x / y` of two floats, for `y` other than zero. -/
def div (x y : Float64) : Float64 :=
  let s := scale2 x.mant y.mant (x.exp - y.exp)
  round (xor x.neg y.neg) s.1 s.2

/-- The sum `x + y` of two floats. -/
def add (x y : Float64) : Float64 :=
  let e := min x.exp y.exp
  let n : Int := x.smant * 2 ^ (x.exp - e).toNat + y.smant * 2 ^ (y.exp - e).toNat
  let s := scale2 n.natAbs 1 e
  round (decide (n < 0)) s.1 s.2

/-- The conversion `int(x)` of a float to a Go `int`: the fraction is
discarded, which truncates toward zero. -/
def toInt (x : Float64) : Int :=
  let s := scale2 x.mant 1 x.exp
  let q : Int := ((s.1 / s.2 : Nat) : Int)
  if x.neg then -q else q

end Float64

/-- A `time.Duration`: a signed 64-bit count of nanoseconds. -/
abbrev Duration := Int

/-- The constant `time.Second`. -/
def Second : Duration := 1000000000

/-- The method `Duration.Seconds`:
`sec := d / Second; nsec := d % Second; return float64(sec) + float64(nsec)/1e9`,
where the division and the remainder of Go integers truncate toward zero. -/
def Duration.Seconds (d : Duration) : Float64 :=
  let sec := Int.tdiv d Second
  let nsec := Int.tmod d Second
  Float64.add (Float64.ofInt sec) (Float64.div (Float64.ofInt nsec) (Float64.ofInt 1000000000))

/-! ## fmt: the writer and the verbs `%s` and `%d` -/

/-- An operand of a formatting call: a string for `%s`, an integer for `%d`. -/
inductive Arg where
  | str (s : Bytes)
  | int (i : Int)

/-- The function `fmt.Sprintf`, for the two verbs the source uses: `%s` (byte
37, then 115) takes the next operand, a string, and copies it unchanged, `%d`
(37, then 100) takes the next operand, an integer, and writes it in decimal;
every other byte of the format is copied. -/
def Sprintf : Bytes → List Arg → Bytes
  | [], _ => []
  | [c], _ => [c]
  | c :: v :: format, args =>
    if c.val = 37 ∧ v.val = 115 then
      match args with
      | .str s :: args => s ++ Sprintf format args
      | _ => c :: Sprintf (v :: format) args
    else if c.val = 37 ∧ v.val = 100 then
      match args with
      | .int i :: args => fmtInt i ++ Sprintf format args
      | _ => c :: Sprintf (v :: format) args
    else c :: Sprintf (v :: format) args

/-- An `io.Writer` that keeps what is written to it, such as the
`bytes.Buffer` of `configureDevice`: the bytes written so far. -/
abbrev Buffer := Bytes

/-- The method `bytes.Buffer.WriteString`. -/
def Buffer.WriteString (w : Buffer) (s : Bytes) : Buffer := w ++ s

/-- The function `fmt.Fprintf` on such a writer: the formatted text is appended
to what was written before. -/
def Fprintf (w : Buffer) (format : Bytes) (args : List Arg) : Buffer :=
  w ++ Sprintf format args

/-! ## wgtypes and the text methods of its field types -/

/-- Modelled from the spec: the type `wgtypes.Key`, declared outside
`configure.go`; by §3 "a fixed-length (32-byte) opaque byte sequence", the Go
array `[32]byte`. -/
structure Key where
  bytes : Bytes
  size : bytes.length = 32
  deriving DecidableEq

/-- The method `String() string` that `writeConfig` calls on an endpoint
(`*net.UDPAddr`) and on an allowed-IP entry (`net.IPNet`).  Both types are
declared outside `configure.go`, so the configuration is generic in them and in
their text form. -/
class Stringer (α : Type) where
  String : α → Bytes

/-- Modelled from the spec: the type `wgtypes.PeerConfig`, declared outside
`configure.go`, with the fields `writeConfig` reads; by §3 a mandatory public
key, a remove flag, an optionally-present preshared key, endpoint and keep-alive
interval, a replace flag and an ordered sequence of allowed-IP prefixes.  A
nullable reference of the source is an `Option`. -/
structure PeerConfig (E N : Type) where
  PublicKey : Key
  Remove : Bool
  PresharedKey : Option Key
  Endpoint : Option E
  PersistentKeepaliveInterval : Option Duration
  ReplaceAllowedIPs : Bool
  AllowedIPs : List N

/-- Modelled from the spec: the type `wgtypes.Config`, declared outside
`configure.go`, with the fields `writeConfig` reads; by §3 an optionally-present
private key, listen port and firewall mark (Go `int`s), the replace-peers flag
and an ordered sequence of peer configurations. -/
structure Config (E N : Type) where
  PrivateKey : Option Key
  ListenPort : Option Int
  FirewallMark : Option Int
  ReplacePeers : Bool
  Peers : List (PeerConfig E N)

/-! ## configure.go: hexKey and writeConfig -/

/-- The function `hexKey`: `hex.EncodeToString(k[:])`. -/
def hexKey (k : Key) : Bytes := EncodeToString k.bytes

/-- The body of the loop `for _, p := range cfg.Peers` of `writeConfig`: the
lines of one peer, written to `w`. -/
def writePeer {E N : Type} [Stringer E] [Stringer N] (w : Buffer) (p : PeerConfig E N) : Buffer :=
  let w := Fprintf w (lit "public_key=%s\n") [.str (hexKey p.PublicKey)]
  let w := if p.Remove then Fprintf w (lit "remove=true\n") [] else w
  let w := match p.PresharedKey with
    | some k => Fprintf w (lit "preshared_key=%s\n") [.str (hexKey k)]
    | none => w
  let w := match p.Endpoint with
    | some e => Fprintf w (lit "endpoint=%s\n") [.str (Stringer.String e)]
    | none => w
  let w := match p.PersistentKeepaliveInterval with
    | some d => Fprintf w (lit "persistent_keepalive_interval=%d\n") [.int (Duration.Seconds d).toInt]
    | none => w
  let w := if p.ReplaceAllowedIPs then Fprintf w (lit "replace_allowed_ips=true\n") [] else w
  p.AllowedIPs.foldl (fun w ip => Fprintf w (lit "allowed_ip=%s\n") [.str (Stringer.String ip)]) w

/-- The function `writeConfig`: writes the textual configuration of `cfg` to
`w`, field after field, then peer after peer. -/
def writeConfig {E N : Type} [Stringer E] [Stringer N] (w : Buffer) (cfg : Config E N) : Buffer :=
  let w := match cfg.PrivateKey with
    | some k => Fprintf w (lit "private_key=%s\n") [.str (hexKey k)]
    | none => w
  let w := match cfg.ListenPort with
    | some port => Fprintf w (lit "listen_port=%d\n") [.int port]
    | none => w
  let w := match cfg.FirewallMark with
    | some mark => Fprintf w (lit "fwmark=%d\n") [.int mark]
    | none => w
  let w := if cfg.ReplacePeers then Fprintf w (lit "replace_peers=true\n") [] else w
  cfg.Peers.foldl writePeer w

/-! ## net: the text form of an endpoint and of a network prefix

The types `net.UDPAddr` and `net.IPNet` of the Go standard library, whose
`String` methods give `writeConfig` the text of an endpoint and of an allowed-IP
entry. -/

/-- The type `net.IP`, a byte slice; a `nil` slice is the empty one. -/
abbrev IP := Bytes

/-- The method `IP.To4`: the 4-byte form of an IPv4 address (`none` stands for
the `nil` result). -/
def IP.To4 (ip : IP) : Option IP :=
  if ip.length = 4 then some ip
  else if ip.length = 16 ∧ (ip.take 10).all (fun b => b.val = 0) ∧
      (ip.getD 10 0).val = 0xff ∧ (ip.getD 11 0).val = 0xff then some (ip.drop 12)
  else none

/-- The function `appendHex` of package net: the hexadecimal digits of `i`
without leading zeros, appended to `dst`. -/
def appendHex (dst : Bytes) (i : Nat) : Bytes :=
  if i = 0 then dst ++ [48]
  else
    [7, 6, 5, 4, 3, 2, 1, 0].foldl
      (fun dst j =>
        let v := i >>> (j * 4)
        if v > 0 then dst ++ [hextable.getD (v &&& 0xf) 0] else dst)
      dst

/-- The inner loop `for j < IPv6len && p[j] == 0 && p[j+1] == 0 { j += 2 }` of
`IP.String`: the end of the run of zero fields that starts at `j`. -/
def zeroRunEnd (p : IP) : Nat → Nat → Nat
  | 0, j => j
  | fuel + 1, j =>
    if j < 16 ∧ (p.getD j 0).val = 0 ∧ (p.getD (j + 1) 0).val = 0 then zeroRunEnd p fuel (j + 2)
    else j

/-- The first loop of `IP.String`: the longest run of zero fields, as the pair
`(e0, e1)`, both `-1` while none is found. -/
def longestZeroRun (p : IP) : Nat → Nat → Int → Int → Int × Int
  | 0, _, e0, e1 => (e0, e1)
  | fuel + 1, i, e0, e1 =>
    if i < 16 then
      let j := zeroRunEnd p 8 i
      if j > i ∧ (j : Int) - i > e1 - e0 then longestZeroRun p fuel (j + 2) i j
      else longestZeroRun p fuel (i + 2) e0 e1
    else (e0, e1)

/-- The second loop of `IP.String`: the fields in hexadecimal, separated by
colons, with `::` in place of the run from `e0` to `e1`. -/
def printFields (p : IP) (e0 e1 : Int) : Nat → Nat → Bytes → Bytes
  | 0, _, b => b
  | fuel + 1, i, b =>
    if i < 16 then
      if (i : Int) = e0 then
        let b := b ++ [58, 58]
        let i := e1.toNat
        if i ≥ 16 then b
        else printFields p e0 e1 fuel (i + 2) (appendHex b (((p.getD i 0).val <<< 8) ||| (p.getD (i + 1) 0).val))
      else
        let b := if i > 0 then b ++ [58] else b
        printFields p e0 e1 fuel (i + 2) (appendHex b (((p.getD i 0).val <<< 8) ||| (p.getD (i + 1) 0).val))
    else b

/-- The method `IP.String`: dotted decimal for an IPv4 address, the shortened
colon form for an IPv6 address, `?` and the bytes in hexadecimal for a slice of
any other length. -/
def IP.String (ip : IP) : Bytes :=
  if ip.length = 0 then lit "<nil>"
  else
    match ip.To4 with
    | some [a, b, c, d] =>
      uitoa a.val ++ [46] ++ uitoa b.val ++ [46] ++ uitoa c.val ++ [46] ++ uitoa d.val
    | _ =>
      if ip.length ≠ 16 then lit "?" ++ EncodeToString ip
      else
        let e := longestZeroRun ip 8 0 (-1) (-1)
        let e := if e.2 - e.1 ≤ 2 then ((-1 : Int), (-1 : Int)) else e
        printFields ip e.1 e.2 8 0 []

/-- The function `net.JoinHostPort`: the host is put in brackets when it
contains a colon. -/
def JoinHostPort (host port : Bytes) : Bytes :=
  if (58 : Byte) ∈ host then lit "[" ++ host ++ lit "]:" ++ port
  else host ++ lit ":" ++ port

/-- The type `net.UDPAddr`. -/
structure UDPAddr where
  IP : IP
  Port : Int
  Zone : Bytes
  deriving DecidableEq

/-- The method `UDPAddr.String` on a non-nil address, with `ipEmptyString` for
the address part. -/
def UDPAddr.String (a : UDPAddr) : Bytes :=
  let ip := if a.IP.length = 0 then [] else IP.String a.IP
  if a.Zone ≠ [] then JoinHostPort (ip ++ lit "%" ++ a.Zone) (fmtInt a.Port)
  else JoinHostPort ip (fmtInt a.Port)

/-- The type `net.IPNet`: an address and a mask (`net.IPMask`, a byte slice). -/
structure IPNet where
  IP : IP
  Mask : Bytes
  deriving DecidableEq

/-- The function `networkNumberAndMask` of package net (`none` stands for the
result `nil, nil`). -/
def networkNumberAndMask (n : IPNet) : Option (IP × Bytes) :=
  let ip? : Option IP :=
    match n.IP.To4 with
    | some ip => some ip
    | none => if n.IP.length ≠ 16 then none else some n.IP
  match ip? with
  | none => none
  | some ip =>
    if n.Mask.length = 4 then
      if ip.length ≠ 4 then none else some (ip, n.Mask)
    else if n.Mask.length = 16 then
      if ip.length = 4 then some (ip, n.Mask.drop 12) else some (ip, n.Mask)
    else none

/-- The inner loop of `simpleMaskLength`: the number of leading one bits of a
byte, and the byte shifted left past them. -/
def leadingOnes : Nat → Nat → Nat × Nat
  | 0, v => (0, v)
  | fuel + 1, v =>
    if v &&& 0x80 ≠ 0 then
      let r := leadingOnes fuel ((v <<< 1) % 256)
      (r.1 + 1, r.2)
    else (0, v)

/-- The function `simpleMaskLength` of package net: the number of leading ones
of a mask that is ones followed by zeros, `none` (the result `-1`) for any
other mask. -/
def simpleMaskLength : Bytes → Option Nat
  | [] => some 0
  | v :: mask =>
    if v.val = 0xff then (simpleMaskLength mask).map (fun n => n + 8)
    else
      let r := leadingOnes 8 v.val
      if r.2 ≠ 0 then none
      else if mask.all (fun b => b.val = 0) then some r.1 else none

/-- The method `IPNet.String`: the network number, a slash, and the length of
the mask, or the mask in hexadecimal when it is not ones followed by zeros. -/
def IPNet.String (n : IPNet) : Bytes :=
  match networkNumberAndMask n with
  | none => lit "<nil>"
  | some (nn, m) =>
    match simpleMaskLength m with
    | none => IP.String nn ++ lit "/" ++ (if m.length = 0 then lit "<nil>" else EncodeToString m)
    | some l => IP.String nn ++ lit "/" ++ uitoa l

instance : Stringer UDPAddr := ⟨UDPAddr.String⟩

instance : Stringer IPNet := ⟨IPNet.String⟩

/-! ## unicode/utf8, unicode and strings: TrimSpace -/

/-- The constant `utf8.RuneError`, the rune of an invalid encoding. -/
def RuneError : Nat := 0xFFFD

/-- The table `first` of package utf8: information about the first byte of an
encoding (`0xF0` ASCII, `0xF1` invalid, else the accept range and the size). -/
def first (b : Nat) : Nat :=
  if b < 0x80 then 0xF0
  else if b < 0xC2 then 0xF1
  else if b < 0xE0 then 0x02
  else if b = 0xE0 then 0x13
  else if b < 0xED then 0x03
  else if b = 0xED then 0x23
  else if b < 0xF0 then 0x03
  else if b = 0xF0 then 0x34
  else if b < 0xF4 then 0x04
  else if b = 0xF4 then 0x44
  else 0xF1

/-- The table `acceptRanges` of package utf8: the range of a valid second
byte. -/
def acceptRanges (i : Nat) : Nat × Nat :=
  if i = 0 then (0x80, 0xBF)
  else if i = 1 then (0xA0, 0xBF)
  else if i = 2 then (0x80, 0x9F)
  else if i = 3 then (0x90, 0xBF)
  else if i = 4 then (0x80, 0x8F)
  else (0, 0)

/-- The function `utf8.DecodeRuneInString`: the first rune of `s` and its width
in bytes; `(RuneError, 1)` for an invalid encoding, `(RuneError, 0)` for the
empty string. -/
def DecodeRuneInString (s : Bytes) : Nat × Nat :=
  match s with
  | [] => (RuneError, 0)
  | s0 :: _ =>
    let x := first s0.val
    if x ≥ 0xF0 then (if x = 0xF0 then s0.val else RuneError, 1)
    else
      let sz := x &&& 7
      let accept := acceptRanges (x >>> 4)
      if s.length < sz then (RuneError, 1)
      else
        let s1 := (s.getD 1 0).val
        if s1 < accept.1 ∨ accept.2 < s1 then (RuneError, 1)
        else if sz ≤ 2 then (((s0.val &&& 0x1F) <<< 6) ||| (s1 &&& 0x3F), 2)
        else
          let s2 := (s.getD 2 0).val
          if s2 < 0x80 ∨ 0xBF < s2 then (RuneError, 1)
          else if sz ≤ 3 then
            (((s0.val &&& 0x0F) <<< 12) ||| ((s1 &&& 0x3F) <<< 6) ||| (s2 &&& 0x3F), 3)
          else
            let s3 := (s.getD 3 0).val
            if s3 < 0x80 ∨ 0xBF < s3 then (RuneError, 1)
            else
              (((s0.val &&& 0x07) <<< 18) ||| ((s1 &&& 0x3F) <<< 12) ||| ((s2 &&& 0x3F) <<< 6)
                ||| (s3 &&& 0x3F), 4)

/-- The loop `for start--; start >= lim; start-- { if RuneStart(s[start]) { break } }`
of `utf8.DecodeLastRuneInString`, at most three rounds. -/
def lastRuneStart (s : Bytes) (lim : Int) : Nat → Int → Int
  | 0, start => start
  | fuel + 1, start =>
    if start ≥ lim then
      if (s.getD start.toNat 0).val &&& 0xC0 ≠ 0x80 then start
      else lastRuneStart s lim fuel (start - 1)
    else start

/-- The function `utf8.DecodeLastRuneInString`: the last rune of `s` and its
width. -/
def DecodeLastRuneInString (s : Bytes) : Nat × Nat :=
  let len := s.length
  if len = 0 then (RuneError, 0)
  else
    let r := (s.getD (len - 1) 0).val
    if r < 0x80 then (r, 1)
    else
      let lim : Int := if (len : Int) - 4 < 0 then 0 else (len : Int) - 4
      let start := lastRuneStart s lim 4 ((len : Int) - 2)
      let start := if start < 0 then 0 else start.toNat
      let d := DecodeRuneInString (s.drop start)
      if start + d.2 ≠ len then (RuneError, 1) else d

/-- The function `unicode.IsSpace`: the white space of Latin-1 and, beyond it,
the rest of the Unicode property White_Space. -/
def IsSpace (r : Nat) : Bool :=
  if r ≤ 0xFF then
    r = 9 ∨ r = 10 ∨ r = 11 ∨ r = 12 ∨ r = 13 ∨ r = 32 ∨ r = 0x85 ∨ r = 0xA0
  else
    r = 0x1680 ∨ (0x2000 ≤ r ∧ r ≤ 0x200a) ∨ r = 0x2028 ∨ r = 0x2029 ∨ r = 0x202f ∨
      r = 0x205f ∨ r = 0x3000

/-- The loop of `strings.indexFunc`, `for i, r := range s`: the index of the
first rune from `i` on with `f r == truth`, or `-1`.  A round consumes at least
one byte, so `len(s)` rounds reach the end of `s`. -/
def indexFuncLoop (s : Bytes) (f : Nat → Bool) (truth : Bool) : Nat → Nat → Int
  | 0, _ => -1
  | fuel + 1, i =>
    if i < s.length then
      let d := DecodeRuneInString (s.drop i)
      if f d.1 = truth then (i : Int) else indexFuncLoop s f truth fuel (i + d.2)
    else -1

/-- The function `strings.indexFunc`. -/
def indexFunc (s : Bytes) (f : Nat → Bool) (truth : Bool) : Int :=
  indexFuncLoop s f truth s.length 0

/-- The loop of `strings.lastIndexFunc`, `for i := len(s); i > 0; `: the index
of the last rune before `i` with `f r == truth`, or `-1`. -/
def lastIndexFuncLoop (s : Bytes) (f : Nat → Bool) (truth : Bool) : Nat → Nat → Int
  | 0, _ => -1
  | fuel + 1, i =>
    if i > 0 then
      let d := DecodeLastRuneInString (s.take i)
      let i := i - d.2
      if f d.1 = truth then (i : Int) else lastIndexFuncLoop s f truth fuel i
    else -1

/-- The function `strings.lastIndexFunc`. -/
def lastIndexFunc (s : Bytes) (f : Nat → Bool) (truth : Bool) : Int :=
  lastIndexFuncLoop s f truth s.length s.length

/-- The function `strings.TrimLeftFunc`. -/
def TrimLeftFunc (s : Bytes) (f : Nat → Bool) : Bytes :=
  let i := indexFunc s f false
  if i = -1 then [] else s.drop i.toNat

/-- The function `strings.TrimRightFunc`. -/
def TrimRightFunc (s : Bytes) (f : Nat → Bool) : Bytes :=
  let i := lastIndexFunc s f false
  let i : Int :=
    if i ≥ 0 ∧ (s.getD i.toNat 0).val ≥ 0x80 then i + (DecodeRuneInString (s.drop i.toNat)).2
    else i + 1
  s.take i.toNat

/-- The function `strings.TrimFunc`. -/
def TrimFunc (s : Bytes) (f : Nat → Bool) : Bytes := TrimRightFunc (TrimLeftFunc s f) f

/-- The function `strings.TrimSpace`: `s` without its leading and trailing
white space, as `TrimFunc(s, unicode.IsSpace)`. -/
def TrimSpace (s : Bytes) : Bytes := TrimFunc s IsSpace

/-! ## Errors -/

/-- A Go `error` value, as far as `configureDevice` can return one. -/
inductive Error where
  /-- An error of `errors.New` or `fmt.Errorf`, which is its text. -/
  | errorString (s : Bytes)
  /-- An `*os.SyscallError`: the name of a system call and the error it wraps. -/
  | SyscallError (Syscall : Bytes) (Err : Error)
  /-- An error of the network layer (of `net.Dial`, `Write` or `Read`), known by
  its text. -/
  | netError (text : Bytes)
  /-- A `syscall.Errno`: an error number of the operating system, the error
  value that is a number. -/
  | Errno (e : Nat)
  deriving DecidableEq

/-- The method `Errno.Error` for a number without an entry in the table of
messages of the platform, `"errno " + itoa(e)`; the table is not modelled. -/
def errnoText (e : Nat) : Bytes := lit "errno " ++ uitoa e

/-- The numeric code an error carries: the number of a `syscall.Errno`, also
when a `SyscallError` wraps it; an error that is a text carries none. -/
def Error.code : Error → Option Nat
  | .Errno e => some e
  | .SyscallError _ err => err.code
  | .errorString _ => none
  | .netError _ => none

/-- The kind of an error: its dynamic type, with the kind of the error it
wraps, which is what a caller can tell apart by a type assertion. -/
inductive ErrorKind where
  | errorString
  | SyscallError (inner : ErrorKind)
  | netError
  | Errno
  deriving DecidableEq

/-- The kind of an error value. -/
def Error.kind : Error → ErrorKind
  | .errorString _ => .errorString
  | .SyscallError _ err => .SyscallError err.kind
  | .netError _ => .netError
  | .Errno _ => .Errno

set_option linter.dupNamespace false in
/-- The method `Error() string`; for a `SyscallError` it is
`e.Syscall + ": " + e.Err.Error()`. -/
def Error.Error : Error → Bytes
  | .errorString s => s
  | .SyscallError sc err => sc ++ lit ": " ++ err.Error
  | .netError text => text
  | .Errno e => errnoText e

/-- The function `fmt.Errorf`. -/
def Errorf (format : Bytes) (args : List Arg) : Error := .errorString (Sprintf format args)

/-- The function `os.NewSyscallError`: `nil` for a `nil` error, else the error
wrapped in a `SyscallError`. -/
def NewSyscallError (syscall : Bytes) (err : Option Error) : Option Error :=
  match err with
  | none => none
  | some err => some (.SyscallError syscall err)

/-- The error `io.ErrShortWrite`. -/
def ErrShortWrite : Error := .errorString (lit "short write")

/-! ## The channel -/

/-- A `net.Conn`, by the outcomes of its operations.  `Write p` gives the
number of bytes written and an error or `nil`.  `Read sent n` is a read into a
buffer of `n` bytes after the bytes `sent` were written: the bytes received (of
which the buffer keeps at most `n`) and an error or `nil`. -/
structure Conn where
  Write : Bytes → Nat × Option Error
  Read : Bytes → Nat → Bytes × Option Error

/-- The network: `Dial network address` gives a channel or an error. -/
structure Network where
  Dial : Bytes → Bytes → Except Error Conn

/-- An operation on the network or on a channel. -/
inductive Event where
  | Dial (network address : Bytes)
  | Write (p : Bytes)
  | Read (n : Nat)
  | Close
  deriving DecidableEq

/-- The function `io.Copy(c, &buf)` on a non-empty `bytes.Buffer`, which is
`buf.WriteTo(c)`: one `Write` of the whole content; the error of the write, or
`io.ErrShortWrite` when fewer bytes were written, or `nil`. -/
def Copy (c : Conn) (buf : Buffer) : Option Error :=
  let r := c.Write buf
  match r.2 with
  | some e => some e
  | none => if r.1 ≠ buf.length then some ErrShortWrite else none

/-! ## configure.go: configureDevice -/

/-- The request `configureDevice` assembles in `buf` (lines 23 to 29): the set
command, the configuration, and an empty line. -/
def request {E N : Type} [Stringer E] [Stringer N] (cfg : Config E N) : Buffer :=
  let buf : Buffer := []
  let buf := buf.WriteString (lit "set=1\n")
  let buf := writeConfig buf cfg
  buf.WriteString (lit "\n")

/-- The body of `configureDevice` once the channel `c` is open, up to its
`return`: the error returned and the operations on `c`. -/
def exchange {E N : Type} [Stringer E] [Stringer N] (c : Conn) (cfg : Config E N) :
    Option Error × List Event :=
  let buf := request cfg
  match Copy c buf with
  | some err => (some err, [.Write buf])
  | none =>
    let r := c.Read buf 32
    match r.2 with
    | some err => (some err, [.Write buf, .Read 32])
    | none =>
      let str := TrimSpace (r.1.take 32)
      if str ≠ lit "errno=0" then
        (NewSyscallError (lit "read") (some (Errorf (lit "wguser: %s") [.str str])),
          [.Write buf, .Read 32])
      else (none, [.Write buf, .Read 32])

/-- The function `configureDevice`: the error it returns (`none` for `nil`) and
the operations it performed, in order.  The deferred `c.Close()` runs when the
function returns, on every path after a successful `Dial`. -/
def configureDevice {E N : Type} [Stringer E] [Stringer N] (net : Network) (path : Bytes)
    (cfg : Config E N) : Option Error × List Event :=
  match net.Dial (lit "unix") path with
  | .error err => (some err, [.Dial (lit "unix") path])
  | .ok c =>
    let r := exchange c cfg
    (r.1, .Dial (lit "unix") path :: r.2 ++ [.Close])

/-! ## The reference rendering

The wire format as §4.1 and §6 of the specification word it: a sequence of
lines, each ended by a line feed. -/

/-- The text of a sequence of lines: every line followed by a line feed. -/
def unlines (ls : List Bytes) : Bytes := ls.flatMap fun l => l ++ [NL]

/-- The lines of a text: its segments ended by a line feed, in order, without
the line feeds.  Bytes after the last line feed end no line and are left out. -/
def linesOf : Bytes → List Bytes
  | [] => []
  | b :: s =>
    if b = NL then [] :: linesOf s
    else
      match linesOf s with
      | [] => []
      | l :: ls => (b :: l) :: ls

/-- A line of an optionally-present field: none when the field is absent. -/
def optLine {α : Type} (key : Bytes) (value : α → Bytes) : Option α → List Bytes
  | some a => [key ++ value a]
  | none => []

/-- A line of a flag: `<key>true` when the flag is set, none otherwise. -/
def flagLine (key : Bytes) (flag : Bool) : List Bytes :=
  if flag then [key ++ lit "true"] else []

/-- The decimal text of the whole seconds `writeConfig` takes from a
keep-alive interval. -/
def keepaliveText (d : Duration) : Bytes := fmtInt (Duration.Seconds d).toInt

/-- Items 1 to 4 of §4.1: the device-level lines. -/
def deviceLines {E N : Type} (cfg : Config E N) : List Bytes :=
  optLine (lit "private_key=") hexKey cfg.PrivateKey ++
  optLine (lit "listen_port=") fmtInt cfg.ListenPort ++
  optLine (lit "fwmark=") fmtInt cfg.FirewallMark ++
  flagLine (lit "replace_peers=") cfg.ReplacePeers

/-- Items 6 to 10 of §4.1: the scalar lines of a peer. -/
def scalarLines {E N : Type} [Stringer E] (p : PeerConfig E N) : List Bytes :=
  flagLine (lit "remove=") p.Remove ++
  optLine (lit "preshared_key=") hexKey p.PresharedKey ++
  optLine (lit "endpoint=") Stringer.String p.Endpoint ++
  optLine (lit "persistent_keepalive_interval=") keepaliveText p.PersistentKeepaliveInterval ++
  flagLine (lit "replace_allowed_ips=") p.ReplaceAllowedIPs

/-- Item 11 of §4.1: one line per allowed-IP entry, in sequence order. -/
def allowedLines {E N : Type} [Stringer N] (p : PeerConfig E N) : List Bytes :=
  p.AllowedIPs.map fun ip => lit "allowed_ip=" ++ Stringer.String ip

/-- Items 5 to 11 of §4.1: the lines of a peer. -/
def peerLines {E N : Type} [Stringer E] [Stringer N] (p : PeerConfig E N) : List Bytes :=
  (lit "public_key=" ++ hexKey p.PublicKey) :: (scalarLines p ++ allowedLines p)

/-- The lines of a configuration by §4.1: the device-level lines, then the
lines of each peer in sequence order. -/
def configLines {E N : Type} [Stringer E] [Stringer N] (cfg : Config E N) : List Bytes :=
  deviceLines cfg ++ cfg.Peers.flatMap peerLines

/-- The reference rendering of a configuration. -/
def render {E N : Type} [Stringer E] [Stringer N] (cfg : Config E N) : Bytes :=
  unlines (configLines cfg)

/-- The keys of the scalar fields of a peer. -/
def scalarKeys : List Bytes :=
  [lit "remove=", lit "preshared_key=", lit "endpoint=", lit "persistent_keepalive_interval=",
    lit "replace_allowed_ips="]

/-- The text forms of the endpoint and of the allowed-IP entries of a peer
contain no line feed. -/
def PeerConfig.NewlineFree {E N : Type} [Stringer E] [Stringer N] (p : PeerConfig E N) : Prop :=
  (∀ e ∈ p.Endpoint, NL ∉ Stringer.String e) ∧ ∀ ip ∈ p.AllowedIPs, NL ∉ Stringer.String ip

instance {E N : Type} [Stringer E] [Stringer N] (p : PeerConfig E N) : Decidable p.NewlineFree := by
  unfold PeerConfig.NewlineFree
  exact inferInstance

/-- The endpoint and prefix texts of a configuration contain no line feed. -/
def Config.NewlineFree {E N : Type} [Stringer E] [Stringer N] (cfg : Config E N) : Prop :=
  ∀ p ∈ cfg.Peers, p.NewlineFree

instance {E N : Type} [Stringer E] [Stringer N] (cfg : Config E N) : Decidable cfg.NewlineFree := by
  unfold Config.NewlineFree
  exact inferInstance

/-- The lower-case hexadecimal digit of a value below 16: `'0'` to `'9'` for 0
to 9 and `'a'` to `'f'` for 10 to 15. -/
def lowerHexDigit (n : Nat) : Byte :=
  if n < 10 then Fin.ofNat (48 + n) else Fin.ofNat (97 + (n - 10))

/-- The number a sequence of decimal digits stands for, most significant digit
first. -/
def decimalValue (ds : Bytes) : Nat := ds.foldl (fun a b => 10 * a + (b.val - 48)) 0

/-! ## Example configurations -/

/-- A white-space byte of a status reply: a space, a tab, a carriage return or
a line feed. -/
def IsBlank (b : Byte) : Prop := b.val = 32 ∨ b.val = 9 ∨ b.val = 13 ∨ b.val = 10

instance (b : Byte) : Decidable (IsBlank b) := by
  unfold IsBlank
  exact inferInstance

/-- The channel to a device that takes every write in full and then sends
`response`. -/
def replying (response : Bytes) : Conn where
  Write := fun p => (p.length, none)
  Read := fun _ _ => (response, none)

/-- The network in which every `Dial` opens a channel to such a device. -/
def replyingNetwork (response : Bytes) : Network where
  Dial := fun _ _ => .ok (replying response)

/-- A network in which every `Dial` fails. -/
def unreachableNetwork : Network where
  Dial := fun _ _ => .error (.netError (lit "dial unix: connect: no such file or directory"))

/-- The path of a device socket. -/
def socketPath : Bytes := lit "/var/run/wireguard/wg0.sock"


/-- A key: the bytes 1 to 32. -/
def keyA : Key := ⟨(List.range 32).map fun i => Fin.ofNat (i + 1), by decide⟩

/-- A key: the bytes 255 down to 224. -/
def keyB : Key := ⟨(List.range 32).map fun i => Fin.ofNat (255 - i), by decide⟩

/-- A key of zero bytes. -/
def keyZero : Key := ⟨List.replicate 32 0, by decide⟩

/-- A peer with every optional field present, both flags set and two allowed-IP
entries: endpoint `192.168.1.1:51820`, keep-alive 25 s, `10.0.0.0/8` and
`2001:db8::/32`. -/
def peerFull : PeerConfig UDPAddr IPNet where
  PublicKey := keyA
  Remove := true
  PresharedKey := some keyB
  Endpoint := some ⟨[192, 168, 1, 1], 51820, []⟩
  PersistentKeepaliveInterval := some 25000000000
  ReplaceAllowedIPs := true
  AllowedIPs :=
    [⟨[10, 0, 0, 0], [255, 0, 0, 0]⟩,
     ⟨[0x20, 0x01, 0x0d, 0xb8, 0, 0, 0, 0, 0, 0, 0, 0, 0, 0, 0, 0],
      [255, 255, 255, 255, 0, 0, 0, 0, 0, 0, 0, 0, 0, 0, 0, 0]⟩]

/-- A peer with nothing but its public key. -/
def peerBare : PeerConfig UDPAddr IPNet where
  PublicKey := keyB
  Remove := false
  PresharedKey := none
  Endpoint := none
  PersistentKeepaliveInterval := none
  ReplaceAllowedIPs := false
  AllowedIPs := []

/-- A configuration with every optional field present and two peers. -/
def configFull : Config UDPAddr IPNet where
  PrivateKey := some keyZero
  ListenPort := some 51820
  FirewallMark := some 0
  ReplacePeers := true
  Peers := [peerFull, peerBare]

/-- A configuration with no private key, firewall mark or replace flag, a
listen port and two peers. -/
def configSparse : Config UDPAddr IPNet where
  PrivateKey := none
  ListenPort := some 51820
  FirewallMark := none
  ReplacePeers := false
  Peers := [peerBare, peerFull]

/-- The configuration with no field present, no flag set and no peer. -/
def configEmpty : Config UDPAddr IPNet where
  PrivateKey := none
  ListenPort := none
  FirewallMark := none
  ReplacePeers := false
  Peers := []

/-- A peer whose endpoint has a zone with line feeds in it: the zone is
`x`, a line feed, `remove=true`, a line feed, and `endpoint=[fe80::1%y`. -/
def peerInjected : PeerConfig UDPAddr IPNet where
  PublicKey := keyA
  Remove := false
  PresharedKey := none
  Endpoint := some
    ⟨[0xfe, 0x80, 0, 0, 0, 0, 0, 0, 0, 0, 0, 0, 0, 0, 0, 1], 51820,
      lit "x\nremove=true\nendpoint=[fe80::1%y"⟩
  PersistentKeepaliveInterval := none
  ReplaceAllowedIPs := false
  AllowedIPs := []

/-- A configuration with that peer alone. -/
def configInjected : Config UDPAddr IPNet where
  PrivateKey := none
  ListenPort := none
  FirewallMark := none
  ReplacePeers := false
  Peers := [peerInjected]

/-- The zone strings of the endpoints of a configuration contain no line
feed. -/
def ZonesNewlineFree (cfg : Config UDPAddr IPNet) : Prop :=
  ∀ p ∈ cfg.Peers, ∀ e ∈ p.Endpoint, NL ∉ e.Zone

instance (cfg : Config UDPAddr IPNet) : Decidable (ZonesNewlineFree cfg) := by
  unfold ZonesNewlineFree
  exact inferInstance

/-- A peer with nothing but its public key and a keep-alive interval of
16777216 seconds (2 to the 24) and 999999999 nanoseconds. -/
def peerLongKeepalive : PeerConfig UDPAddr IPNet where
  PublicKey := keyA
  Remove := false
  PresharedKey := none
  Endpoint := none
  PersistentKeepaliveInterval := some 16777216999999999
  ReplaceAllowedIPs := false
  AllowedIPs := []

/-- A keep-alive interval that is a whole number of seconds, within the range of
a signed 64-bit duration. -/
def WholeSeconds (d : Int) : Prop :=
  Int.tmod d 1000000000 = 0 ∧ -9223372036854775808 ≤ d ∧ d < 9223372036854775808

instance (d : Int) : Decidable (WholeSeconds d) := by
  unfold WholeSeconds
  exact inferInstance

/-- The present keep-alive intervals of a configuration are whole numbers of
seconds. -/
def Config.WholeSeconds {E N : Type} (cfg : Config E N) : Prop :=
  ∀ p ∈ cfg.Peers, ∀ d ∈ p.PersistentKeepaliveInterval, Wguser.WholeSeconds d

instance {E N : Type} (cfg : Config E N) : Decidable cfg.WholeSeconds := by
  unfold Config.WholeSeconds
  exact inferInstance

/-- The text renderings are injective between the endpoints, and between the
allowed-IP entries, of two configurations: two such values with the same text
are equal. -/
def TextsInjective {E N : Type} [Stringer E] [Stringer N] (cfg₁ cfg₂ : Config E N) : Prop :=
  ∀ p₁ ∈ cfg₁.Peers, ∀ p₂ ∈ cfg₂.Peers,
    (∀ a ∈ p₁.Endpoint, ∀ b ∈ p₂.Endpoint,
      (Stringer.String a : Bytes) = Stringer.String b → a = b) ∧
    ∀ a ∈ p₁.AllowedIPs, ∀ b ∈ p₂.AllowedIPs,
      (Stringer.String a : Bytes) = Stringer.String b → a = b

instance {E N : Type} [Stringer E] [Stringer N] [DecidableEq E] [DecidableEq N]
    (cfg₁ cfg₂ : Config E N) : Decidable (TextsInjective cfg₁ cfg₂) := by
  unfold TextsInjective
  exact inferInstance

/-- A visible character of ASCII, from `!` to `~`. -/
def IsVisible (b : Byte) : Prop := 0x21 ≤ b.val ∧ b.val ≤ 0x7E

instance (b : Byte) : Decidable (IsVisible b) := by
  unfold IsVisible
  exact inferInstance

/-- A line of a scalar field of a peer: it begins with the key of one. -/
def IsScalarLine (l : Bytes) : Prop := ∃ key ∈ scalarKeys, key <+: l

instance (l : Bytes) : Decidable (IsScalarLine l) := by
  unfold IsScalarLine
  exact inferInstance

/-- A line of an allowed-IP entry: it begins with `allowed_ip=`. -/
def IsAllowedLine (l : Bytes) : Prop := lit "allowed_ip=" <+: l

instance (l : Bytes) : Decidable (IsAllowedLine l) := by
  unfold IsAllowedLine
  exact inferInstance

/-- The shape of the lines of a peer block, as the invariants of §3 of the
specification word it: the first line is a `public_key=` line, so no line
precedes it; every line after it is a line of a scalar field or an
`allowed_ip=` line; and no line of a scalar field comes after an `allowed_ip=`
line. -/
def PeerShape : List Bytes → Prop
  | [] => False
  | pk :: rest =>
    lit "public_key=" <+: pk ∧ (∀ l ∈ rest, IsScalarLine l ∨ IsAllowedLine l) ∧
      rest.Pairwise fun a b => IsAllowedLine a → ¬ IsScalarLine b

instance : (ls : List Bytes) → Decidable (PeerShape ls)
  | [] => isFalse fun h => h
  | pk :: rest => by
    unfold PeerShape
    exact inferInstance

/-- A peer with the remove flag unset, no allowed-IP entry, and an endpoint
whose zone has line feeds in it: the zone is `x`, a line feed,
`allowed_ip=0.0.0.0/0`, a line feed, `remove=true`, a line feed, and
`endpoint=[fe80::1%y`. -/
def peerShuffled : PeerConfig UDPAddr IPNet where
  PublicKey := keyA
  Remove := false
  PresharedKey := none
  Endpoint := some
    ⟨[0xfe, 0x80, 0, 0, 0, 0, 0, 0, 0, 0, 0, 0, 0, 0, 0, 1], 51820,
      lit "x\nallowed_ip=0.0.0.0/0\nremove=true\nendpoint=[fe80::1%y"⟩
  PersistentKeepaliveInterval := none
  ReplaceAllowedIPs := false
  AllowedIPs := []

/-- A peer whose optional fields are all present with the zero value: a
preshared key of zero bytes, the endpoint of a zero `net.UDPAddr` (no address,
port 0, no zone) and a keep-alive interval of zero. -/
def peerZero : PeerConfig UDPAddr IPNet where
  PublicKey := keyA
  Remove := false
  PresharedKey := some keyZero
  Endpoint := some ⟨[], 0, []⟩
  PersistentKeepaliveInterval := some 0
  ReplaceAllowedIPs := false
  AllowedIPs := []

/-! # Theorems -/

set_option maxRecDepth 100000

section Rendering

variable {E N : Type}

/-! ## Lines and their text -/

theorem unlines_nil : unlines ([] : List Bytes) = [] := rfl

theorem unlines_cons (l : Bytes) (ls : List Bytes) :
    unlines (l :: ls) = l ++ NL :: unlines ls := by
  simp [unlines]

theorem unlines_append (a b : List Bytes) : unlines (a ++ b) = unlines a ++ unlines b := by
  simp [unlines]

theorem unlines_singleton (l : Bytes) : unlines [l] = l ++ [NL] := by
  simp [unlines]

theorem unlines_flatMap {α : Type} (f : α → List Bytes) (xs : List α) :
    unlines (xs.flatMap f) = xs.flatMap fun x => unlines (f x) := by
  induction xs with
  | nil => rfl
  | cons x xs ih => simp [List.flatMap_cons, unlines_append, ih]

/-! ## The format strings of writeConfig -/

theorem Sprintf_private_key (x : Bytes) :
    Sprintf (lit "private_key=%s\n") [.str x] = lit "private_key=" ++ x ++ [NL] := rfl

theorem Sprintf_listen_port (i : Int) :
    Sprintf (lit "listen_port=%d\n") [.int i] = lit "listen_port=" ++ fmtInt i ++ [NL] := rfl

theorem Sprintf_fwmark (i : Int) :
    Sprintf (lit "fwmark=%d\n") [.int i] = lit "fwmark=" ++ fmtInt i ++ [NL] := rfl

theorem Sprintf_replace_peers :
    Sprintf (lit "replace_peers=true\n") [] = lit "replace_peers=" ++ lit "true" ++ [NL] := rfl

theorem Sprintf_public_key (x : Bytes) :
    Sprintf (lit "public_key=%s\n") [.str x] = lit "public_key=" ++ x ++ [NL] := rfl

theorem Sprintf_remove :
    Sprintf (lit "remove=true\n") [] = lit "remove=" ++ lit "true" ++ [NL] := rfl

theorem Sprintf_preshared_key (x : Bytes) :
    Sprintf (lit "preshared_key=%s\n") [.str x] = lit "preshared_key=" ++ x ++ [NL] := rfl

theorem Sprintf_endpoint (x : Bytes) :
    Sprintf (lit "endpoint=%s\n") [.str x] = lit "endpoint=" ++ x ++ [NL] := rfl

theorem Sprintf_keepalive (i : Int) :
    Sprintf (lit "persistent_keepalive_interval=%d\n") [.int i] =
      lit "persistent_keepalive_interval=" ++ fmtInt i ++ [NL] := rfl

theorem Sprintf_replace_allowed_ips :
    Sprintf (lit "replace_allowed_ips=true\n") [] =
      lit "replace_allowed_ips=" ++ lit "true" ++ [NL] := rfl

theorem Sprintf_allowed_ip (x : Bytes) :
    Sprintf (lit "allowed_ip=%s\n") [.str x] = lit "allowed_ip=" ++ x ++ [NL] := rfl

/-! ## writeConfig against the reference rendering -/

theorem foldl_allowed_ip [Stringer N] (ips : List N) (w : Buffer) :
    ips.foldl (fun w ip => Fprintf w (lit "allowed_ip=%s\n") [.str (Stringer.String ip)]) w =
      w ++ unlines (ips.map fun ip => lit "allowed_ip=" ++ Stringer.String ip) := by
  induction ips generalizing w with
  | nil => simp [unlines_nil]
  | cons ip ips ih =>
    rw [List.foldl_cons, ih, List.map_cons, unlines_cons, Fprintf, Sprintf_allowed_ip]
    simp [List.append_assoc]

theorem writePeer_eq [Stringer E] [Stringer N] (w : Buffer) (p : PeerConfig E N) :
    writePeer w p = w ++ unlines (peerLines p) := by
  obtain ⟨pk, rm, psk, ep, ka, ra, ips⟩ := p
  simp only [writePeer, foldl_allowed_ip, peerLines, scalarLines, allowedLines, unlines_cons,
    unlines_append]
  cases rm <;> cases psk <;> cases ep <;> cases ka <;> cases ra <;>
    simp [Fprintf, Sprintf_public_key, Sprintf_remove, Sprintf_preshared_key, Sprintf_endpoint,
      Sprintf_keepalive, Sprintf_replace_allowed_ips, optLine, flagLine, unlines_nil,
      unlines_singleton, keepaliveText, List.append_assoc]

theorem foldl_writePeer [Stringer E] [Stringer N] (ps : List (PeerConfig E N)) (w : Buffer) :
    ps.foldl writePeer w = w ++ unlines (ps.flatMap peerLines) := by
  induction ps generalizing w with
  | nil => simp [unlines_nil]
  | cons p ps ih =>
    rw [List.foldl_cons, ih, writePeer_eq, List.flatMap_cons, unlines_append,
      List.append_assoc]

theorem writeDevice_eq [Stringer E] [Stringer N] (w : Buffer) (cfg : Config E N) :
    writeConfig w cfg = w ++ unlines (deviceLines cfg) ++ unlines (cfg.Peers.flatMap peerLines) := by
  obtain ⟨sk, port, mark, rp, ps⟩ := cfg
  simp only [writeConfig, foldl_writePeer, deviceLines, unlines_append]
  cases sk <;> cases port <;> cases mark <;> cases rp <;>
    simp [Fprintf, Sprintf_private_key, Sprintf_listen_port, Sprintf_fwmark,
      Sprintf_replace_peers, optLine, flagLine, unlines_nil, unlines_singleton,
      List.append_assoc]

theorem writeConfig_unlines [Stringer E] [Stringer N] (w : Buffer) (cfg : Config E N) :
    writeConfig w cfg = w ++ unlines (configLines cfg) := by
  rw [writeDevice_eq, configLines, unlines_append, List.append_assoc]

/-- C1. For every configuration and every writer, `writeConfig` appends to the
writer exactly the reference rendering of the configuration: the lines of
§4.1, each ended by a line feed, in that order (the device-level lines present,
then per peer in sequence order the public key, the scalar lines present and
one line per allowed-IP entry), and nothing else. -/
theorem writeConfig_eq_render [Stringer E] [Stringer N] (w : Buffer) (cfg : Config E N) :
    writeConfig w cfg = w ++ render cfg := by
  rw [writeDevice_eq, render, configLines, unlines_append, List.append_assoc]

/-- The output for `configFull`, byte for byte: every optional field, and two
peers, the first with every optional field and two allowed-IP entries. -/
theorem writeConfig_configFull :
    writeConfig [] configFull =
      lit ("private_key=0000000000000000000000000000000000000000000000000000000000000000\n" ++
        "listen_port=51820\n" ++
        "fwmark=0\n" ++
        "replace_peers=true\n" ++
        "public_key=0102030405060708090a0b0c0d0e0f101112131415161718191a1b1c1d1e1f20\n" ++
        "remove=true\n" ++
        "preshared_key=fffefdfcfbfaf9f8f7f6f5f4f3f2f1f0efeeedecebeae9e8e7e6e5e4e3e2e1e0\n" ++
        "endpoint=192.168.1.1:51820\n" ++
        "persistent_keepalive_interval=25\n" ++
        "replace_allowed_ips=true\n" ++
        "allowed_ip=10.0.0.0/8\n" ++
        "allowed_ip=2001:db8::/32\n" ++
        "public_key=fffefdfcfbfaf9f8f7f6f5f4f3f2f1f0efeeedecebeae9e8e7e6e5e4e3e2e1e0\n") := by
  decide

/-! ## writeConfig: peer blocks -/

theorem writePeer_append [Stringer E] [Stringer N] (w : Buffer) (p : PeerConfig E N) :
    writePeer w p = w ++ writePeer [] p := by
  rw [writePeer_eq, writePeer_eq []]
  simp

theorem foldl_writePeer_blocks [Stringer E] [Stringer N] (ps : List (PeerConfig E N)) (w : Buffer) :
    ps.foldl writePeer w = w ++ (ps.map (writePeer [])).flatten := by
  induction ps generalizing w with
  | nil => simp
  | cons p ps ih =>
    rw [List.foldl_cons, ih, writePeer_append w p]
    simp [List.append_assoc]

/-- C2. For every configuration, the output of `writeConfig` is its device
portion (the output for the same configuration without peers) followed by the
concatenation of the per-peer blocks in the order of `cfg.Peers`: there are as
many blocks as peers, and the i-th block is the block `writePeer` writes for the
i-th peer; two peers that carry the same public key both keep their block, in
their order. -/
theorem writeConfig_peer_blocks [Stringer E] [Stringer N] (w : Buffer) (cfg : Config E N) :
    writeConfig w cfg =
        writeConfig w ({ cfg with Peers := [] } : Config E N) ++ (cfg.Peers.map (writePeer [])).flatten ∧
      (cfg.Peers.map (writePeer [] : PeerConfig E N → Buffer)).length = cfg.Peers.length ∧
      (∀ (i : Nat) (h : i < cfg.Peers.length),
        (cfg.Peers.map (writePeer [])).getD i [] = writePeer [] (cfg.Peers.get ⟨i, h⟩)) ∧
      ∀ p q : PeerConfig E N, p.PublicKey = q.PublicKey →
        writeConfig w ({ cfg with Peers := [p, q] } : Config E N) =
          writeConfig w ({ cfg with Peers := [] } : Config E N) ++ writePeer [] p ++ writePeer [] q := by
  refine ⟨?_, by simp, ?_, ?_⟩
  · simp only [writeConfig, List.foldl_nil]
    exact foldl_writePeer_blocks _ _
  · intro i h
    simp [List.getD_eq_getElem?_getD, h]
  · intro p q _
    simp only [writeConfig, List.foldl_nil, List.foldl_cons]
    rw [writePeer_append _ q, writePeer_append _ p]

/-! ## Line feeds: values without one, and the lines of the output -/

theorem linesOf_append_NL (l s : Bytes) (h : NL ∉ l) :
    linesOf (l ++ NL :: s) = l :: linesOf s := by
  induction l with
  | nil => simp [linesOf]
  | cons b l ih =>
    have hb : b ≠ NL := fun e => h (by simp [e])
    have hl : NL ∉ l := fun e => h (by simp [e])
    simp [linesOf, hb, ih hl]

theorem linesOf_unlines (ls : List Bytes) (h : ∀ l ∈ ls, NL ∉ l) : linesOf (unlines ls) = ls := by
  induction ls with
  | nil => rfl
  | cons l ls ih =>
    rw [unlines_cons, linesOf_append_NL l _ (h l (by simp)),
      ih fun l' hl' => h l' (by simp [hl'])]

theorem hextable_ne_NL : ∀ i : Fin 16, hextable.getD i.val 0 ≠ NL := by decide

theorem shiftRight_four_lt (v : Byte) : v.val >>> 4 < 16 := by
  have := v.isLt
  simp only [Nat.shiftRight_eq_div_pow]
  omega

theorem and_fifteen_lt (v : Byte) : v.val &&& 0x0f < 16 :=
  Nat.lt_of_le_of_lt Nat.and_le_right (by decide)

theorem NL_not_mem_EncodeToString (src : Bytes) : NL ∉ EncodeToString src := by
  induction src with
  | nil => simp [EncodeToString]
  | cons v src ih =>
    have h₁ := hextable_ne_NL ⟨v.val >>> 4, shiftRight_four_lt v⟩
    have h₂ := hextable_ne_NL ⟨v.val &&& 0x0f, and_fifteen_lt v⟩
    simp only [EncodeToString, List.mem_cons, not_or]
    exact ⟨fun e => h₁ e.symm, fun e => h₂ e.symm, ih⟩

theorem NL_not_mem_hexKey (k : Key) : NL ∉ hexKey k := NL_not_mem_EncodeToString _

theorem digit_ne_NL (n : Nat) : (Fin.ofNat (48 + n % 10) : Byte) ≠ NL := by
  have h : n % 10 < 10 := Nat.mod_lt _ (by decide)
  generalize n % 10 = m at h
  interval_cases m <;> decide

theorem NL_not_mem_digitsLoop (fuel n : Nat) (acc : Bytes) (h : NL ∉ acc) :
    NL ∉ digitsLoop fuel n acc := by
  induction fuel generalizing n acc with
  | zero => simpa [digitsLoop] using h
  | succ fuel ih =>
    have hacc : NL ∉ (Fin.ofNat (48 + n % 10) : Byte) :: acc := by
      simp only [List.mem_cons, not_or]
      exact ⟨fun e => digit_ne_NL n e.symm, h⟩
    simp only [digitsLoop]
    split
    · exact hacc
    · exact ih _ _ hacc

theorem NL_not_mem_fmtInt (i : Int) : NL ∉ fmtInt i := by
  unfold fmtInt uitoa
  split
  · simp only [List.mem_cons, not_or]
    exact ⟨by decide, NL_not_mem_digitsLoop _ _ _ (by simp)⟩
  · exact NL_not_mem_digitsLoop _ _ _ (by simp)

/-! ## Which lines a configuration has -/

theorem mem_optLine {α : Type} (key : Bytes) (f : α → Bytes) (o : Option α) (l : Bytes) :
    l ∈ optLine key f o ↔ ∃ a, o = some a ∧ l = key ++ f a := by
  cases o <;> simp [optLine]

theorem mem_flagLine (key : Bytes) (b : Bool) (l : Bytes) :
    l ∈ flagLine key b ↔ b = true ∧ l = key ++ lit "true" := by
  cases b <;> simp [flagLine]

theorem mem_deviceLines (cfg : Config E N) (l : Bytes) :
    l ∈ deviceLines cfg ↔
      (∃ k, cfg.PrivateKey = some k ∧ l = lit "private_key=" ++ hexKey k) ∨
      (∃ i, cfg.ListenPort = some i ∧ l = lit "listen_port=" ++ fmtInt i) ∨
      (∃ i, cfg.FirewallMark = some i ∧ l = lit "fwmark=" ++ fmtInt i) ∨
      (cfg.ReplacePeers = true ∧ l = lit "replace_peers=" ++ lit "true") := by
  simp only [deviceLines, List.mem_append, mem_optLine, mem_flagLine, or_assoc]

theorem mem_scalarLines [Stringer E] (p : PeerConfig E N) (l : Bytes) :
    l ∈ scalarLines p ↔
      (p.Remove = true ∧ l = lit "remove=" ++ lit "true") ∨
      (∃ k, p.PresharedKey = some k ∧ l = lit "preshared_key=" ++ hexKey k) ∨
      (∃ e, p.Endpoint = some e ∧ l = lit "endpoint=" ++ Stringer.String e) ∨
      (∃ d, p.PersistentKeepaliveInterval = some d ∧
        l = lit "persistent_keepalive_interval=" ++ keepaliveText d) ∨
      (p.ReplaceAllowedIPs = true ∧ l = lit "replace_allowed_ips=" ++ lit "true") := by
  simp only [scalarLines, List.mem_append, mem_optLine, mem_flagLine, or_assoc]

theorem mem_peerLines [Stringer E] [Stringer N] (p : PeerConfig E N) (l : Bytes) :
    l ∈ peerLines p ↔
      l = lit "public_key=" ++ hexKey p.PublicKey ∨ l ∈ scalarLines p ∨
      ∃ ip ∈ p.AllowedIPs, l = lit "allowed_ip=" ++ Stringer.String ip := by
  simp only [peerLines, allowedLines, List.mem_cons, List.mem_append, List.mem_map, eq_comm]

theorem NL_not_mem_key_append {key v : Bytes} (hk : NL ∉ key) (hv : NL ∉ v) : NL ∉ key ++ v := by
  simp [hk, hv]

theorem peerLines_newlineFree [Stringer E] [Stringer N] (p : PeerConfig E N)
    (h : p.NewlineFree) : ∀ l ∈ peerLines p, NL ∉ l := by
  intro l hl
  rw [mem_peerLines, mem_scalarLines] at hl
  rcases hl with rfl | (⟨-, rfl⟩ | ⟨k, -, rfl⟩ | ⟨e, he, rfl⟩ | ⟨d, -, rfl⟩ | ⟨-, rfl⟩) |
    ⟨ip, hip, rfl⟩
  · exact NL_not_mem_key_append (by decide) (NL_not_mem_hexKey _)
  · decide
  · exact NL_not_mem_key_append (by decide) (NL_not_mem_hexKey _)
  · exact NL_not_mem_key_append (by decide) (h.1 e he)
  · exact NL_not_mem_key_append (by decide) (NL_not_mem_fmtInt _)
  · decide
  · exact NL_not_mem_key_append (by decide) (h.2 ip hip)

theorem deviceLines_newlineFree (cfg : Config E N) : ∀ l ∈ deviceLines cfg, NL ∉ l := by
  intro l hl
  rw [mem_deviceLines] at hl
  rcases hl with ⟨k, -, rfl⟩ | ⟨i, -, rfl⟩ | ⟨i, -, rfl⟩ | ⟨-, rfl⟩
  · exact NL_not_mem_key_append (by decide) (NL_not_mem_hexKey _)
  · exact NL_not_mem_key_append (by decide) (NL_not_mem_fmtInt _)
  · exact NL_not_mem_key_append (by decide) (NL_not_mem_fmtInt _)
  · decide

theorem configLines_newlineFree [Stringer E] [Stringer N] (cfg : Config E N)
    (h : cfg.NewlineFree) : ∀ l ∈ configLines cfg, NL ∉ l := by
  intro l hl
  rw [configLines, List.mem_append, List.mem_flatMap] at hl
  rcases hl with hl | ⟨p, hp, hl⟩
  · exact deviceLines_newlineFree cfg l hl
  · exact peerLines_newlineFree p (h p hp) l hl

theorem linesOf_writeConfig [Stringer E] [Stringer N] (cfg : Config E N)
    (h : cfg.NewlineFree) : linesOf (writeConfig [] cfg) = configLines cfg := by
  rw [writeConfig_unlines, List.nil_append, linesOf_unlines _ (configLines_newlineFree cfg h)]

theorem linesOf_writePeer [Stringer E] [Stringer N] (p : PeerConfig E N)
    (h : p.NewlineFree) : linesOf (writePeer [] p) = peerLines p := by
  rw [writePeer_eq, List.nil_append, linesOf_unlines _ (peerLines_newlineFree p h)]

/-! ## The keys of the scalar lines of a peer -/

theorem scalarKey_of_mem_scalarLines [Stringer E] (p : PeerConfig E N) (l : Bytes) (h : l ∈ scalarLines p) :
    ∃ key ∈ scalarKeys, ∃ v, l = key ++ v := by
  obtain ⟨pk, rm, psk, ep, ka, ra, ips⟩ := p
  simp only [scalarLines, List.mem_append] at h
  rcases h with (((h | h) | h) | h) | h
  · cases rm <;> simp [flagLine] at h
    exact ⟨lit "remove=", by simp [scalarKeys], _, h⟩
  · cases psk <;> simp [optLine] at h
    exact ⟨lit "preshared_key=", by simp [scalarKeys], _, h⟩
  · cases ep <;> simp [optLine] at h
    exact ⟨lit "endpoint=", by simp [scalarKeys], _, h⟩
  · cases ka <;> simp [optLine] at h
    exact ⟨lit "persistent_keepalive_interval=", by simp [scalarKeys], _, h⟩
  · cases ra <;> simp [flagLine] at h
    exact ⟨lit "replace_allowed_ips=", by simp [scalarKeys], _, h⟩

theorem not_prefix_append {k₁ k₂ : Bytes} (x : Bytes) (h₁ : ¬ k₁ <+: k₂) (h₂ : ¬ k₂ <+: k₁) :
    ¬ k₁ <+: k₂ ++ x := by
  intro h
  rcases List.prefix_or_prefix_of_prefix h (List.prefix_append k₂ x) with h' | h'
  · exact h₁ h'
  · exact h₂ h'

/-! ## Absent fields and unset flags give no line -/

theorem mem_configLines [Stringer E] [Stringer N] (cfg : Config E N) (l : Bytes) :
    l ∈ configLines cfg ↔ l ∈ deviceLines cfg ∨ ∃ p ∈ cfg.Peers, l ∈ peerLines p := by
  rw [configLines, List.mem_append, List.mem_flatMap]

theorem deviceLines_not_peerKey (cfg : Config E N) (l : Bytes) (hl : l ∈ deviceLines cfg) :
    ¬ lit "public_key=" <+: l ∧ ¬ lit "remove=" <+: l ∧ ¬ lit "preshared_key=" <+: l ∧
      ¬ lit "endpoint=" <+: l ∧ ¬ lit "persistent_keepalive_interval=" <+: l ∧
      ¬ lit "replace_allowed_ips=" <+: l ∧ ¬ lit "allowed_ip=" <+: l := by
  rw [mem_deviceLines] at hl
  rcases hl with ⟨k, -, rfl⟩ | ⟨i, -, rfl⟩ | ⟨i, -, rfl⟩ | ⟨-, rfl⟩ <;>
    refine ⟨?_, ?_, ?_, ?_, ?_, ?_, ?_⟩ <;>
    exact not_prefix_append _ (by decide) (by decide)

theorem peerLines_not_deviceKey [Stringer E] [Stringer N] (p : PeerConfig E N) (l : Bytes)
    (hl : l ∈ peerLines p) :
    ¬ lit "private_key=" <+: l ∧ ¬ lit "listen_port=" <+: l ∧ ¬ lit "fwmark=" <+: l ∧
      ¬ lit "replace_peers=" <+: l := by
  rw [mem_peerLines, mem_scalarLines] at hl
  rcases hl with rfl | (⟨-, rfl⟩ | ⟨k, -, rfl⟩ | ⟨e, -, rfl⟩ | ⟨d, -, rfl⟩ | ⟨-, rfl⟩) |
    ⟨ip, -, rfl⟩ <;>
    refine ⟨?_, ?_, ?_, ?_⟩ <;>
    exact not_prefix_append _ (by decide) (by decide)

theorem deviceLines_absent (cfg : Config E N) (l : Bytes) (hl : l ∈ deviceLines cfg) :
    (cfg.PrivateKey = none → ¬ lit "private_key=" <+: l) ∧
      (cfg.ListenPort = none → ¬ lit "listen_port=" <+: l) ∧
      (cfg.FirewallMark = none → ¬ lit "fwmark=" <+: l) ∧
      (cfg.ReplacePeers = false → ¬ lit "replace_peers=" <+: l) := by
  rw [mem_deviceLines] at hl
  rcases hl with ⟨k, hk, rfl⟩ | ⟨i, hi, rfl⟩ | ⟨i, hi, rfl⟩ | ⟨hb, rfl⟩ <;>
    refine ⟨?_, ?_, ?_, ?_⟩ <;> intro h <;>
    first
      | exact not_prefix_append _ (by decide) (by decide)
      | (rw [h] at hk; cases hk)
      | (rw [h] at hi; cases hi)
      | (rw [h] at hb; cases hb)

theorem peerLines_absent [Stringer E] [Stringer N] (p : PeerConfig E N) (l : Bytes)
    (hl : l ∈ peerLines p) :
    (p.Remove = false → ¬ lit "remove=" <+: l) ∧
      (p.PresharedKey = none → ¬ lit "preshared_key=" <+: l) ∧
      (p.Endpoint = none → ¬ lit "endpoint=" <+: l) ∧
      (p.PersistentKeepaliveInterval = none → ¬ lit "persistent_keepalive_interval=" <+: l) ∧
      (p.ReplaceAllowedIPs = false → ¬ lit "replace_allowed_ips=" <+: l) := by
  rw [mem_peerLines, mem_scalarLines] at hl
  rcases hl with rfl | (⟨hb, rfl⟩ | ⟨k, hk, rfl⟩ | ⟨e, hk, rfl⟩ | ⟨d, hk, rfl⟩ | ⟨hb, rfl⟩) |
    ⟨ip, -, rfl⟩ <;>
    refine ⟨?_, ?_, ?_, ?_, ?_⟩ <;> intro h <;>
    first
      | exact not_prefix_append _ (by decide) (by decide)
      | (rw [h] at hk; cases hk)
      | (rw [h] at hb; cases hb)

theorem configLines_no_false [Stringer E] [Stringer N] (cfg : Config E N) (l : Bytes)
    (hl : l ∈ configLines cfg) :
    l ≠ lit "replace_peers=false" ∧ l ≠ lit "replace_allowed_ips=false" ∧
      l ≠ lit "remove=false" := by
  have key : ∀ (k v t : Bytes), ¬ k <+: t → k ++ v ≠ t := by
    intro k v t hk e
    exact hk (e ▸ List.prefix_append k v)
  rw [mem_configLines, mem_deviceLines] at hl
  rcases hl with (⟨k, -, rfl⟩ | ⟨i, -, rfl⟩ | ⟨i, -, rfl⟩ | ⟨-, rfl⟩) | ⟨p, -, hl⟩
  · exact ⟨key _ _ _ (by decide), key _ _ _ (by decide), key _ _ _ (by decide)⟩
  · exact ⟨key _ _ _ (by decide), key _ _ _ (by decide), key _ _ _ (by decide)⟩
  · exact ⟨key _ _ _ (by decide), key _ _ _ (by decide), key _ _ _ (by decide)⟩
  · exact ⟨by decide, by decide, by decide⟩
  · rw [mem_peerLines, mem_scalarLines] at hl
    rcases hl with rfl | (⟨-, rfl⟩ | ⟨k, -, rfl⟩ | ⟨e, -, rfl⟩ | ⟨d, -, rfl⟩ | ⟨-, rfl⟩) |
      ⟨ip, -, rfl⟩
    · exact ⟨key _ _ _ (by decide), key _ _ _ (by decide), key _ _ _ (by decide)⟩
    · exact ⟨by decide, by decide, by decide⟩
    · exact ⟨key _ _ _ (by decide), key _ _ _ (by decide), key _ _ _ (by decide)⟩
    · exact ⟨key _ _ _ (by decide), key _ _ _ (by decide), key _ _ _ (by decide)⟩
    · exact ⟨key _ _ _ (by decide), key _ _ _ (by decide), key _ _ _ (by decide)⟩
    · exact ⟨by decide, by decide, by decide⟩
    · exact ⟨key _ _ _ (by decide), key _ _ _ (by decide), key _ _ _ (by decide)⟩

/-- C4. For every configuration whose endpoint and prefix texts contain no
line feed, among the lines of the text `writeConfig` writes: none begins with
`private_key=`, `listen_port=` or `fwmark=` when that device field is absent,
none begins with `replace_peers=` when `ReplacePeers` is false; the lines are
the device lines followed by the lines of the block of each peer, and in the
block of a peer none begins with `remove=`, `preshared_key=`, `endpoint=`,
`persistent_keepalive_interval=` or `replace_allowed_ips=` when that field is
absent or that flag is false (and no device line begins with one of these keys);
the lines `replace_peers=false`, `replace_allowed_ips=false` and `remove=false`
never occur. -/
theorem writeConfig_omits_absent [Stringer E] [Stringer N] (cfg : Config E N)
    (h : cfg.NewlineFree) :
    (cfg.PrivateKey = none → ∀ l ∈ linesOf (writeConfig [] cfg), ¬ lit "private_key=" <+: l) ∧
    (cfg.ListenPort = none → ∀ l ∈ linesOf (writeConfig [] cfg), ¬ lit "listen_port=" <+: l) ∧
    (cfg.FirewallMark = none → ∀ l ∈ linesOf (writeConfig [] cfg), ¬ lit "fwmark=" <+: l) ∧
    (cfg.ReplacePeers = false →
      ∀ l ∈ linesOf (writeConfig [] cfg), ¬ lit "replace_peers=" <+: l) ∧
    linesOf (writeConfig [] cfg) =
      linesOf (writeConfig [] ({ cfg with Peers := [] } : Config E N)) ++
        cfg.Peers.flatMap (fun p => linesOf (writePeer [] p)) ∧
    (∀ l ∈ linesOf (writeConfig [] ({ cfg with Peers := [] } : Config E N)),
      ¬ lit "remove=" <+: l ∧ ¬ lit "preshared_key=" <+: l ∧ ¬ lit "endpoint=" <+: l ∧
      ¬ lit "persistent_keepalive_interval=" <+: l ∧ ¬ lit "replace_allowed_ips=" <+: l) ∧
    (∀ p ∈ cfg.Peers,
      (p.Remove = false → ∀ l ∈ linesOf (writePeer [] p), ¬ lit "remove=" <+: l) ∧
      (p.PresharedKey = none →
        ∀ l ∈ linesOf (writePeer [] p), ¬ lit "preshared_key=" <+: l) ∧
      (p.Endpoint = none → ∀ l ∈ linesOf (writePeer [] p), ¬ lit "endpoint=" <+: l) ∧
      (p.PersistentKeepaliveInterval = none →
        ∀ l ∈ linesOf (writePeer [] p), ¬ lit "persistent_keepalive_interval=" <+: l) ∧
      (p.ReplaceAllowedIPs = false →
        ∀ l ∈ linesOf (writePeer [] p), ¬ lit "replace_allowed_ips=" <+: l)) ∧
    lit "replace_peers=false" ∉ linesOf (writeConfig [] cfg) ∧
    lit "replace_allowed_ips=false" ∉ linesOf (writeConfig [] cfg) ∧
    lit "remove=false" ∉ linesOf (writeConfig [] cfg) := by
  have hdev : linesOf (writeConfig [] ({ cfg with Peers := [] } : Config E N)) =
      deviceLines cfg := by
    rw [linesOf_writeConfig _ (fun p hp => by cases hp)]
    simp [configLines, deviceLines]
  have hpeers : cfg.Peers.flatMap (fun p => linesOf (writePeer [] p)) =
      cfg.Peers.flatMap peerLines := by
    apply List.flatMap_congr
    intro p hp
    exact linesOf_writePeer p (h p hp)
  have hdevice : ∀ l ∈ configLines cfg,
      (cfg.PrivateKey = none → ¬ lit "private_key=" <+: l) ∧
      (cfg.ListenPort = none → ¬ lit "listen_port=" <+: l) ∧
      (cfg.FirewallMark = none → ¬ lit "fwmark=" <+: l) ∧
      (cfg.ReplacePeers = false → ¬ lit "replace_peers=" <+: l) := by
    intro l hl
    rw [mem_configLines] at hl
    rcases hl with hl | ⟨p, -, hl⟩
    · exact deviceLines_absent cfg l hl
    · have := peerLines_not_deviceKey p l hl
      exact ⟨fun _ => this.1, fun _ => this.2.1, fun _ => this.2.2.1, fun _ => this.2.2.2⟩
  rw [hdev, hpeers, linesOf_writeConfig cfg h]
  refine ⟨fun e l hl => (hdevice l hl).1 e, fun e l hl => (hdevice l hl).2.1 e,
    fun e l hl => (hdevice l hl).2.2.1 e, fun e l hl => (hdevice l hl).2.2.2 e, rfl, ?_, ?_,
    fun hl => (configLines_no_false cfg _ hl).1 rfl,
    fun hl => (configLines_no_false cfg _ hl).2.1 rfl,
    fun hl => (configLines_no_false cfg _ hl).2.2 rfl⟩
  · intro l hl
    have := deviceLines_not_peerKey cfg l hl
    exact ⟨this.2.1, this.2.2.1, this.2.2.2.1, this.2.2.2.2.1, this.2.2.2.2.2.1⟩
  · intro p hp
    rw [linesOf_writePeer p (h p hp)]
    exact ⟨fun e l hl => (peerLines_absent p l hl).1 e,
      fun e l hl => (peerLines_absent p l hl).2.1 e,
      fun e l hl => (peerLines_absent p l hl).2.2.1 e,
      fun e l hl => (peerLines_absent p l hl).2.2.2.1 e,
      fun e l hl => (peerLines_absent p l hl).2.2.2.2 e⟩

/-- Witness for C4 at `configSparse`, which has no private key, firewall mark
or replace flag and whose first peer has no optional field: the output has no
`private_key=` line, the block of that peer has no `endpoint=` line, and no
line is `remove=false`. -/
theorem writeConfig_omits_absent_witness :
    configSparse.NewlineFree ∧
      (∀ l ∈ linesOf (writeConfig [] configSparse), ¬ lit "private_key=" <+: l) ∧
      (∀ l ∈ linesOf (writePeer [] peerBare), ¬ lit "endpoint=" <+: l) ∧
      lit "remove=false" ∉ linesOf (writeConfig [] configSparse) :=
  ⟨by decide,
    (writeConfig_omits_absent configSparse (by decide)).1 rfl,
    ((writeConfig_omits_absent configSparse (by decide)).2.2.2.2.2.2.1 peerBare
      (by simp [configSparse])).2.2.1 rfl,
    (writeConfig_omits_absent configSparse (by decide)).2.2.2.2.2.2.2.2.2⟩

/-! ## The request of configureDevice -/

theorem request_eq [Stringer E] [Stringer N] (cfg : Config E N) :
    request cfg = lit "set=1\n" ++ writeConfig [] cfg ++ lit "\n" := by
  simp only [request, Buffer.WriteString, List.nil_append]
  rw [writeConfig_unlines, writeConfig_unlines []]
  simp

theorem request_eq_unlines [Stringer E] [Stringer N] (cfg : Config E N) :
    request cfg = unlines (lit "set=1" :: configLines cfg ++ [[]]) := by
  rw [request_eq, writeConfig_unlines, List.nil_append]
  have h₁ : lit "set=1\n" = lit "set=1" ++ [NL] := rfl
  have h₂ : lit "\n" = ([] : Bytes) ++ [NL] := rfl
  rw [unlines_append, unlines_cons, unlines_singleton, h₁, h₂]
  simp

theorem unlines_suffix (ls : List Bytes) (hne : ls ≠ []) : [NL] <:+ unlines ls := by
  induction ls with
  | nil => exact absurd rfl hne
  | cons l ls ih =>
    rw [unlines_cons]
    by_cases h : ls = []
    · subst h
      exact ⟨l, by simp [unlines_nil]⟩
    · obtain ⟨t, ht⟩ := ih h
      exact ⟨l ++ NL :: t, by rw [← ht]; simp⟩

theorem configLines_ne_nil [Stringer E] [Stringer N] (cfg : Config E N) :
    ∀ l ∈ configLines cfg, l ≠ [] := by
  have key : ∀ (k v : Bytes), k ≠ [] → k ++ v ≠ [] := by
    intro k v hk e
    exact hk (List.append_eq_nil.mp e).1
  intro l hl
  rw [mem_configLines, mem_deviceLines] at hl
  rcases hl with (⟨k, -, rfl⟩ | ⟨i, -, rfl⟩ | ⟨i, -, rfl⟩ | ⟨-, rfl⟩) | ⟨p, -, hl⟩
  · exact key _ _ (by decide)
  · exact key _ _ (by decide)
  · exact key _ _ (by decide)
  · exact key _ _ (by decide)
  · rw [mem_peerLines, mem_scalarLines] at hl
    rcases hl with rfl | (⟨-, rfl⟩ | ⟨k, -, rfl⟩ | ⟨e, -, rfl⟩ | ⟨d, -, rfl⟩ | ⟨-, rfl⟩) |
      ⟨ip, -, rfl⟩ <;> exact key _ _ (by decide)

theorem exchange_events [Stringer E] [Stringer N] (c : Conn) (cfg : Config E N) :
    ∃ rest, (exchange c cfg).2 = .Write (request cfg) :: rest := by
  unfold exchange
  simp only
  split
  · exact ⟨_, rfl⟩
  · split
    · exact ⟨_, rfl⟩
    · split <;> exact ⟨_, rfl⟩

theorem configureDevice_sends [Stringer E] [Stringer N] (net : Network) (path : Bytes)
    (cfg : Config E N) (c : Conn) (h : net.Dial (lit "unix") path = .ok c) :
    (configureDevice net path cfg).2.take 2 =
      [.Dial (lit "unix") path, .Write (request cfg)] := by
  obtain ⟨rest, hrest⟩ := exchange_events c cfg
  simp [configureDevice, h, hrest]

/-- C5. For every configuration, the request `configureDevice` assembles, and
writes to the channel it opened, is `set=1\n`, then the output of `writeConfig`,
then one `\n`.  It ends with `\n\n`; and when the endpoint and prefix texts
contain no line feed its lines are non-empty lines followed by one empty line,
so an empty line occurs at the end and nowhere else, whether or not any field
was emitted. -/
theorem request_shape [Stringer E] [Stringer N] (cfg : Config E N) :
    request cfg = lit "set=1\n" ++ writeConfig [] cfg ++ lit "\n" ∧
    (∀ (net : Network) (path : Bytes) (c : Conn), net.Dial (lit "unix") path = .ok c →
      (configureDevice net path cfg).2.take 2 =
        [.Dial (lit "unix") path, .Write (request cfg)]) ∧
    lit "\n\n" <:+ request cfg ∧
    (cfg.NewlineFree →
      ∃ ls : List Bytes, linesOf (request cfg) = ls ++ [[]] ∧ ∀ l ∈ ls, l ≠ []) := by
  refine ⟨request_eq cfg, fun net path c h => configureDevice_sends net path cfg c h, ?_, ?_⟩
  · rw [request_eq_unlines, unlines_append, unlines_singleton]
    obtain ⟨t, ht⟩ := unlines_suffix (lit "set=1" :: configLines cfg) (by simp)
    refine ⟨t, ?_⟩
    rw [← ht]
    have : lit "\n\n" = [NL] ++ [NL] := rfl
    rw [this]
    simp
  · intro h
    refine ⟨lit "set=1" :: configLines cfg, ?_, ?_⟩
    · rw [request_eq_unlines]
      apply linesOf_unlines
      intro l hl
      simp only [List.cons_append, List.mem_cons, List.mem_append, List.mem_singleton,
        List.not_mem_nil, or_false] at hl
      rcases hl with rfl | hl | rfl
      · decide
      · exact configLines_newlineFree cfg h l hl
      · simp
    · intro l hl
      simp only [List.mem_cons] at hl
      rcases hl with rfl | hl
      · decide
      · exact configLines_ne_nil cfg l hl

/-- Witness for C5 at `configFull`: its texts contain no line feed, and the
lines of its request are non-empty lines followed by one empty line. -/
theorem request_shape_witness :
    configFull.NewlineFree ∧
      ∃ ls : List Bytes, linesOf (request configFull) = ls ++ [[]] ∧ ∀ l ∈ ls, l ≠ [] :=
  ⟨by decide, (request_shape configFull).2.2.2 (by decide)⟩

/-- C6. For every configuration with no optional field present, both flags
unset and an empty peer sequence, `writeConfig` writes nothing, and the request
`configureDevice` assembles and writes to the channel is exactly the 7 bytes
`set=1\n\n`. -/
theorem request_of_empty [Stringer E] [Stringer N] (cfg : Config E N)
    (hkey : cfg.PrivateKey = none) (hport : cfg.ListenPort = none)
    (hmark : cfg.FirewallMark = none) (hreplace : cfg.ReplacePeers = false)
    (hpeers : cfg.Peers = []) :
    (∀ w : Buffer, writeConfig w cfg = w) ∧
    request cfg = lit "set=1\n\n" ∧
    (request cfg).length = 7 ∧
    ∀ (net : Network) (path : Bytes) (c : Conn), net.Dial (lit "unix") path = .ok c →
      (configureDevice net path cfg).2.take 2 =
        [.Dial (lit "unix") path, .Write (lit "set=1\n\n")] := by
  have hw : ∀ w : Buffer, writeConfig w cfg = w := by
    intro w
    simp [writeConfig, hkey, hport, hmark, hreplace, hpeers]
  have hreq : request cfg = lit "set=1\n\n" := by
    rw [request_eq, hw]
    rfl
  refine ⟨hw, hreq, ?_, ?_⟩
  · rw [hreq]
    rfl
  · intro net path c h
    rw [← hreq]
    exact configureDevice_sends net path cfg c h

/-- Witness for C6 at `configEmpty`. -/
theorem request_of_empty_witness :
    (∀ w : Buffer, writeConfig w configEmpty = w) ∧ request configEmpty = lit "set=1\n\n" ∧
      (request configEmpty).length = 7 :=
  ⟨(request_of_empty configEmpty rfl rfl rfl rfl rfl).1,
    (request_of_empty configEmpty rfl rfl rfl rfl rfl).2.1,
    (request_of_empty configEmpty rfl rfl rfl rfl rfl).2.2.1⟩

end Rendering

/-! ## hexKey -/

section Hex

theorem hextable_eq_lowerHexDigit : ∀ i : Fin 16, hextable.getD i.val 0 = lowerHexDigit i.val := by
  decide

theorem lowerHexDigit_range : ∀ i : Fin 16,
    ((48 ≤ (lowerHexDigit i.val).val ∧ (lowerHexDigit i.val).val ≤ 57) ∨
      (97 ≤ (lowerHexDigit i.val).val ∧ (lowerHexDigit i.val).val ≤ 102)) := by
  decide

theorem shiftRight_four_eq (v : Byte) : v.val >>> 4 = v.val / 16 := by
  simp [Nat.shiftRight_eq_div_pow]

theorem and_fifteen_eq (v : Byte) : v.val &&& 0x0f = v.val % 16 :=
  Nat.and_pow_two_sub_one_eq_mod v.val 4

theorem EncodeToString_cons (v : Byte) (src : Bytes) :
    EncodeToString (v :: src) =
      lowerHexDigit (v.val / 16) :: lowerHexDigit (v.val % 16) :: EncodeToString src := by
  have h₁ := hextable_eq_lowerHexDigit ⟨v.val >>> 4, shiftRight_four_lt v⟩
  have h₂ := hextable_eq_lowerHexDigit ⟨v.val &&& 0x0f, and_fifteen_lt v⟩
  simp only [shiftRight_four_eq, and_fifteen_eq] at h₁ h₂
  simp only [EncodeToString, shiftRight_four_eq, and_fifteen_eq, h₁, h₂]

theorem EncodeToString_length (src : Bytes) : (EncodeToString src).length = 2 * src.length := by
  induction src with
  | nil => rfl
  | cons v src ih =>
    rw [EncodeToString_cons]
    simp only [List.length_cons, ih]
    omega

theorem EncodeToString_getD (src : Bytes) (i : Nat) (h : i < src.length) :
    (EncodeToString src).getD (2 * i) 0 = lowerHexDigit ((src.getD i 0).val / 16) ∧
      (EncodeToString src).getD (2 * i + 1) 0 = lowerHexDigit ((src.getD i 0).val % 16) := by
  induction src generalizing i with
  | nil => simp at h
  | cons v src ih =>
    rw [EncodeToString_cons]
    cases i with
    | zero => simp
    | succ i =>
      have hi : i < src.length := by simpa using h
      have e₁ : 2 * (i + 1) = 2 * i + 1 + 1 := by omega
      rw [e₁]
      simpa using ih i hi

theorem EncodeToString_mem (src : Bytes) (c : Byte) (h : c ∈ EncodeToString src) :
    (48 ≤ c.val ∧ c.val ≤ 57) ∨ (97 ≤ c.val ∧ c.val ≤ 102) := by
  induction src with
  | nil => simp [EncodeToString] at h
  | cons v src ih =>
    rw [EncodeToString_cons] at h
    have hv := v.isLt
    simp only [List.mem_cons] at h
    rcases h with rfl | rfl | h
    · exact lowerHexDigit_range ⟨v.val / 16, by omega⟩
    · exact lowerHexDigit_range ⟨v.val % 16, by omega⟩
    · exact ih h

/-- C7. For every 32-byte key `k`, `hexKey k` has exactly 64 characters, every
one of them in `'0'..'9'` (48 to 57) or `'a'..'f'` (97 to 102) and so never an
upper-case letter (65 to 90), and for every `i < 32` the characters `2i` and
`2i+1` are the lower-case hexadecimal digits of the high and of the low nibble
of byte `i` of `k`. -/
theorem hexKey_format (k : Key) :
    (hexKey k).length = 64 ∧
    (∀ c ∈ hexKey k,
      ((48 ≤ c.val ∧ c.val ≤ 57) ∨ (97 ≤ c.val ∧ c.val ≤ 102)) ∧ ¬ (65 ≤ c.val ∧ c.val ≤ 90)) ∧
    ∀ i : Nat, i < 32 →
      (hexKey k).getD (2 * i) 0 = lowerHexDigit ((k.bytes.getD i 0).val / 16) ∧
      (hexKey k).getD (2 * i + 1) 0 = lowerHexDigit ((k.bytes.getD i 0).val % 16) := by
  refine ⟨?_, ?_, ?_⟩
  · rw [hexKey, EncodeToString_length, k.size]
  · intro c hc
    have := EncodeToString_mem k.bytes c hc
    exact ⟨this, by omega⟩
  · intro i hi
    exact EncodeToString_getD k.bytes i (by rw [k.size]; exact hi)

theorem decode_digits : ∀ v : Byte,
    fromHexChar (lowerHexDigit (v.val / 16)) = some (v.val / 16) ∧
      fromHexChar (lowerHexDigit (v.val % 16)) = some (v.val % 16) ∧
      (Fin.ofNat (((v.val / 16) <<< 4) ||| (v.val % 16)) : Byte) = v := by
  decide

theorem DecodeString_EncodeToString (src : Bytes) :
    DecodeString (EncodeToString src) = (src, none) := by
  induction src with
  | nil => rfl
  | cons v src ih =>
    obtain ⟨h₁, h₂, h₃⟩ := decode_digits v
    rw [EncodeToString_cons]
    simp only [DecodeString, h₁, h₂, h₃, ih]

/-- C8. For every 32-byte key `k`, `hex.DecodeString` applied to `hexKey k`
yields the bytes of `k` and no error; consequently `hexKey` is injective: a key
with the same wire text as `k` is `k`. -/
theorem hexKey_roundtrip (k : Key) :
    DecodeString (hexKey k) = (k.bytes, none) ∧ ∀ k' : Key, hexKey k = hexKey k' → k = k' := by
  refine ⟨DecodeString_EncodeToString k.bytes, ?_⟩
  intro k' h
  have h₁ := DecodeString_EncodeToString k.bytes
  have h₂ := DecodeString_EncodeToString k'.bytes
  rw [hexKey, hexKey] at h
  rw [h, h₂] at h₁
  obtain ⟨b, hb⟩ := k
  obtain ⟨b', hb'⟩ := k'
  simp only [Prod.mk.injEq, and_true] at h₁
  subst h₁
  rfl

end Hex

/-! ## configureDevice: the classification of the reply -/

section Reply

variable {E N : Type}

theorem exchange_ok_iff [Stringer E] [Stringer N] (c : Conn) (cfg : Config E N) :
    (exchange c cfg).1 = none ↔
      (c.Write (request cfg)).2 = none ∧ (c.Write (request cfg)).1 = (request cfg).length ∧
      (c.Read (request cfg) 32).2 = none ∧
      TrimSpace ((c.Read (request cfg) 32).1.take 32) = lit "errno=0" := by
  unfold exchange Copy
  simp only
  cases hw : (c.Write (request cfg)).2 with
  | some e => simp
  | none =>
    by_cases hn : (c.Write (request cfg)).1 = (request cfg).length
    · simp only [hn, ne_eq, not_true_eq_false, ↓reduceIte, true_and]
      cases hr : (c.Read (request cfg) 32).2 with
      | some e => simp
      | none =>
        by_cases ht : TrimSpace ((c.Read (request cfg) 32).1.take 32) = lit "errno=0"
        · simp [ht]
        · simp [ht, NewSyscallError]
    · simp [hn]

/-! ## TrimSpace on a padded status -/

theorem DecodeRuneInString_ascii (b : Byte) (t : Bytes) (h : b.val < 0x80) :
    DecodeRuneInString (b :: t) = (b.val, 1) := by
  simp [DecodeRuneInString, first, h]

theorem DecodeLastRuneInString_ascii (s : Bytes) (b : Byte) (h : b.val < 0x80) :
    DecodeLastRuneInString (s ++ [b]) = (b.val, 1) := by
  have hlen : (s ++ [b]).length - 1 = s.length := by simp
  simp [DecodeLastRuneInString, hlen, List.getD_eq_getElem?_getD, h]

theorem IsBlank.lt {b : Byte} (h : IsBlank b) : b.val < 0x80 := by
  unfold IsBlank at h
  omega

theorem IsBlank.isSpace {b : Byte} (h : IsBlank b) : IsSpace b.val = true := by
  unfold IsBlank at h
  rcases h with h | h | h | h <;> simp [IsSpace, h]

theorem indexFuncLoop_blanks (ws : Bytes) (hws : ∀ b ∈ ws, IsBlank b) (c : Byte) (t : Bytes)
    (hc : c.val < 0x80) (hsp : IsSpace c.val = false) (pre : Bytes) (fuel : Nat)
    (hfuel : ws.length < fuel) :
    indexFuncLoop (pre ++ ws ++ c :: t) IsSpace false fuel pre.length =
      ((pre.length + ws.length : Nat) : Int) := by
  induction ws generalizing pre fuel with
  | nil =>
    obtain ⟨fuel, rfl⟩ : ∃ f, fuel = f + 1 := ⟨fuel - 1, by simp at hfuel; omega⟩
    simp [indexFuncLoop, DecodeRuneInString_ascii c t hc, hsp]
  | cons b ws ih =>
    obtain ⟨fuel, rfl⟩ : ∃ f, fuel = f + 1 := ⟨fuel - 1, by simp at hfuel; omega⟩
    have hb := hws b (by simp)
    have hdrop : (pre ++ b :: ws ++ c :: t).drop pre.length = b :: (ws ++ c :: t) := by
      simp [List.append_assoc]
    have hstep := ih (fun x hx => hws x (by simp [hx])) (pre ++ [b]) fuel
      (by simp at hfuel ⊢; omega)
    simp only [List.append_assoc, List.singleton_append, List.length_append, List.length_cons,
      List.length_nil] at hstep
    unfold indexFuncLoop
    simp only [List.append_assoc, List.cons_append] at hdrop ⊢
    rw [hdrop, DecodeRuneInString_ascii b _ hb.lt]
    simp only [hb.isSpace, Nat.zero_add, List.cons_append] at hstep ⊢
    have hlt : pre.length < (pre ++ b :: (ws ++ c :: t)).length := by simp
    rw [if_pos hlt, if_neg (by decide), hstep]
    congr 1
    simp only [List.length_cons]
    omega

theorem lastIndexFuncLoop_blanks (ws : Bytes) (hws : ∀ b ∈ ws, IsBlank b) (c : Byte)
    (hc : c.val < 0x80) (hsp : IsSpace c.val = false) (pre post : Bytes) (fuel : Nat)
    (hfuel : ws.length < fuel) :
    lastIndexFuncLoop (pre ++ [c] ++ ws ++ post) IsSpace false fuel (pre.length + 1 + ws.length) =
      (pre.length : Int) := by
  induction ws using List.reverseRecOn generalizing post fuel with
  | nil =>
    obtain ⟨fuel, rfl⟩ : ∃ f, fuel = f + 1 := ⟨fuel - 1, by simp at hfuel; omega⟩
    have htake : (pre ++ [c] ++ [] ++ post).take (pre.length + 1 + 0) = pre ++ [c] := by
      have : pre.length + 1 + 0 = (pre ++ [c]).length := by simp
      rw [this, List.append_nil, List.take_left' rfl]
    unfold lastIndexFuncLoop
    simp only [List.length_nil]
    rw [htake, DecodeLastRuneInString_ascii pre c hc]
    simp [hsp]
  | append_singleton ws b ih =>
    obtain ⟨fuel, rfl⟩ : ∃ f, fuel = f + 1 := ⟨fuel - 1, by simp at hfuel; omega⟩
    have hb := hws b (by simp)
    have htake : (pre ++ [c] ++ (ws ++ [b]) ++ post).take (pre.length + 1 + (ws ++ [b]).length) =
        (pre ++ [c] ++ ws) ++ [b] := by
      have : pre.length + 1 + (ws ++ [b]).length = (pre ++ [c] ++ (ws ++ [b])).length := by
        simp
        omega
      rw [this, List.take_left' rfl]
      simp
    have hstep := ih (fun x hx => hws x (by simp [hx])) (b :: post) fuel
      (by simp at hfuel ⊢; omega)
    have hs : pre ++ [c] ++ (ws ++ [b]) ++ post = pre ++ [c] ++ ws ++ b :: post := by simp
    unfold lastIndexFuncLoop
    rw [htake, DecodeLastRuneInString_ascii _ b hb.lt]
    simp only [hb.isSpace]
    rw [hs]
    have hi : pre.length + 1 + (ws ++ [b]).length - 1 = pre.length + 1 + ws.length := by
      simp
    rw [hi, hstep]
    simp

theorem TrimLeftFunc_padded (ws₁ ws₂ : Bytes) (h₁ : ∀ b ∈ ws₁, IsBlank b) :
    TrimLeftFunc (ws₁ ++ lit "errno=0" ++ ws₂) IsSpace = lit "errno=0" ++ ws₂ := by
  have hs : ws₁ ++ lit "errno=0" ++ ws₂ = [] ++ ws₁ ++ (101 : Byte) :: (lit "rrno=0" ++ ws₂) := by
    have : lit "errno=0" = (101 : Byte) :: lit "rrno=0" := rfl
    rw [this]
    simp
  have h7 : (lit "errno=0").length = 7 := rfl
  have hi := indexFuncLoop_blanks ws₁ h₁ 101 (lit "rrno=0" ++ ws₂) (by decide) (by decide) []
    (ws₁ ++ lit "errno=0" ++ ws₂).length (by simp only [List.length_append]; omega)
  rw [← hs] at hi
  simp only [List.length_nil, Nat.zero_add] at hi
  unfold TrimLeftFunc indexFunc
  simp only [hi]
  have hne : ((ws₁.length : Nat) : Int) ≠ -1 := by omega
  rw [if_neg hne, Int.toNat_ofNat, List.append_assoc, List.drop_left]

theorem TrimRightFunc_padded (ws₂ : Bytes) (h₂ : ∀ b ∈ ws₂, IsBlank b) :
    TrimRightFunc (lit "errno=0" ++ ws₂) IsSpace = lit "errno=0" := by
  have hs : lit "errno=0" ++ ws₂ = lit "errno=" ++ [(48 : Byte)] ++ ws₂ ++ [] := by
    have : lit "errno=0" = lit "errno=" ++ [(48 : Byte)] := rfl
    rw [this]
    simp
  have hlen : (lit "errno=0" ++ ws₂).length = (lit "errno=").length + 1 + ws₂.length := by
    rw [hs]
    simp only [List.length_append, List.length_cons, List.length_nil]
    omega
  have hi := lastIndexFuncLoop_blanks ws₂ h₂ 48 (by decide) (by decide) (lit "errno=") []
    (lit "errno=0" ++ ws₂).length (by rw [hlen]; omega)
  rw [← hs, ← hlen] at hi
  unfold TrimRightFunc lastIndexFunc
  simp only [hi]
  have h6 : ((lit "errno=").length : Int).toNat = 6 := rfl
  have hget : ((lit "errno=0" ++ ws₂).getD 6 0).val = 48 := rfl
  rw [h6, hget]
  have h7 : (lit "errno=0").length = 7 := rfl
  simp only [show ¬ ((((lit "errno=").length : Nat) : Int) ≥ 0 ∧ 48 ≥ 0x80) by omega, if_false]
  have h7' : ((((lit "errno=").length : Nat) : Int) + 1).toNat = (lit "errno=0").length := rfl
  rw [h7', List.take_left']
  rfl

theorem TrimSpace_padded (ws₁ ws₂ : Bytes) (h₁ : ∀ b ∈ ws₁, IsBlank b)
    (h₂ : ∀ b ∈ ws₂, IsBlank b) :
    TrimSpace (ws₁ ++ lit "errno=0" ++ ws₂) = lit "errno=0" := by
  rw [TrimSpace, TrimFunc, TrimLeftFunc_padded ws₁ ws₂ h₁, TrimRightFunc_padded ws₂ h₂]

theorem take_padded (ws₁ ws₂ : Bytes) (hlen : ws₁.length ≤ 25) :
    (ws₁ ++ lit "errno=0" ++ ws₂).take 32 =
      ws₁ ++ lit "errno=0" ++ ws₂.take (32 - ws₁.length - 7) := by
  have h7 : (lit "errno=0").length = 7 := rfl
  rw [List.append_assoc, List.take_append_eq_append_take, List.take_of_length_le (by omega),
    List.take_append_eq_append_take, List.take_of_length_le (by rw [h7]; omega), h7,
    List.append_assoc]

/-- C10, as stated, fails: to a reply of 26 spaces, `errno=0` and a line feed
(white space on both sides of the status), `configureDevice` returns an error.
The buffer of 32 bytes keeps the 26 spaces and `errno=`, which trims to
`errno=`. -/
theorem configureDevice_long_padding_fails :
    (∀ b ∈ List.replicate 26 (32 : Byte), IsBlank b) ∧ (∀ b ∈ lit "\n", IsBlank b) ∧
      (configureDevice (replyingNetwork (List.replicate 26 32 ++ lit "errno=0" ++ lit "\n"))
        socketPath configEmpty).1 =
        some (.SyscallError (lit "read") (.errorString (lit "wguser: errno="))) := by
  decide

/-- C10, amended. For every reply that consists of `errno=0` preceded by at
most 25 bytes of white space and followed by any amount of white space (spaces,
tabs, carriage returns, line feeds): if the channel opens, the write succeeds
and the read delivers the reply, of which the buffer keeps the first 32 bytes,
then `configureDevice` returns no error. -/
theorem configureDevice_padded_ok [Stringer E] [Stringer N] (net : Network) (path : Bytes)
    (cfg : Config E N) (c : Conn) (ws₁ ws₂ : Bytes)
    (hdial : net.Dial (lit "unix") path = .ok c)
    (hwrite : c.Write (request cfg) = ((request cfg).length, none))
    (hread : c.Read (request cfg) 32 = (ws₁ ++ lit "errno=0" ++ ws₂, none))
    (h₁ : ∀ b ∈ ws₁, IsBlank b) (h₂ : ∀ b ∈ ws₂, IsBlank b) (hlen : ws₁.length ≤ 25) :
    (configureDevice net path cfg).1 = none := by
  have hex : (exchange c cfg).1 = none := by
    rw [exchange_ok_iff, hwrite, hread]
    refine ⟨rfl, rfl, rfl, ?_⟩
    rw [take_padded ws₁ ws₂ hlen]
    exact TrimSpace_padded ws₁ _ h₁ fun b hb => h₂ b (List.mem_of_mem_take hb)
  simp only [configureDevice, hdial, hex]

/-- Witness for the amended C10: a reply of 25 spaces, `errno=0`, a carriage
return and forty line feeds, to the request of `configFull`. -/
theorem configureDevice_padded_ok_witness :
    (configureDevice
      (replyingNetwork (List.replicate 25 32 ++ lit "errno=0" ++ (13 :: List.replicate 40 10)))
      socketPath configFull).1 = none :=
  configureDevice_padded_ok (replyingNetwork _) socketPath configFull (replying _)
    (List.replicate 25 32) (13 :: List.replicate 40 10) rfl rfl rfl (by decide) (by decide)
    (by decide)

end Reply

/-! ## configureDevice: the channel on every path -/

section Channel

variable {E N : Type}

theorem exchange_no_close [Stringer E] [Stringer N] (c : Conn) (cfg : Config E N) :
    (exchange c cfg).2 = [.Write (request cfg)] ∨
      (exchange c cfg).2 = [.Write (request cfg), .Read 32] := by
  unfold exchange
  simp only
  split
  · exact Or.inl rfl
  · split
    · exact Or.inr rfl
    · split <;> exact Or.inr rfl

/-- C13. For every path and configuration, if opening the channel fails then
`configureDevice` performs no operation but the `Dial` (no write, no read and
no close on any channel) and returns the error of the `Dial` itself, which is
the underlying cause of the failure. -/
theorem configureDevice_dial_error [Stringer E] [Stringer N] (net : Network) (path : Bytes)
    (cfg : Config E N) (err : Error) (h : net.Dial (lit "unix") path = .error err) :
    configureDevice net path cfg = (some err, [.Dial (lit "unix") path]) ∧
      ∀ ev ∈ (configureDevice net path cfg).2,
        (∀ p, ev ≠ .Write p) ∧ (∀ n, ev ≠ .Read n) ∧ ev ≠ .Close := by
  have hc : configureDevice net path cfg = (some err, [.Dial (lit "unix") path]) := by
    simp only [configureDevice, h]
  refine ⟨hc, ?_⟩
  intro ev hev
  rw [hc] at hev
  simp only [List.mem_singleton] at hev
  subst hev
  exact ⟨fun p => by simp, fun n => by simp, by simp⟩

/-- Witness for C13: in a network where every `Dial` fails, the call for
`configFull` returns the error of the `Dial` after the `Dial` alone. -/
theorem configureDevice_dial_error_witness :
    configureDevice unreachableNetwork socketPath configFull =
      (some (.netError (lit "dial unix: connect: no such file or directory")),
        [.Dial (lit "unix") socketPath]) :=
  (configureDevice_dial_error unreachableNetwork socketPath configFull _ rfl).1

/-- C14. Whenever `configureDevice` has opened the channel, the operations it
performs are the `Dial`, operations on the channel none of which is a close,
and the close as the last operation before it returns, exactly once; this on
each of its four exit paths: a failed write (close right after the write), a
failed read, a reply other than `errno=0`, and success (close after the
read). -/
theorem configureDevice_closes [Stringer E] [Stringer N] (net : Network) (path : Bytes)
    (cfg : Config E N) (c : Conn) (h : net.Dial (lit "unix") path = .ok c) :
    (∃ ops : List Event,
      (configureDevice net path cfg).2 = .Dial (lit "unix") path :: ops ++ [.Close] ∧
        Event.Close ∉ ops) ∧
    (configureDevice net path cfg).2.count .Close = 1 ∧
    (∀ e, Copy c (request cfg) = some e →
      configureDevice net path cfg =
        (some e, [.Dial (lit "unix") path, .Write (request cfg), .Close])) ∧
    (∀ e, Copy c (request cfg) = none → (c.Read (request cfg) 32).2 = some e →
      configureDevice net path cfg =
        (some e, [.Dial (lit "unix") path, .Write (request cfg), .Read 32, .Close])) ∧
    (Copy c (request cfg) = none → (c.Read (request cfg) 32).2 = none →
      TrimSpace ((c.Read (request cfg) 32).1.take 32) ≠ lit "errno=0" →
      (configureDevice net path cfg).1 ≠ none ∧
        (configureDevice net path cfg).2 =
          [.Dial (lit "unix") path, .Write (request cfg), .Read 32, .Close]) ∧
    (Copy c (request cfg) = none → (c.Read (request cfg) 32).2 = none →
      TrimSpace ((c.Read (request cfg) 32).1.take 32) = lit "errno=0" →
      configureDevice net path cfg =
        (none, [.Dial (lit "unix") path, .Write (request cfg), .Read 32, .Close])) := by
  have hcd : configureDevice net path cfg =
      ((exchange c cfg).1, .Dial (lit "unix") path :: (exchange c cfg).2 ++ [.Close]) := by
    simp only [configureDevice, h]
  refine ⟨?_, ?_, ?_, ?_, ?_, ?_⟩
  · refine ⟨(exchange c cfg).2, by rw [hcd], ?_⟩
    rcases exchange_no_close c cfg with h' | h' <;> rw [h'] <;> simp
  · rw [hcd]
    rcases exchange_no_close c cfg with h' | h' <;> rw [h'] <;>
      simp [List.count_cons, List.count_nil]
  · intro e he
    rw [hcd]
    simp [exchange, he]
  · intro e hw he
    rw [hcd]
    simp [exchange, hw, he]
  · intro hw hr ht
    rw [hcd]
    simp [exchange, hw, hr, ht, NewSyscallError]
  · intro hw hr ht
    rw [hcd]
    simp [exchange, hw, hr, ht]

/-- Witness for C14: the device replies `errno=0` to the request of
`configFull`; the operations are the `Dial`, the write, the read and the
close. -/
theorem configureDevice_closes_witness :
    configureDevice (replyingNetwork (lit "errno=0\n\n")) socketPath configFull =
      (none, [.Dial (lit "unix") socketPath, .Write (request configFull), .Read 32, .Close]) :=
  (configureDevice_closes (replyingNetwork _) socketPath configFull (replying _) rfl).2.2.2.2.2
    rfl rfl (by decide)

end Channel

/-! ## Decimal text -/

section Decimal

theorem digit_val (n : Nat) : (Fin.ofNat (48 + n % 10) : Byte).val = 48 + n % 10 := by
  have h : n % 10 < 10 := Nat.mod_lt _ (by decide)
  simp only [Fin.ofNat, Fin.val_mk]
  omega

theorem decimalValue_append_singleton (ds : Bytes) (b : Byte) :
    decimalValue (ds ++ [b]) = 10 * decimalValue ds + (b.val - 48) := by
  simp [decimalValue, List.foldl_append]

theorem digitsLoop_spec (fuel n : Nat) (acc : Bytes) (h : n < fuel) :
    ∃ ds : Bytes, digitsLoop fuel n acc = ds ++ acc ∧ ds ≠ [] ∧
      (∀ b ∈ ds, 48 ≤ b.val ∧ b.val ≤ 57) ∧ decimalValue ds = n := by
  induction fuel generalizing n acc with
  | zero => omega
  | succ fuel ih =>
    have hd := digit_val n
    have hm : n % 10 < 10 := Nat.mod_lt _ (by decide)
    simp only [digitsLoop]
    split
    · rename_i h0
      refine ⟨[Fin.ofNat (48 + n % 10)], by simp, by simp, ?_, ?_⟩
      · intro b hb
        simp only [List.mem_singleton] at hb
        subst hb
        omega
      · simp only [decimalValue, List.foldl_cons, List.foldl_nil, hd]
        omega
    · rename_i h0
      obtain ⟨ds, hds, -, hdig, hval⟩ := ih (n / 10) (Fin.ofNat (48 + n % 10) :: acc) (by omega)
      refine ⟨ds ++ [Fin.ofNat (48 + n % 10)], by simp [hds], by simp, ?_, ?_⟩
      · intro b hb
        simp only [List.mem_append, List.mem_singleton] at hb
        rcases hb with hb | hb
        · exact hdig b hb
        · subst hb
          omega
      · rw [decimalValue_append_singleton, hval, hd]
        omega

theorem uitoa_spec (n : Nat) :
    uitoa n ≠ [] ∧ (∀ b ∈ uitoa n, 48 ≤ b.val ∧ b.val ≤ 57) ∧ decimalValue (uitoa n) = n := by
  obtain ⟨ds, hds, hne, hdig, hval⟩ := digitsLoop_spec (n + 1) n [] (by omega)
  rw [List.append_nil] at hds
  rw [uitoa, hds]
  exact ⟨hne, hdig, hval⟩

theorem uitoa_injective (m n : Nat) (h : uitoa m = uitoa n) : m = n := by
  rw [← (uitoa_spec m).2.2, ← (uitoa_spec n).2.2, h]

theorem uitoa_last (n : Nat) :
    ∃ (pre : Bytes) (c : Byte), uitoa n = pre ++ [c] ∧ 48 ≤ c.val ∧ c.val ≤ 57 := by
  obtain ⟨hne, hdig, -⟩ := uitoa_spec n
  refine ⟨(uitoa n).dropLast, (uitoa n).getLast hne, (List.dropLast_append_getLast hne).symm, ?_⟩
  exact hdig _ (List.getLast_mem hne)

theorem uitoa_head (n : Nat) :
    ∃ (c : Byte) (t : Bytes), uitoa n = c :: t ∧ 48 ≤ c.val ∧ c.val ≤ 57 := by
  obtain ⟨hne, hdig, -⟩ := uitoa_spec n
  cases hu : uitoa n with
  | nil => exact absurd hu hne
  | cons c t => exact ⟨c, t, rfl, hdig c (by rw [hu]; simp)⟩

theorem fmtInt_injective (i j : Int) (h : fmtInt i = fmtInt j) : i = j := by
  unfold fmtInt at h
  split at h <;> split at h
  · have := uitoa_injective _ _ (List.cons.inj h).2
    omega
  · obtain ⟨c, t, hc, h48, -⟩ := uitoa_head j.natAbs
    rw [hc] at h
    have := congrArg Fin.val (List.cons.inj h).1
    have h45 : (45 : Byte).val = 45 := rfl
    omega
  · obtain ⟨c, t, hc, h48, -⟩ := uitoa_head i.natAbs
    rw [hc] at h
    have := congrArg Fin.val (List.cons.inj h).1
    have h45 : (45 : Byte).val = 45 := rfl
    omega
  · have := uitoa_injective _ _ h
    omega

theorem fmtInt_last (i : Int) :
    ∃ (pre : Bytes) (c : Byte), fmtInt i = pre ++ [c] ∧ 48 ≤ c.val ∧ c.val ≤ 57 := by
  obtain ⟨pre, c, hu, hc⟩ := uitoa_last i.natAbs
  unfold fmtInt
  split
  · exact ⟨45 :: pre, c, by rw [hu]; rfl, hc⟩
  · exact ⟨pre, c, hu, hc⟩

end Decimal

/-! ## configureDevice: the error for a reply other than errno=0 -/

section Status

variable {E N : Type}

theorem TrimLeftFunc_blanks (ws₁ rest : Bytes) (c : Byte) (t : Bytes) (h₁ : ∀ b ∈ ws₁, IsBlank b)
    (hrest : rest = c :: t) (hc : c.val < 0x80) (hsp : IsSpace c.val = false) :
    TrimLeftFunc (ws₁ ++ rest) IsSpace = rest := by
  subst hrest
  have hi := indexFuncLoop_blanks ws₁ h₁ c t hc hsp [] (ws₁ ++ c :: t).length
    (by simp only [List.length_append, List.length_cons]; omega)
  simp only [List.nil_append, List.length_nil, Nat.zero_add] at hi
  unfold TrimLeftFunc indexFunc
  simp only [hi]
  have hne : ((ws₁.length : Nat) : Int) ≠ -1 := by omega
  rw [if_neg hne, Int.toNat_ofNat, List.drop_left]

theorem TrimRightFunc_blanks (m ws₂ pre : Bytes) (c : Byte) (h₂ : ∀ b ∈ ws₂, IsBlank b)
    (hm : m = pre ++ [c]) (hc : c.val < 0x80) (hsp : IsSpace c.val = false) :
    TrimRightFunc (m ++ ws₂) IsSpace = m := by
  subst hm
  have hlen : (pre ++ [c] ++ ws₂).length = pre.length + 1 + ws₂.length := by
    simp only [List.length_append, List.length_cons, List.length_nil]
  have hi := lastIndexFuncLoop_blanks ws₂ h₂ c hc hsp pre [] (pre ++ [c] ++ ws₂).length
    (by rw [hlen]; omega)
  rw [List.append_nil, ← hlen] at hi
  unfold TrimRightFunc lastIndexFunc
  simp only [hi]
  have hget : (pre ++ [c] ++ ws₂).getD (pre.length : Int).toNat 0 = c := by
    have : (pre ++ [c] ++ ws₂)[pre.length]? = some c := by
      rw [List.append_assoc, List.getElem?_append_right (le_refl _)]
      simp
    rw [List.getD_eq_getElem?_getD, Int.toNat_ofNat, this]
    rfl
  rw [hget]
  have hlt : ¬ ((pre.length : Int) ≥ 0 ∧ c.val ≥ 0x80) := by omega
  rw [if_neg hlt]
  have h1 : ((pre.length : Int) + 1).toNat = (pre ++ [c]).length := by
    simp only [List.length_append, List.length_cons, List.length_nil]
    omega
  rw [h1, List.take_left' rfl]

theorem TrimSpace_blanks (ws₁ m ws₂ pre t : Bytes) (c₁ c₂ : Byte)
    (h₁ : ∀ b ∈ ws₁, IsBlank b) (h₂ : ∀ b ∈ ws₂, IsBlank b)
    (hhead : m = c₁ :: t) (hc₁ : c₁.val < 0x80) (hsp₁ : IsSpace c₁.val = false)
    (hlast : m = pre ++ [c₂]) (hc₂ : c₂.val < 0x80) (hsp₂ : IsSpace c₂.val = false) :
    TrimSpace (ws₁ ++ m ++ ws₂) = m := by
  have hrest : m ++ ws₂ = c₁ :: (t ++ ws₂) := by rw [hhead]; rfl
  rw [TrimSpace, TrimFunc, List.append_assoc,
    TrimLeftFunc_blanks ws₁ (m ++ ws₂) c₁ (t ++ ws₂) h₁ hrest hc₁ hsp₁,
    TrimRightFunc_blanks m ws₂ pre c₂ h₂ hlast hc₂ hsp₂]

theorem isSpace_of_digit {c : Byte} (h : 48 ≤ c.val ∧ c.val ≤ 57) : IsSpace c.val = false := by
  have : c.val ≤ 0xFF := by omega
  simp only [IsSpace, this, if_true, decide_eq_false_iff_not]
  omega

theorem Sprintf_wguser (x : Bytes) :
    Sprintf (lit "wguser: %s") [.str x] = lit "wguser: " ++ x := by
  have h : lit "wguser: %s" = lit "wguser: " ++ [37, 115] := rfl
  rw [h]
  simp [Sprintf, lit]
  rfl

theorem exchange_error [Stringer E] [Stringer N] (c : Conn) (cfg : Config E N) (r : Bytes)
    (hwrite : Copy c (request cfg) = none) (hread : c.Read (request cfg) 32 = (r, none))
    (hs : TrimSpace (r.take 32) ≠ lit "errno=0") :
    (exchange c cfg).1 =
      some (.SyscallError (lit "read") (.errorString (lit "wguser: " ++ TrimSpace (r.take 32)))) := by
  simp [exchange, hwrite, hread, hs, NewSyscallError, Errorf, Sprintf_wguser]

theorem configureDevice_error [Stringer E] [Stringer N] (net : Network) (path : Bytes)
    (cfg : Config E N) (c : Conn) (r : Bytes) (hdial : net.Dial (lit "unix") path = .ok c)
    (hwrite : Copy c (request cfg) = none) (hread : c.Read (request cfg) 32 = (r, none))
    (hs : TrimSpace (r.take 32) ≠ lit "errno=0") :
    (configureDevice net path cfg).1 =
      some (.SyscallError (lit "read") (.errorString (lit "wguser: " ++ TrimSpace (r.take 32)))) := by
  simp only [configureDevice, hdial]
  exact exchange_error c cfg r hwrite hread hs

/-- C19, as stated, fails for a reply longer than the buffer.  The reply of 30
spaces, `errno=5` and a line feed has the trimmed text `errno=5`, but the 32
bytes read are the spaces and `er`, and the error text is `read: wguser: er`,
from which `errno=5` cannot be recovered.  The reply `errno=0`, 25 spaces and
`garbage` has a trimmed text other than `errno=0`, and no error is returned. -/
theorem configureDevice_error_text_cut :
    TrimSpace (List.replicate 30 32 ++ lit "errno=5\n") = lit "errno=5" ∧
      (∃ e : Error,
        (configureDevice (replyingNetwork (List.replicate 30 32 ++ lit "errno=5\n")) socketPath
          configEmpty).1 = some e ∧
        e = .SyscallError (lit "read") (.errorString (lit "wguser: er")) ∧
        e.Error = lit "read: wguser: er" ∧ e.Error ≠ lit "read: wguser: errno=5") ∧
      TrimSpace (lit "errno=0" ++ List.replicate 25 32 ++ lit "garbage") ≠ lit "errno=0" ∧
      (configureDevice (replyingNetwork (lit "errno=0" ++ List.replicate 25 32 ++ lit "garbage"))
        socketPath configEmpty).1 = none := by
  refine ⟨by decide, ⟨.SyscallError (lit "read") (.errorString (lit "wguser: er")), by decide,
    rfl, by decide, by decide⟩, by decide, by decide⟩

/-- C19, amended. After a successful open, write and read, let `s` be the
trimmed text of the bytes read, which are the first 32 bytes of the reply (the
whole reply when it has at most 32 bytes).  For every reply with `s` other than
`errno=0`, the error `configureDevice` returns is a syscall error for the
operation `read` that wraps the message `wguser: ` followed by `s` unchanged;
its full text is `read: wguser: ` followed by `s`, and `s` is that text without
its first 14 bytes. -/
theorem configureDevice_error_text [Stringer E] [Stringer N] (net : Network) (path : Bytes)
    (cfg : Config E N) (c : Conn) (r : Bytes) (hdial : net.Dial (lit "unix") path = .ok c)
    (hwrite : Copy c (request cfg) = none) (hread : c.Read (request cfg) 32 = (r, none))
    (hs : TrimSpace (r.take 32) ≠ lit "errno=0") :
    ∃ e : Error, (configureDevice net path cfg).1 = some e ∧
      e = .SyscallError (lit "read") (.errorString (lit "wguser: " ++ TrimSpace (r.take 32))) ∧
      e.Error = lit "read: wguser: " ++ TrimSpace (r.take 32) ∧
      e.Error.drop 14 = TrimSpace (r.take 32) ∧
      (r.length ≤ 32 →
        e.Error = lit "read: wguser: " ++ TrimSpace r ∧ e.Error.drop 14 = TrimSpace r) := by
  have h₁ : (Error.SyscallError (lit "read")
      (.errorString (lit "wguser: " ++ TrimSpace (r.take 32)))).Error =
      lit "read: wguser: " ++ TrimSpace (r.take 32) := by
    have : lit "read: wguser: " = lit "read" ++ lit ": " ++ lit "wguser: " := rfl
    simp only [Error.Error, this, List.append_assoc]
  have h₂ : (Error.SyscallError (lit "read")
      (.errorString (lit "wguser: " ++ TrimSpace (r.take 32)))).Error.drop 14 =
      TrimSpace (r.take 32) := by
    have h14 : (lit "read: wguser: ").length = 14 := rfl
    rw [h₁, ← h14, List.drop_left]
  refine ⟨_, configureDevice_error net path cfg c r hdial hwrite hread hs, rfl, h₁, h₂, ?_⟩
  intro hlen
  have htake : r.take 32 = r := List.take_of_length_le hlen
  rw [htake] at h₁ h₂
  rw [htake]
  exact ⟨h₁, h₂⟩

/-- Witness for the amended C19: the device replies `errno=22` and a line
feed. -/
theorem configureDevice_error_text_witness :
    ∃ e : Error, (configureDevice (replyingNetwork (lit "errno=22\n")) socketPath configFull).1 =
        some e ∧
      e = .SyscallError (lit "read") (.errorString (lit "wguser: errno=22")) ∧
      e.Error = lit "read: wguser: errno=22" ∧ e.Error.drop 14 = lit "errno=22" := by
  obtain ⟨e, he, heq, htext, hdrop, -⟩ :=
    configureDevice_error_text (replyingNetwork (lit "errno=22\n")) socketPath configFull
      (replying _) (lit "errno=22\n") rfl rfl rfl (by decide)
  exact ⟨e, he, heq, htext, hdrop⟩

theorem exchange_ok_iff_copy [Stringer E] [Stringer N] (c : Conn) (cfg : Config E N) (r : Bytes)
    (hwrite : Copy c (request cfg) = none) (hread : c.Read (request cfg) 32 = (r, none)) :
    (exchange c cfg).1 = none ↔ TrimSpace (r.take 32) = lit "errno=0" := by
  by_cases hs : TrimSpace (r.take 32) = lit "errno=0"
  · simp [exchange, hwrite, hread, hs]
  · simp [exchange, hwrite, hread, hs, NewSyscallError]

/-- C17, as stated, fails: the reply `errno=0`, 25 spaces and `garbage` has 39
bytes, the 32 bytes read contain no line feed, and `configureDevice` returns no
error. -/
theorem configureDevice_unterminated_accepted :
    (lit "errno=0" ++ List.replicate 25 32 ++ lit "garbage").length = 39 ∧
      NL ∉ (lit "errno=0" ++ List.replicate 25 32 ++ lit "garbage").take 32 ∧
      (configureDevice (replyingNetwork (lit "errno=0" ++ List.replicate 25 32 ++ lit "garbage"))
        socketPath configEmpty).1 = none := by
  decide

/-- C17, amended. For every reply that fills or exceeds the buffer of 32 bytes,
`configureDevice` classifies the first 32 bytes as if they were the whole reply
and ignores the rest: it returns no error exactly when those 32 bytes, trimmed,
are `errno=0`, as for `errno=0` followed by 25 spaces and then further bytes,
and otherwise the error for the trimmed text of those 32 bytes. -/
theorem configureDevice_overlong_reply [Stringer E] [Stringer N] (net : Network) (path : Bytes)
    (cfg : Config E N) (c : Conn) (r tail : Bytes) (hdial : net.Dial (lit "unix") path = .ok c)
    (hwrite : Copy c (request cfg) = none)
    (hread : c.Read (request cfg) 32 = (r ++ tail, none)) (hlen : r.length = 32) :
    ((configureDevice net path cfg).1 = none ↔ TrimSpace r = lit "errno=0") ∧
    (r = lit "errno=0" ++ List.replicate 25 32 → (configureDevice net path cfg).1 = none) ∧
    (TrimSpace r ≠ lit "errno=0" →
      (configureDevice net path cfg).1 =
        some (.SyscallError (lit "read") (.errorString (lit "wguser: " ++ TrimSpace r)))) := by
  have htake : (r ++ tail).take 32 = r := List.take_left' hlen
  have hiff : (configureDevice net path cfg).1 = none ↔ TrimSpace r = lit "errno=0" := by
    have := exchange_ok_iff_copy c cfg (r ++ tail) hwrite hread
    rw [htake] at this
    simpa only [configureDevice, hdial] using this
  refine ⟨hiff, ?_, ?_⟩
  · intro hr
    rw [hiff, hr]
    decide
  · intro hs
    have := configureDevice_error net path cfg c (r ++ tail) hdial hwrite hread
      (by rw [htake]; exact hs)
    rw [htake] at this
    exact this

/-- Witness for the amended C17: the reply `errno=0`, 25 spaces and
`garbage`. -/
theorem configureDevice_overlong_reply_witness :
    (configureDevice (replyingNetwork (lit "errno=0" ++ List.replicate 25 32 ++ lit "garbage"))
      socketPath configFull).1 = none :=
  (configureDevice_overlong_reply (replyingNetwork _) socketPath configFull (replying _)
    (lit "errno=0" ++ List.replicate 25 32) (lit "garbage") rfl rfl rfl (by decide)).2.1 rfl

/-- C11, as stated, fails: for the reply `errno=7` the error returned is a
syscall error that wraps the text `wguser: errno=7`; it carries no numeric
code, so not the code 7. -/
theorem configureDevice_errno7_no_code :
    ∃ e : Error,
      (configureDevice (replyingNetwork (lit "errno=7")) socketPath configEmpty).1 = some e ∧
        e = .SyscallError (lit "read") (.errorString (lit "wguser: errno=7")) ∧
        e.code = none ∧ e.code ≠ some 7 :=
  ⟨.SyscallError (lit "read") (.errorString (lit "wguser: errno=7")), by decide, rfl, rfl,
    by decide⟩

/-- C11, amended. For every integer `N` other than 0 whose decimal text has at
most 26 characters (so that `errno=N` fits the buffer of 32 bytes), a reply
`errno=N`, also when white space follows it, makes `configureDevice` return a
syscall error for `read` that wraps the text `wguser: errno=N`: the code is
preserved as its decimal text in the message, and the error carries no numeric
code. -/
theorem configureDevice_errno_text [Stringer E] [Stringer N] (net : Network) (path : Bytes)
    (cfg : Config E N) (c : Conn) (n : Int) (ws : Bytes)
    (hdial : net.Dial (lit "unix") path = .ok c) (hwrite : Copy c (request cfg) = none)
    (hread : c.Read (request cfg) 32 = (lit "errno=" ++ fmtInt n ++ ws, none))
    (hws : ∀ b ∈ ws, IsBlank b) (hn : n ≠ 0) (hlen : (fmtInt n).length ≤ 26) :
    ∃ e : Error, (configureDevice net path cfg).1 = some e ∧
      e = .SyscallError (lit "read") (.errorString (lit "wguser: errno=" ++ fmtInt n)) ∧
      e.Error = lit "read: wguser: errno=" ++ fmtInt n ∧ e.code = none := by
  have h6 : (lit "errno=").length = 6 := rfl
  have htake : (lit "errno=" ++ fmtInt n ++ ws).take 32 =
      [] ++ (lit "errno=" ++ fmtInt n) ++ ws.take (32 - (lit "errno=" ++ fmtInt n).length) := by
    rw [List.take_append_eq_append_take, List.take_of_length_le
      (by simp only [List.length_append]; omega), List.nil_append]
  obtain ⟨pre, d, hd, hdig⟩ := fmtInt_last n
  have htrim : TrimSpace ((lit "errno=" ++ fmtInt n ++ ws).take 32) = lit "errno=" ++ fmtInt n := by
    rw [htake]
    refine TrimSpace_blanks [] _ _ (lit "errno=" ++ pre) (lit "rrno=" ++ fmtInt n) 101 d
      (by simp) (fun b hb => hws b (List.mem_of_mem_take hb)) rfl (by decide) (by decide) ?_
      (by omega) (isSpace_of_digit hdig)
    rw [hd, List.append_assoc]
  have hne : TrimSpace ((lit "errno=" ++ fmtInt n ++ ws).take 32) ≠ lit "errno=0" := by
    rw [htrim]
    intro h
    have h0 : lit "errno=0" = lit "errno=" ++ fmtInt 0 := rfl
    rw [h0] at h
    exact hn (fmtInt_injective _ _ (List.append_cancel_left h))
  have hres := configureDevice_error net path cfg c _ hdial hwrite hread hne
  rw [htrim] at hres
  have h₁ : lit "wguser: " ++ (lit "errno=" ++ fmtInt n) = lit "wguser: errno=" ++ fmtInt n := rfl
  rw [h₁] at hres
  refine ⟨_, hres, rfl, ?_, rfl⟩
  have h₂ : lit "read: wguser: errno=" = lit "read" ++ lit ": " ++ lit "wguser: errno=" := rfl
  simp only [Error.Error, h₂, List.append_assoc]

/-- Witness for the amended C11: the device replies `errno=7` and a line
feed. -/
theorem configureDevice_errno_text_witness :
    ∃ e : Error, (configureDevice (replyingNetwork (lit "errno=7\n")) socketPath configFull).1 =
        some e ∧
      e = .SyscallError (lit "read") (.errorString (lit "wguser: errno=7")) ∧
      e.Error = lit "read: wguser: errno=7" ∧ e.code = none :=
  configureDevice_errno_text (replyingNetwork (lit "errno=7\n")) socketPath configFull
    (replying _) 7 (lit "\n") rfl rfl rfl (by decide) (by decide) (by decide)

theorem kind_SyscallError_errorString (sc text : Bytes) :
    (Error.SyscallError sc (.errorString text)).kind = .SyscallError .errorString := rfl

/-- C12, as stated, fails: the error for the reply `garbage` and a line feed
and the error for the reply `errno=7` are of the same kind, a syscall error
that wraps a text. -/
theorem configureDevice_garbage_same_kind :
    ∃ e₁ e₂ : Error,
      (configureDevice (replyingNetwork (lit "garbage\n")) socketPath configEmpty).1 = some e₁ ∧
        (configureDevice (replyingNetwork (lit "errno=7")) socketPath configEmpty).1 = some e₂ ∧
        e₁ = .SyscallError (lit "read") (.errorString (lit "wguser: garbage")) ∧
        e₁.kind = e₂.kind :=
  ⟨.SyscallError (lit "read") (.errorString (lit "wguser: garbage")),
    .SyscallError (lit "read") (.errorString (lit "wguser: errno=7")), by decide, by decide, rfl,
    rfl⟩

/-- C12, amended. After a successful open, write and read, let the status text
of a reply be the trimmed text of the bytes read, which are the first 32 bytes
of the reply (the whole reply when it has at most 32 bytes).  For every two
replies whose status texts are not `errno=0`, of the form `errno=<N>` or not,
the errors `configureDevice` returns are of one and the same kind, a syscall
error for `read` that wraps a text and carries no numeric code; they are equal
exactly when the status texts are equal, so the error for a malformed reply
differs from the error for `errno=<N>` in its message alone. -/
theorem configureDevice_error_kind [Stringer E] [Stringer N] (net₁ net₂ : Network)
    (path : Bytes) (cfg : Config E N) (c₁ c₂ : Conn) (r₁ r₂ : Bytes)
    (hdial₁ : net₁.Dial (lit "unix") path = .ok c₁) (hwrite₁ : Copy c₁ (request cfg) = none)
    (hread₁ : c₁.Read (request cfg) 32 = (r₁, none))
    (hs₁ : TrimSpace (r₁.take 32) ≠ lit "errno=0")
    (hdial₂ : net₂.Dial (lit "unix") path = .ok c₂) (hwrite₂ : Copy c₂ (request cfg) = none)
    (hread₂ : c₂.Read (request cfg) 32 = (r₂, none))
    (hs₂ : TrimSpace (r₂.take 32) ≠ lit "errno=0") :
    ∃ e₁ e₂ : Error,
      (configureDevice net₁ path cfg).1 = some e₁ ∧ (configureDevice net₂ path cfg).1 = some e₂ ∧
        e₁.kind = .SyscallError .errorString ∧ e₂.kind = e₁.kind ∧
        e₁.code = none ∧ e₂.code = none ∧
        (e₁ = e₂ ↔ TrimSpace (r₁.take 32) = TrimSpace (r₂.take 32)) ∧
        (r₁.length ≤ 32 → r₂.length ≤ 32 → (e₁ = e₂ ↔ TrimSpace r₁ = TrimSpace r₂)) := by
  have hiff : Error.SyscallError (lit "read") (.errorString (lit "wguser: " ++ TrimSpace (r₁.take 32)))
      = .SyscallError (lit "read") (.errorString (lit "wguser: " ++ TrimSpace (r₂.take 32))) ↔
      TrimSpace (r₁.take 32) = TrimSpace (r₂.take 32) := by
    constructor
    · intro h
      simp only [Error.SyscallError.injEq, Error.errorString.injEq, true_and] at h
      exact List.append_cancel_left h
    · intro h
      rw [h]
  refine ⟨_, _, configureDevice_error net₁ path cfg c₁ r₁ hdial₁ hwrite₁ hread₁ hs₁,
    configureDevice_error net₂ path cfg c₂ r₂ hdial₂ hwrite₂ hread₂ hs₂, rfl, ?_, rfl, rfl, hiff,
    ?_⟩
  · exact (kind_SyscallError_errorString _ _).trans (kind_SyscallError_errorString _ _).symm
  · intro hlen₁ hlen₂
    rw [hiff, List.take_of_length_le hlen₁, List.take_of_length_le hlen₂]

/-- Witness for the amended C12: the replies `garbage` and `errno=7`, each with
a line feed. -/
theorem configureDevice_error_kind_witness :
    ∃ e₁ e₂ : Error,
      (configureDevice (replyingNetwork (lit "garbage\n")) socketPath configFull).1 = some e₁ ∧
        (configureDevice (replyingNetwork (lit "errno=7\n")) socketPath configFull).1 = some e₂ ∧
        e₁.kind = .SyscallError .errorString ∧ e₂.kind = e₁.kind ∧
        e₁.code = none ∧ e₂.code = none ∧ e₁ ≠ e₂ := by
  obtain ⟨e₁, e₂, h₁, h₂, hk₁, hk₂, hc₁, hc₂, hiff, -⟩ :=
    configureDevice_error_kind (replyingNetwork (lit "garbage\n"))
      (replyingNetwork (lit "errno=7\n")) socketPath configFull (replying _) (replying _)
      (lit "garbage\n") (lit "errno=7\n") rfl rfl rfl (by decide) rfl rfl rfl (by decide)
  exact ⟨e₁, e₂, h₁, h₂, hk₁, hk₂, hc₁, hc₂, fun h => absurd (hiff.mp h) (by decide)⟩

end Status

/-! ## configureDevice: white space around the status is trimmed -/

section Trimmed

variable {E N : Type}

theorem isVisible_lt {b : Byte} (h : IsVisible b) : b.val < 0x80 := by
  unfold IsVisible at h
  omega

theorem isVisible_isSpace {b : Byte} (h : IsVisible b) : IsSpace b.val = false := by
  unfold IsVisible at h
  have : b.val ≤ 0xFF := by omega
  simp only [IsSpace, this, if_true, decide_eq_false_iff_not]
  omega

theorem indexFuncLoop_all_blanks (ws : Bytes) (hws : ∀ b ∈ ws, IsBlank b) (pre : Bytes)
    (fuel : Nat) : indexFuncLoop (pre ++ ws) IsSpace false fuel pre.length = -1 := by
  induction ws generalizing pre fuel with
  | nil =>
    cases fuel with
    | zero => rfl
    | succ fuel => simp [indexFuncLoop]
  | cons b ws ih =>
    cases fuel with
    | zero => rfl
    | succ fuel =>
      have hb := hws b (by simp)
      have hdrop : (pre ++ b :: ws).drop pre.length = b :: ws := List.drop_left _ _
      have hstep := ih (fun x hx => hws x (by simp [hx])) (pre ++ [b]) fuel
      simp only [List.append_assoc, List.singleton_append, List.length_append, List.length_cons,
        List.length_nil, Nat.zero_add] at hstep
      unfold indexFuncLoop
      rw [hdrop, DecodeRuneInString_ascii b _ hb.lt]
      simp only [hb.isSpace]
      have hlt : pre.length < (pre ++ b :: ws).length := by simp
      rw [if_pos hlt, if_neg (by decide), hstep]

theorem TrimSpace_all_blanks (ws : Bytes) (hws : ∀ b ∈ ws, IsBlank b) : TrimSpace ws = [] := by
  have hi := indexFuncLoop_all_blanks ws hws [] ws.length
  simp only [List.nil_append, List.length_nil] at hi
  unfold TrimSpace TrimFunc TrimLeftFunc indexFunc
  simp only [hi, if_true]
  decide

theorem TrimSpace_core (ws₁ m ws₂ : Bytes) (h₁ : ∀ b ∈ ws₁, IsBlank b)
    (h₂ : ∀ b ∈ ws₂, IsBlank b)
    (hm : m = [] ∨ ((∃ b ∈ m.head?, IsVisible b) ∧ ∃ b ∈ m.getLast?, IsVisible b)) :
    TrimSpace (ws₁ ++ m ++ ws₂) = m := by
  rcases hm with rfl | ⟨⟨c₁, hc₁, hv₁⟩, ⟨c₂, hc₂, hv₂⟩⟩
  · rw [List.append_nil]
    exact TrimSpace_all_blanks _ fun b hb => by
      rcases List.mem_append.mp hb with hb | hb
      · exact h₁ b hb
      · exact h₂ b hb
  · obtain ⟨t, ht⟩ : ∃ t, m = c₁ :: t := by
      cases m with
      | nil => simp at hc₁
      | cons a t =>
        simp only [List.head?_cons, Option.mem_def, Option.some.injEq] at hc₁
        exact ⟨t, by rw [hc₁]⟩
    obtain ⟨pre, hpre⟩ : ∃ pre, m = pre ++ [c₂] := by
      rw [Option.mem_def, List.getLast?_eq_some_iff] at hc₂
      exact hc₂
    exact TrimSpace_blanks ws₁ m ws₂ pre t c₁ c₂ h₁ h₂ ht (isVisible_lt hv₁)
      (isVisible_isSpace hv₁) hpre (isVisible_lt hv₂) (isVisible_isSpace hv₂)

/-- C9. `configureDevice` returns no error if and only if the channel opens,
the write succeeds (no error, every byte of the request written), the read
succeeds, and the bytes read, at most 32, are exactly `errno=0` once
`strings.TrimSpace` has trimmed them.  It returns an error when the bytes read
are `errno=00`, `errno=+0`, `ERRNO=0`, `errno=0 x` or empty, with or without
white space around them, when they are white space alone, when white space
stands inside the status, and when a byte that is no white space in UTF-8
precedes it.  It returns no error when the bytes read are `errno=0` with white
space before or after it, of ASCII or of Unicode.  In general, when the bytes
read are white space (spaces, tabs, carriage returns, line feeds), then a text
that is empty or begins and ends with a visible character of ASCII, then white
space again, `strings.TrimSpace` gives the text between, and no error is
returned exactly when that text is `errno=0`. -/
theorem configureDevice_ok_iff [Stringer E] [Stringer N] (net : Network) (path : Bytes)
    (cfg : Config E N) :
    ((configureDevice net path cfg).1 = none ↔
      ∃ c : Conn, net.Dial (lit "unix") path = .ok c ∧
        (c.Write (request cfg)).2 = none ∧ (c.Write (request cfg)).1 = (request cfg).length ∧
        (c.Read (request cfg) 32).2 = none ∧
        TrimSpace ((c.Read (request cfg) 32).1.take 32) = lit "errno=0") ∧
    (∀ c : Conn, net.Dial (lit "unix") path = .ok c →
      ∀ r ∈ [lit "errno=00", lit "errno=+0", lit "ERRNO=0", lit "errno=0 x", [],
          lit " errno=00\n", lit "\terrno=+0\r\n", lit "ERRNO=0\n", lit "errno=0 x\n",
          lit "\n", lit " \t\r\n", lit "errno= 0\n", lit "errno =0\n", lit "errno=\n0",
          (0xA0 : Byte) :: lit "errno=0"],
        (c.Read (request cfg) 32).1 = r → (configureDevice net path cfg).1 ≠ none) ∧
    (∀ c : Conn, net.Dial (lit "unix") path = .ok c →
      c.Write (request cfg) = ((request cfg).length, none) →
      ∀ r ∈ [lit "errno=0", lit "errno=0\n", lit "errno=0\n\n", lit " errno=0",
          lit " \t\r\nerrno=0 \r\n\x0b\x0c", lit "errno=0" ++ List.replicate 25 10,
          [0xC2, 0xA0] ++ lit "errno=0" ++ [0xE2, 0x80, 0xA8]],
        c.Read (request cfg) 32 = (r, none) → (configureDevice net path cfg).1 = none) ∧
    ∀ (c : Conn) (r ws₁ m ws₂ : Bytes), net.Dial (lit "unix") path = .ok c →
      c.Write (request cfg) = ((request cfg).length, none) →
      c.Read (request cfg) 32 = (r, none) → r.take 32 = ws₁ ++ m ++ ws₂ →
      (∀ b ∈ ws₁, IsBlank b) → (∀ b ∈ ws₂, IsBlank b) →
      (m = [] ∨ ((∃ b ∈ m.head?, IsVisible b) ∧ ∃ b ∈ m.getLast?, IsVisible b)) →
      (TrimSpace (r.take 32) = m ∧
        ((configureDevice net path cfg).1 = none ↔ m = lit "errno=0")) := by
  have hiff : (configureDevice net path cfg).1 = none ↔
      ∃ c : Conn, net.Dial (lit "unix") path = .ok c ∧
        (c.Write (request cfg)).2 = none ∧ (c.Write (request cfg)).1 = (request cfg).length ∧
        (c.Read (request cfg) 32).2 = none ∧
        TrimSpace ((c.Read (request cfg) 32).1.take 32) = lit "errno=0" := by
    unfold configureDevice
    cases hd : net.Dial (lit "unix") path with
    | error e => simp
    | ok c =>
      simp only [Except.ok.injEq, exists_eq_left']
      exact exchange_ok_iff c cfg
  have hok : ∀ (c : Conn) (r : Bytes), net.Dial (lit "unix") path = .ok c →
      c.Write (request cfg) = ((request cfg).length, none) →
      c.Read (request cfg) 32 = (r, none) →
      ((configureDevice net path cfg).1 = none ↔ TrimSpace (r.take 32) = lit "errno=0") := by
    intro c r hd hw hr
    rw [hiff]
    constructor
    · rintro ⟨c', hd', -, -, -, ht⟩
      rw [hd] at hd'
      cases hd'
      rw [hr] at ht
      exact ht
    · intro ht
      exact ⟨c, hd, by rw [hw], by rw [hw], by rw [hr], by rw [hr]; exact ht⟩
  refine ⟨hiff, ?_, ?_, ?_⟩
  · intro c hd r hr hread hnone
    obtain ⟨c', hd', -, -, -, ht⟩ := hiff.mp hnone
    rw [hd] at hd'
    cases hd'
    rw [hread] at ht
    revert ht
    simp only [List.mem_cons, List.mem_singleton, List.not_mem_nil, or_false] at hr
    rcases hr with rfl | rfl | rfl | rfl | rfl | rfl | rfl | rfl | rfl | rfl | rfl | rfl | rfl |
      rfl | rfl <;> decide
  · intro c hd hw r hr hread
    rw [hok c r hd hw hread]
    simp only [List.mem_cons, List.mem_singleton, List.not_mem_nil, or_false] at hr
    rcases hr with rfl | rfl | rfl | rfl | rfl | rfl | rfl <;> decide
  · intro c r ws₁ m ws₂ hd hw hread htake h₁ h₂ hm
    have htrim : TrimSpace (r.take 32) = m := by
      rw [htake]
      exact TrimSpace_core ws₁ m ws₂ h₁ h₂ hm
    refine ⟨htrim, ?_⟩
    rw [hok c r hd hw hread, htrim]

end Trimmed

/-! ## Presence, not value, decides emission -/

section Presence

variable {E N : Type}

theorem append_insert_ne (a x b : Bytes) (hx : x ≠ []) : a ++ x ++ b ≠ a ++ b := by
  intro h
  have hl := congrArg List.length h
  simp only [List.length_append] at hl
  exact hx (List.length_eq_zero.mp (by omega))

theorem writeConfig_split [Stringer E] [Stringer N] (w : Buffer) (cfg : Config E N) :
    writeConfig w cfg =
      w ++ unlines (optLine (lit "private_key=") hexKey cfg.PrivateKey) ++
        unlines (optLine (lit "listen_port=") fmtInt cfg.ListenPort) ++
        unlines (optLine (lit "fwmark=") fmtInt cfg.FirewallMark) ++
        (unlines (flagLine (lit "replace_peers=") cfg.ReplacePeers) ++
          unlines (cfg.Peers.flatMap peerLines)) := by
  rw [writeDevice_eq, deviceLines]
  simp only [unlines_append, List.append_assoc]

theorem writePeer_split [Stringer E] [Stringer N] (w : Buffer) (p : PeerConfig E N) :
    writePeer w p =
      w ++ unlines ((lit "public_key=" ++ hexKey p.PublicKey) ::
          (flagLine (lit "remove=") p.Remove ++
            optLine (lit "preshared_key=") hexKey p.PresharedKey ++
            optLine (lit "endpoint=") Stringer.String p.Endpoint)) ++
        unlines (optLine (lit "persistent_keepalive_interval=") keepaliveText
          p.PersistentKeepaliveInterval) ++
        unlines (flagLine (lit "replace_allowed_ips=") p.ReplaceAllowedIPs ++ allowedLines p) := by
  rw [writePeer_eq, peerLines, scalarLines]
  simp only [unlines_cons, unlines_append, List.append_assoc, List.cons_append]

theorem writePeer_parts [Stringer E] [Stringer N] (w : Buffer) (p : PeerConfig E N) :
    writePeer w p =
      w ++ (unlines [lit "public_key=" ++ hexKey p.PublicKey] ++
          unlines (flagLine (lit "remove=") p.Remove)) ++
        unlines (optLine (lit "preshared_key=") hexKey p.PresharedKey) ++
        unlines (optLine (lit "endpoint=") Stringer.String p.Endpoint) ++
        (unlines (optLine (lit "persistent_keepalive_interval=") keepaliveText
            p.PersistentKeepaliveInterval) ++
          unlines (flagLine (lit "replace_allowed_ips=") p.ReplaceAllowedIPs ++ allowedLines p)) := by
  rw [writePeer_eq, peerLines, scalarLines]
  simp only [unlines_cons, unlines_append, unlines_nil, List.append_assoc, List.cons_append,
    List.append_nil, List.nil_append]

theorem writeConfig_peer_ne [Stringer E] [Stringer N] (w : Buffer) (cfg : Config E N)
    (ps₁ ps₂ : List (PeerConfig E N)) (p q : PeerConfig E N)
    (hne : writePeer [] p ≠ writePeer [] q) :
    writeConfig w ({ cfg with Peers := ps₁ ++ p :: ps₂ } : Config E N) ≠
      writeConfig w ({ cfg with Peers := ps₁ ++ q :: ps₂ } : Config E N) := by
  intro h
  apply hne
  rw [writeDevice_eq, writeDevice_eq] at h
  simp only [deviceLines, List.flatMap_append, List.flatMap_cons, unlines_append,
    List.append_assoc, List.append_cancel_left_eq, List.append_cancel_right_eq] at h
  rw [writePeer_eq, writePeer_eq, h]

/-- C16. Presence, not value, decides emission.  For every configuration and
writer: a present listen port 0 gives the line `listen_port=0`, a present
firewall mark 0 the line `fwmark=0`, a present private key of zero bytes the
line `private_key=` followed by 64 characters `0`, and for every peer a present
keep-alive interval of zero the line `persistent_keepalive_interval=0`, a
present preshared key of zero bytes the line `preshared_key=` followed by 64
characters `0`, and a present endpoint that is the zero `net.UDPAddr` the line
`endpoint=:0`.  In each case the output for the field absent is the same output
without that line, and so differs from the output for the field present with
the zero value; and two configurations that differ in one peer, whose blocks
differ, have different outputs. -/
theorem writeConfig_present_zero [Stringer E] [Stringer N] (w : Buffer) (cfg : Config E N) :
    (cfg.ListenPort = some 0 →
      ∃ pre post : Bytes,
        writeConfig w cfg = w ++ pre ++ lit "listen_port=0\n" ++ post ∧
        writeConfig w ({ cfg with ListenPort := none } : Config E N) = w ++ pre ++ post ∧
        writeConfig w cfg ≠ writeConfig w ({ cfg with ListenPort := none } : Config E N)) ∧
    (cfg.FirewallMark = some 0 →
      ∃ pre post : Bytes,
        writeConfig w cfg = w ++ pre ++ lit "fwmark=0\n" ++ post ∧
        writeConfig w ({ cfg with FirewallMark := none } : Config E N) = w ++ pre ++ post ∧
        writeConfig w cfg ≠ writeConfig w ({ cfg with FirewallMark := none } : Config E N)) ∧
    (∀ k : Key, cfg.PrivateKey = some k → k.bytes = List.replicate 32 0 →
      ∃ post : Bytes,
        writeConfig w cfg =
          w ++ (lit "private_key=" ++ List.replicate 64 48 ++ lit "\n") ++ post ∧
        writeConfig w ({ cfg with PrivateKey := none } : Config E N) = w ++ post ∧
        writeConfig w cfg ≠ writeConfig w ({ cfg with PrivateKey := none } : Config E N)) ∧
    (∀ p : PeerConfig E N, p.PersistentKeepaliveInterval = some 0 →
      ∃ pre post : Bytes,
        writePeer w p = w ++ pre ++ lit "persistent_keepalive_interval=0\n" ++ post ∧
        writePeer w ({ p with PersistentKeepaliveInterval := none } : PeerConfig E N) =
          w ++ pre ++ post ∧
        writePeer w p ≠
          writePeer w ({ p with PersistentKeepaliveInterval := none } : PeerConfig E N)) ∧
    (∀ (p : PeerConfig E N) (k : Key), p.PresharedKey = some k →
      k.bytes = List.replicate 32 0 →
      ∃ pre post : Bytes,
        writePeer w p =
          w ++ pre ++ (lit "preshared_key=" ++ List.replicate 64 48 ++ lit "\n") ++ post ∧
        writePeer w ({ p with PresharedKey := none } : PeerConfig E N) = w ++ pre ++ post ∧
        writePeer w p ≠ writePeer w ({ p with PresharedKey := none } : PeerConfig E N)) ∧
    (∀ p : PeerConfig UDPAddr N, p.Endpoint = some ⟨[], 0, []⟩ →
      ∃ pre post : Bytes,
        writePeer w p = w ++ pre ++ lit "endpoint=:0\n" ++ post ∧
        writePeer w ({ p with Endpoint := none } : PeerConfig UDPAddr N) = w ++ pre ++ post ∧
        writePeer w p ≠ writePeer w ({ p with Endpoint := none } : PeerConfig UDPAddr N)) ∧
    ∀ (ps₁ ps₂ : List (PeerConfig E N)) (p q : PeerConfig E N),
      writePeer [] p ≠ writePeer [] q →
      writeConfig w ({ cfg with Peers := ps₁ ++ p :: ps₂ } : Config E N) ≠
        writeConfig w ({ cfg with Peers := ps₁ ++ q :: ps₂ } : Config E N) := by
  refine ⟨?_, ?_, ?_, ?_, ?_, ?_, ?_⟩
  · intro h
    have h₁ : writeConfig w cfg =
        w ++ unlines (optLine (lit "private_key=") hexKey cfg.PrivateKey) ++
          lit "listen_port=0\n" ++
          (unlines (optLine (lit "fwmark=") fmtInt cfg.FirewallMark) ++
            (unlines (flagLine (lit "replace_peers=") cfg.ReplacePeers) ++
              unlines (cfg.Peers.flatMap peerLines))) := by
      rw [writeConfig_split, h]
      have : unlines (optLine (lit "listen_port=") fmtInt (some 0)) = lit "listen_port=0\n" := by
        decide
      rw [this]
      simp only [List.append_assoc]
    have h₂ : writeConfig w ({ cfg with ListenPort := none } : Config E N) =
        w ++ unlines (optLine (lit "private_key=") hexKey cfg.PrivateKey) ++
          (unlines (optLine (lit "fwmark=") fmtInt cfg.FirewallMark) ++
            (unlines (flagLine (lit "replace_peers=") cfg.ReplacePeers) ++
              unlines (cfg.Peers.flatMap peerLines))) := by
      rw [writeConfig_split]
      simp only [optLine, unlines_nil, List.append_nil, List.append_assoc]
    refine ⟨_, _, h₁, h₂, ?_⟩
    rw [h₁, h₂]
    exact append_insert_ne _ _ _ (by decide)
  · intro h
    have h₁ : writeConfig w cfg =
        w ++ (unlines (optLine (lit "private_key=") hexKey cfg.PrivateKey) ++
            unlines (optLine (lit "listen_port=") fmtInt cfg.ListenPort)) ++
          lit "fwmark=0\n" ++
          (unlines (flagLine (lit "replace_peers=") cfg.ReplacePeers) ++
            unlines (cfg.Peers.flatMap peerLines)) := by
      rw [writeConfig_split, h]
      have : unlines (optLine (lit "fwmark=") fmtInt (some 0)) = lit "fwmark=0\n" := by decide
      rw [this]
      simp only [List.append_assoc]
    have h₂ : writeConfig w ({ cfg with FirewallMark := none } : Config E N) =
        w ++ (unlines (optLine (lit "private_key=") hexKey cfg.PrivateKey) ++
            unlines (optLine (lit "listen_port=") fmtInt cfg.ListenPort)) ++
          (unlines (flagLine (lit "replace_peers=") cfg.ReplacePeers) ++
            unlines (cfg.Peers.flatMap peerLines)) := by
      rw [writeConfig_split]
      simp only [optLine, unlines_nil, List.append_nil, List.append_assoc]
    refine ⟨_, _, h₁, h₂, ?_⟩
    rw [h₁, h₂]
    exact append_insert_ne _ _ _ (by decide)
  · intro k h hk
    have hhex : hexKey k = List.replicate 64 48 := by
      rw [hexKey, hk]
      decide
    have h₁ : writeConfig w cfg =
        w ++ (lit "private_key=" ++ List.replicate 64 48 ++ lit "\n") ++
          (unlines (optLine (lit "listen_port=") fmtInt cfg.ListenPort) ++
            (unlines (optLine (lit "fwmark=") fmtInt cfg.FirewallMark) ++
              (unlines (flagLine (lit "replace_peers=") cfg.ReplacePeers) ++
                unlines (cfg.Peers.flatMap peerLines)))) := by
      rw [writeConfig_split, h]
      have hnl : lit "\n" = [NL] := rfl
      simp only [optLine, unlines_singleton, hhex, hnl, List.append_assoc]
    have h₂ : writeConfig w ({ cfg with PrivateKey := none } : Config E N) =
        w ++ (unlines (optLine (lit "listen_port=") fmtInt cfg.ListenPort) ++
            (unlines (optLine (lit "fwmark=") fmtInt cfg.FirewallMark) ++
              (unlines (flagLine (lit "replace_peers=") cfg.ReplacePeers) ++
                unlines (cfg.Peers.flatMap peerLines)))) := by
      rw [writeConfig_split]
      simp only [optLine, unlines_nil, List.append_nil, List.append_assoc]
    refine ⟨_, h₁, h₂, ?_⟩
    rw [h₁, h₂]
    have := append_insert_ne w (lit "private_key=" ++ List.replicate 64 48 ++ lit "\n")
      (unlines (optLine (lit "listen_port=") fmtInt cfg.ListenPort) ++
        (unlines (optLine (lit "fwmark=") fmtInt cfg.FirewallMark) ++
          (unlines (flagLine (lit "replace_peers=") cfg.ReplacePeers) ++
            unlines (cfg.Peers.flatMap peerLines)))) (by decide)
    exact this
  · intro p h
    have h₁ := writePeer_split w p
    rw [h] at h₁
    have hka : unlines (optLine (lit "persistent_keepalive_interval=") keepaliveText (some 0)) =
        lit "persistent_keepalive_interval=0\n" := by decide
    rw [hka] at h₁
    have h₂ := writePeer_split w
      ({ p with PersistentKeepaliveInterval := none } : PeerConfig E N)
    simp only [optLine, unlines_nil, List.append_nil] at h₂
    refine ⟨_, _, h₁, h₂, ?_⟩
    rw [h₁, h₂]
    exact append_insert_ne _ _ _ (by decide)
  · intro p k h hk
    have hhex : hexKey k = List.replicate 64 48 := by
      rw [hexKey, hk]
      decide
    have hnl : lit "\n" = [NL] := rfl
    have h₁ : writePeer w p =
        w ++ (unlines [lit "public_key=" ++ hexKey p.PublicKey] ++
            unlines (flagLine (lit "remove=") p.Remove)) ++
          (lit "preshared_key=" ++ List.replicate 64 48 ++ lit "\n") ++
          (unlines (optLine (lit "endpoint=") Stringer.String p.Endpoint) ++
            (unlines (optLine (lit "persistent_keepalive_interval=") keepaliveText
                p.PersistentKeepaliveInterval) ++
              unlines (flagLine (lit "replace_allowed_ips=") p.ReplaceAllowedIPs ++
                allowedLines p))) := by
      rw [writePeer_parts, h]
      simp only [optLine, unlines_singleton, hhex, hnl, List.append_assoc]
    have h₂ : writePeer w ({ p with PresharedKey := none } : PeerConfig E N) =
        w ++ (unlines [lit "public_key=" ++ hexKey p.PublicKey] ++
            unlines (flagLine (lit "remove=") p.Remove)) ++
          (unlines (optLine (lit "endpoint=") Stringer.String p.Endpoint) ++
            (unlines (optLine (lit "persistent_keepalive_interval=") keepaliveText
                p.PersistentKeepaliveInterval) ++
              unlines (flagLine (lit "replace_allowed_ips=") p.ReplaceAllowedIPs ++
                allowedLines p))) := by
      rw [writePeer_parts]
      simp only [optLine, unlines_nil, List.append_nil, List.append_assoc, allowedLines]
    refine ⟨_, _, h₁, h₂, ?_⟩
    rw [h₁, h₂]
    exact append_insert_ne _ _ _ (by decide)
  · intro p h
    have hep : unlines (optLine (lit "endpoint=") Stringer.String
        (some (⟨[], 0, []⟩ : UDPAddr))) = lit "endpoint=:0\n" := by decide
    have h₁ : writePeer w p =
        w ++ (unlines [lit "public_key=" ++ hexKey p.PublicKey] ++
            unlines (flagLine (lit "remove=") p.Remove) ++
            unlines (optLine (lit "preshared_key=") hexKey p.PresharedKey)) ++
          lit "endpoint=:0\n" ++
          (unlines (optLine (lit "persistent_keepalive_interval=") keepaliveText
              p.PersistentKeepaliveInterval) ++
            unlines (flagLine (lit "replace_allowed_ips=") p.ReplaceAllowedIPs ++
              allowedLines p)) := by
      rw [writePeer_parts, h, hep]
      simp only [List.append_assoc]
    have h₂ : writePeer w ({ p with Endpoint := none } : PeerConfig UDPAddr N) =
        w ++ (unlines [lit "public_key=" ++ hexKey p.PublicKey] ++
            unlines (flagLine (lit "remove=") p.Remove) ++
            unlines (optLine (lit "preshared_key=") hexKey p.PresharedKey)) ++
          (unlines (optLine (lit "persistent_keepalive_interval=") keepaliveText
              p.PersistentKeepaliveInterval) ++
            unlines (flagLine (lit "replace_allowed_ips=") p.ReplaceAllowedIPs ++
              allowedLines p)) := by
      rw [writePeer_parts]
      simp only [optLine, unlines_nil, List.append_nil, List.append_assoc, allowedLines]
    refine ⟨_, _, h₁, h₂, ?_⟩
    rw [h₁, h₂]
    exact append_insert_ne _ _ _ (by decide)
  · exact fun ps₁ ps₂ p q hne => writeConfig_peer_ne w cfg ps₁ ps₂ p q hne

/-- Witness for C16 at `configFull`, whose firewall mark and private key are
present with the zero value, and at `peerZero`, whose preshared key, endpoint
and keep-alive interval are: the output has the lines `fwmark=0`,
`private_key=` with 64 characters `0` and `endpoint=:0`, and differs from the
output without the field. -/
theorem writeConfig_present_zero_witness :
    (∃ pre post : Bytes,
      writeConfig [] configFull = [] ++ pre ++ lit "fwmark=0\n" ++ post ∧
        writeConfig [] ({ configFull with FirewallMark := none } : Config UDPAddr IPNet) =
          [] ++ pre ++ post ∧
        writeConfig [] configFull ≠
          writeConfig [] ({ configFull with FirewallMark := none } : Config UDPAddr IPNet)) ∧
      (∃ post : Bytes,
        writeConfig [] configFull =
          [] ++ (lit "private_key=" ++ List.replicate 64 48 ++ lit "\n") ++ post ∧
        writeConfig [] ({ configFull with PrivateKey := none } : Config UDPAddr IPNet) =
          [] ++ post ∧
        writeConfig [] configFull ≠
          writeConfig [] ({ configFull with PrivateKey := none } : Config UDPAddr IPNet)) ∧
      ∃ pre post : Bytes,
        writePeer [] peerZero = [] ++ pre ++ lit "endpoint=:0\n" ++ post ∧
        writePeer [] ({ peerZero with Endpoint := none } : PeerConfig UDPAddr IPNet) =
          [] ++ pre ++ post ∧
        writePeer [] peerZero ≠
          writePeer [] ({ peerZero with Endpoint := none } : PeerConfig UDPAddr IPNet) :=
  ⟨(writeConfig_present_zero [] configFull).2.1 rfl,
    (writeConfig_present_zero [] configFull).2.2.1 keyZero rfl rfl,
    (writeConfig_present_zero [] configFull).2.2.2.2.2.1 peerZero rfl⟩

theorem writePeer_peerZero :
    writePeer [] peerZero =
      lit ("public_key=0102030405060708090a0b0c0d0e0f101112131415161718191a1b1c1d1e1f20\n" ++
        "preshared_key=0000000000000000000000000000000000000000000000000000000000000000\n" ++
        "endpoint=:0\n" ++
        "persistent_keepalive_interval=0\n") := by
  decide

end Presence

/-! ## Line feeds in the texts of package net -/

section NetText

theorem NL_not_mem_uitoa (n : Nat) : NL ∉ uitoa n :=
  NL_not_mem_digitsLoop _ _ _ (by simp)

theorem NL_not_mem_appendHex (dst : Bytes) (i : Nat) (h : NL ∉ dst) : NL ∉ appendHex dst i := by
  have step : ∀ (js : List Nat) (d : Bytes), NL ∉ d →
      NL ∉ js.foldl
        (fun dst j =>
          let v := i >>> (j * 4)
          if v > 0 then dst ++ [hextable.getD (v &&& 0xf) 0] else dst) d := by
    intro js
    induction js with
    | nil => intro d hd; simpa using hd
    | cons j js ih =>
      intro d hd
      rw [List.foldl_cons]
      apply ih
      simp only
      split
      · have hlt : (i >>> (j * 4)) &&& 0xf < 16 :=
          Nat.lt_of_le_of_lt Nat.and_le_right (by decide)
        have hne := hextable_ne_NL ⟨(i >>> (j * 4)) &&& 0xf, hlt⟩
        simp only [List.mem_append, List.mem_singleton, not_or]
        exact ⟨hd, fun e => hne e.symm⟩
      · exact hd
  unfold appendHex
  split
  · simp only [List.mem_append, List.mem_singleton, not_or]
    exact ⟨h, by decide⟩
  · exact step _ _ h

theorem NL_not_mem_printFields (p : IP) (e0 e1 : Int) (fuel i : Nat) (b : Bytes) (h : NL ∉ b) :
    NL ∉ printFields p e0 e1 fuel i b := by
  induction fuel generalizing i b with
  | zero => simpa [printFields] using h
  | succ fuel ih =>
    unfold printFields
    split
    · split
      · have hb : NL ∉ b ++ [58, 58] := by
          simp only [List.mem_append, List.mem_cons, List.mem_singleton, List.not_mem_nil,
            or_false, not_or]
          exact ⟨h, by decide, by decide⟩
        simp only
        split
        · exact hb
        · exact ih _ _ (NL_not_mem_appendHex _ _ hb)
      · have hb : NL ∉ (if i > 0 then b ++ [58] else b) := by
          split
          · simp only [List.mem_append, List.mem_singleton, not_or]
            exact ⟨h, by decide⟩
          · exact h
        exact ih _ _ (NL_not_mem_appendHex _ _ hb)
    · exact h

theorem NL_not_mem_IP_String (ip : IP) : NL ∉ IP.String ip := by
  unfold IP.String
  split
  · decide
  · split
    · simp only [List.mem_append, List.mem_singleton, not_or]
      exact ⟨⟨⟨⟨⟨⟨NL_not_mem_uitoa _, by decide⟩, NL_not_mem_uitoa _⟩, by decide⟩,
        NL_not_mem_uitoa _⟩, by decide⟩, NL_not_mem_uitoa _⟩
    · split
      · simp only [List.mem_append, not_or]
        exact ⟨by decide, NL_not_mem_EncodeToString _⟩
      · exact NL_not_mem_printFields _ _ _ _ _ _ (by simp)

theorem NL_not_mem_IPNet_String (n : IPNet) : NL ∉ IPNet.String n := by
  unfold IPNet.String
  split
  · decide
  · split
    · simp only [List.mem_append, not_or]
      refine ⟨⟨NL_not_mem_IP_String _, by decide⟩, ?_⟩
      split
      · decide
      · exact NL_not_mem_EncodeToString _
    · simp only [List.mem_append, not_or]
      exact ⟨⟨NL_not_mem_IP_String _, by decide⟩, NL_not_mem_uitoa _⟩

theorem NL_not_mem_JoinHostPort (host port : Bytes) (hh : NL ∉ host) (hp : NL ∉ port) :
    NL ∉ JoinHostPort host port := by
  unfold JoinHostPort
  split
  · simp only [List.mem_append, not_or]
    exact ⟨⟨⟨by decide, hh⟩, by decide⟩, hp⟩
  · simp only [List.mem_append, not_or]
    exact ⟨⟨hh, by decide⟩, hp⟩

theorem NL_not_mem_UDPAddr_String (a : UDPAddr) (h : NL ∉ a.Zone) : NL ∉ UDPAddr.String a := by
  have hip : NL ∉ (if a.IP.length = 0 then ([] : Bytes) else IP.String a.IP) := by
    split
    · simp
    · exact NL_not_mem_IP_String _
  unfold UDPAddr.String
  simp only
  split
  · apply NL_not_mem_JoinHostPort _ _ _ (NL_not_mem_fmtInt _)
    simp only [List.mem_append, not_or]
    exact ⟨⟨hip, by decide⟩, h⟩
  · exact NL_not_mem_JoinHostPort _ _ hip (NL_not_mem_fmtInt _)

theorem count_NL_unlines (ls : List Bytes) (h : ∀ l ∈ ls, NL ∉ l) :
    (unlines ls).count NL = ls.length := by
  induction ls with
  | nil => rfl
  | cons l ls ih =>
    rw [unlines_cons, List.count_append, List.count_cons_self,
      ih fun l' hl' => h l' (by simp [hl']), List.count_eq_zero_of_not_mem (h l (by simp))]
    simp only [List.length_cons]
    omega

theorem newlineFree_of_zones (cfg : Config UDPAddr IPNet) (h : ZonesNewlineFree cfg) :
    cfg.NewlineFree := by
  intro p hp
  exact ⟨fun e he => NL_not_mem_UDPAddr_String e (h p hp e he),
    fun ip _ => NL_not_mem_IPNet_String ip⟩

/-- C18, as stated, fails: the caller can construct `configInjected`, whose one
peer has the remove flag unset and an endpoint whose zone contains line feeds.
The endpoint text contains a line feed, the output has two line feeds more
than emitted fields, and `remove=true` is a line of the output. -/
theorem writeConfig_zone_injects_line :
    peerInjected.Remove = false ∧
      (∃ e ∈ peerInjected.Endpoint, NL ∈ Stringer.String e) ∧
      (writeConfig [] configInjected).count NL = (configLines configInjected).length + 2 ∧
      lit "remove=true" ∈ linesOf (writeConfig [] configInjected) := by
  refine ⟨rfl, ⟨_, rfl, ?_⟩, ?_, ?_⟩ <;> decide

/-- C18, amended. For every configuration whose endpoints have zone strings
without a line feed, whatever its keys, ports, marks, intervals, addresses and
prefix values, no line `writeConfig` emits contains a line feed, so no endpoint
or prefix text does; the number of line feeds of the output equals the number
of emitted fields, and the lines of the output are exactly the emitted fields:
no value introduces a protocol line. -/
theorem writeConfig_values_newlineFree (cfg : Config UDPAddr IPNet) (h : ZonesNewlineFree cfg) :
    (∀ l ∈ configLines cfg, NL ∉ l) ∧
    cfg.NewlineFree ∧
    (∀ p ∈ cfg.Peers, ∀ ip ∈ p.AllowedIPs, NL ∉ IPNet.String ip) ∧
    (writeConfig [] cfg).count NL = (configLines cfg).length ∧
    linesOf (writeConfig [] cfg) = configLines cfg := by
  have hnf := newlineFree_of_zones cfg h
  refine ⟨configLines_newlineFree cfg hnf, hnf, fun _ _ ip _ => NL_not_mem_IPNet_String ip, ?_,
    linesOf_writeConfig cfg hnf⟩
  rw [writeConfig_unlines, List.nil_append, count_NL_unlines _ (configLines_newlineFree cfg hnf)]

/-- Witness for the amended C18 at `configFull`: the output has as many line
feeds as emitted fields, thirteen. -/
theorem writeConfig_values_newlineFree_witness :
    ZonesNewlineFree configFull ∧ (writeConfig [] configFull).count NL = 13 := by
  refine ⟨by decide, ?_⟩
  rw [(writeConfig_values_newlineFree configFull (by decide)).2.2.2.1]
  decide

end NetText

/-! ## The shape of a peer block -/

section Shape

theorem isScalarLine_of_mem_scalarLines {E N : Type} [Stringer E] (p : PeerConfig E N)
    (l : Bytes) (h : l ∈ scalarLines p) :
    IsScalarLine l ∧ ¬ IsAllowedLine l ∧ ¬ lit "public_key=" <+: l := by
  obtain ⟨key, hkey, v, rfl⟩ := scalarKey_of_mem_scalarLines p l h
  refine ⟨⟨key, hkey, List.prefix_append _ _⟩, ?_, ?_⟩ <;>
  · simp only [scalarKeys, List.mem_cons, List.mem_singleton, List.not_mem_nil, or_false] at hkey
    rcases hkey with rfl | rfl | rfl | rfl | rfl <;>
      exact not_prefix_append _ (by decide) (by decide)

theorem isAllowedLine_of_mem_allowedLines {E N : Type} [Stringer N] (p : PeerConfig E N)
    (l : Bytes) (h : l ∈ allowedLines p) :
    IsAllowedLine l ∧ ¬ IsScalarLine l ∧ ¬ lit "public_key=" <+: l := by
  simp only [allowedLines, List.mem_map] at h
  obtain ⟨ip, -, rfl⟩ := h
  refine ⟨List.prefix_append _ _, ?_, not_prefix_append _ (by decide) (by decide)⟩
  rintro ⟨key, hkey, hpre⟩
  revert hpre
  simp only [scalarKeys, List.mem_cons, List.mem_singleton, List.not_mem_nil, or_false] at hkey
  rcases hkey with rfl | rfl | rfl | rfl | rfl <;>
    exact not_prefix_append _ (by decide) (by decide)

theorem peerShape_peerLines {E N : Type} [Stringer E] [Stringer N] (p : PeerConfig E N) :
    PeerShape (peerLines p) := by
  refine ⟨List.prefix_append _ _, ?_, ?_⟩
  · intro l hl
    rcases List.mem_append.mp hl with hl | hl
    · exact Or.inl (isScalarLine_of_mem_scalarLines p l hl).1
    · exact Or.inr (isAllowedLine_of_mem_allowedLines p l hl).1
  · rw [List.pairwise_append]
    refine ⟨?_, ?_, ?_⟩
    · exact List.pairwise_of_forall_mem_list fun a ha b _ hallowed =>
        absurd hallowed (isScalarLine_of_mem_scalarLines p a ha).2.1
    · exact List.pairwise_of_forall_mem_list fun a _ b hb _ =>
        (isAllowedLine_of_mem_allowedLines p b hb).2.1
    · intro a ha b _ hallowed
      exact absurd hallowed (isScalarLine_of_mem_scalarLines p a ha).2.1

/-- C3, as stated, fails: `peerShuffled` has the remove flag unset and no
allowed-IP entry, and its endpoint has a zone with line feeds.  The lines of the
block `writeConfig` emits for it are the `public_key=` line, `endpoint=[fe80::1%x`,
`allowed_ip=0.0.0.0/0`, `remove=true` and `endpoint=[fe80::1%y]:51820`: the
line `remove=true` of a scalar field follows an `allowed_ip=` line, and the
lines are not of the shape of the claim. -/
theorem writePeer_zone_breaks_shape :
    peerShuffled.Remove = false ∧ peerShuffled.AllowedIPs = [] ∧
      writeConfig [] ({ configEmpty with Peers := [peerShuffled] } : Config UDPAddr IPNet) =
        writePeer [] peerShuffled ∧
      linesOf (writePeer [] peerShuffled) =
        [lit "public_key=0102030405060708090a0b0c0d0e0f101112131415161718191a1b1c1d1e1f20",
          lit "endpoint=[fe80::1%x", lit "allowed_ip=0.0.0.0/0", lit "remove=true",
          lit "endpoint=[fe80::1%y]:51820"] ∧
      IsAllowedLine (lit "allowed_ip=0.0.0.0/0") ∧ IsScalarLine (lit "remove=true") ∧
      ¬ PeerShape (linesOf (writePeer [] peerShuffled)) := by
  refine ⟨rfl, rfl, ?_, ?_, ?_, ?_, ?_⟩ <;> decide

/-- C3, amended. For every peer whose endpoint, if present, has a zone string
without a line feed, the block `writeConfig` emits for it is the text of these
lines, and its lines are these: the `public_key=` line, then lines each of
which begins with the key of a scalar field (`remove=`, `preshared_key=`,
`endpoint=`, `persistent_keepalive_interval=`, `replace_allowed_ips=`) and with
neither `allowed_ip=` nor `public_key=`, then exactly one `allowed_ip=` line per
allowed-IP entry, in the given order, none of which begins with the key of a
scalar field or with `public_key=`.  So no scalar line follows an allowed-IP
line and no line precedes the public-key line. -/
theorem writePeer_shape (w : Buffer) (p : PeerConfig UDPAddr IPNet)
    (hz : ∀ e ∈ p.Endpoint, NL ∉ e.Zone) :
    ∃ scalars : List Bytes,
      writePeer w p =
          w ++ unlines ((lit "public_key=" ++ hexKey p.PublicKey) ::
            (scalars ++ p.AllowedIPs.map fun ip => lit "allowed_ip=" ++ IPNet.String ip)) ∧
        linesOf (writePeer [] p) =
          (lit "public_key=" ++ hexKey p.PublicKey) ::
            (scalars ++ p.AllowedIPs.map fun ip => lit "allowed_ip=" ++ IPNet.String ip) ∧
        (∀ l ∈ scalars, IsScalarLine l ∧ ¬ IsAllowedLine l ∧ ¬ lit "public_key=" <+: l) ∧
        (∀ l ∈ p.AllowedIPs.map fun ip => lit "allowed_ip=" ++ IPNet.String ip,
          IsAllowedLine l ∧ ¬ IsScalarLine l ∧ ¬ lit "public_key=" <+: l) ∧
        PeerShape (linesOf (writePeer [] p)) := by
  have hnf : p.NewlineFree :=
    ⟨fun e he => NL_not_mem_UDPAddr_String e (hz e he), fun ip _ => NL_not_mem_IPNet_String ip⟩
  have hlines : linesOf (writePeer [] p) = peerLines p := linesOf_writePeer p hnf
  refine ⟨scalarLines p, ?_, ?_, isScalarLine_of_mem_scalarLines p,
    isAllowedLine_of_mem_allowedLines p, ?_⟩
  · rw [writePeer_eq]
    rfl
  · rw [hlines]
    rfl
  · rw [hlines]
    exact peerShape_peerLines p

/-- Witness for the amended C3 at `peerFull`, whose endpoint has no zone: the
lines of its block have the shape. -/
theorem writePeer_shape_witness :
    (∀ e ∈ peerFull.Endpoint, NL ∉ e.Zone) ∧ PeerShape (linesOf (writePeer [] peerFull)) ∧
      (linesOf (writePeer [] peerFull)).length = 8 := by
  obtain ⟨scalars, -, -, -, -, hshape⟩ := writePeer_shape [] peerFull (by decide)
  exact ⟨by decide, hshape, by decide⟩

end Shape

/-! ## The seconds of a keep-alive interval -/

section Keepalive

/-- C15 at its failing input.  A keep-alive interval of 16777216 s and
999999999 ns is a 64-bit duration whose quotient by 1000000000, truncated
toward zero, is 16777216; `Duration.Seconds` rounds the sum
`16777216 + 0.999999999` to the `float64` 16777217, and `writeConfig` emits
`persistent_keepalive_interval=16777217`.  For 1.999999999 s it emits 1. -/
theorem writePeer_keepalive_rounds_up :
    ((16777216999999999 : Int) < 2 ^ 63) ∧
      Int.tdiv 16777216999999999 1000000000 = 16777216 ∧
      Duration.Seconds 16777216999999999 = ⟨false, 16777217 * 2 ^ 28, -28⟩ ∧
      (Duration.Seconds 16777216999999999).toInt = 16777217 ∧
      writePeer [] peerLongKeepalive =
        lit ("public_key=0102030405060708090a0b0c0d0e0f101112131415161718191a1b1c1d1e1f20\n" ++
          "persistent_keepalive_interval=16777217\n") ∧
      (Duration.Seconds 1999999999).toInt = 1 := by
  refine ⟨by decide, by decide, by decide, by decide, by decide, by decide⟩

end Keepalive

/-! ## float64: integers are exact -/

section FloatExact

theorem bitLenLoop_spec (fuel n : Nat) (h : n ≤ fuel) :
    n < 2 ^ bitLenLoop fuel n ∧ (n ≠ 0 → 2 ^ (bitLenLoop fuel n - 1) ≤ n) := by
  induction fuel generalizing n with
  | zero =>
    have : n = 0 := by omega
    subst this
    simp [bitLenLoop]
  | succ fuel ih =>
    unfold bitLenLoop
    split
    · rename_i h0
      subst h0
      simp
    · rename_i h0
      obtain ⟨hlt, hge⟩ := ih (n / 2) (by omega)
      refine ⟨?_, fun _ => ?_⟩
      · rw [Nat.pow_succ]
        omega
      · simp only [Nat.add_sub_cancel]
        by_cases h2 : n / 2 = 0
        · have h1 : n = 1 := by omega
          subst h1
          have : bitLenLoop fuel (1 / 2) = 0 := by
            cases fuel <;> simp [bitLenLoop]
          rw [this]
          simp
        · have hge' := hge h2
          have hpos : bitLenLoop fuel (n / 2) ≠ 0 := by
            intro h0'
            rw [h0'] at hlt
            simp at hlt
            omega
          obtain ⟨L, hL⟩ : ∃ L, bitLenLoop fuel (n / 2) = L + 1 := ⟨_, (Nat.succ_pred hpos).symm⟩
          rw [hL] at hge' ⊢
          simp only [Nat.add_sub_cancel] at hge'
          rw [Nat.pow_succ]
          omega

theorem lt_two_pow_bitLen (n : Nat) : n < 2 ^ bitLen n := (bitLenLoop_spec n n (le_refl _)).1

theorem two_pow_bitLen_le (n : Nat) (h : n ≠ 0) : 2 ^ (bitLen n - 1) ≤ n :=
  (bitLenLoop_spec n n (le_refl _)).2 h


theorem roundHalfEven_mul (q b : Nat) (hb : 0 < b) : roundHalfEven (q * b) b = q := by
  unfold roundHalfEven
  simp [Nat.mul_div_cancel _ hb, Nat.mul_mod_left, hb]

theorem round_core (neg : Bool) (q b : Nat) (hb : 0 < b) (l : Int) (hl : l ≤ 52) :
    (⟨neg, roundHalfEven (scale2 (q * b) b (-(l - 52))).1 (scale2 (q * b) b (-(l - 52))).2,
        l - 52⟩ : Float64) =
      ⟨neg, q * 2 ^ (52 - l).toNat, -((52 - l).toNat : Int)⟩ := by
  have h0 : (0 : Int) ≤ -(l - 52) := by omega
  have hk : (-(l - 52)).toNat = (52 - l).toNat := by
    congr 1
    omega
  have hs : scale2 (q * b) b (-(l - 52)) = (q * b * 2 ^ (52 - l).toNat, b) := by
    unfold scale2
    rw [if_pos h0, hk]
  have hmul : q * b * 2 ^ (52 - l).toNat = (q * 2 ^ (52 - l).toNat) * b := by ring
  have he : l - 52 = -((52 - l).toNat : Int) := by omega
  rw [hs]
  simp only
  rw [hmul, roundHalfEven_mul _ _ hb, ← he]

theorem round_exact (neg : Bool) (q b : Nat) (hq : 0 < q) (hq53 : q < 2 ^ 53) (hb : 0 < b) :
    ∃ k : Nat, Float64.round neg (q * b) b = ⟨neg, q * 2 ^ k, -(k : Int)⟩ := by
  have ha : q * b ≠ 0 := Nat.mul_ne_zero (by omega) (by omega)
  have hlt : q * b < 2 ^ (53 + bitLen b) := by
    rw [Nat.pow_add]
    have h1 := lt_two_pow_bitLen b
    calc q * b < 2 ^ 53 * b := Nat.mul_lt_mul_of_pos_right hq53 hb
      _ ≤ 2 ^ 53 * 2 ^ bitLen b := Nat.mul_le_mul_left _ (le_of_lt h1)
  have hge := two_pow_bitLen_le (q * b) ha
  have hla : bitLen (q * b) - 1 < 53 + bitLen b :=
    (Nat.pow_lt_pow_iff_right (by decide)).mp (lt_of_le_of_lt hge hlt)
  have hl0 : (bitLen (q * b) : Int) - (bitLen b : Int) ≤ 53 := by omega
  unfold Float64.round
  rw [if_neg ha]
  simp only
  generalize (bitLen (q * b) : Int) - (bitLen b : Int) = l0 at hl0 ⊢
  by_cases ht : (scale2 (q * b) b (-l0)).2 ≤ (scale2 (q * b) b (-l0)).1
  · rw [if_pos ht]
    have hl : l0 ≤ 52 := by
      by_contra hc
      have h53 : l0 = 53 := by omega
      subst h53
      have : scale2 (q * b) b (-53) = (q * b, b * 2 ^ 53) := by
        unfold scale2
        rw [if_neg (by omega)]
        rfl
      rw [this] at ht
      simp only at ht
      have : q * b < b * 2 ^ 53 := by
        rw [Nat.mul_comm b]
        exact Nat.mul_lt_mul_of_pos_right hq53 hb
      omega
    exact ⟨(52 - l0).toNat, round_core neg q b hb l0 hl⟩
  · rw [if_neg ht]
    have hl : l0 - 1 ≤ 52 := by omega
    refine ⟨(52 - (l0 - 1)).toNat, round_core neg q b hb (l0 - 1) hl⟩

theorem toInt_exact (neg : Bool) (q k : Nat) :
    Float64.toInt ⟨neg, q * 2 ^ k, -(k : Int)⟩ = if neg then -(q : Int) else q := by
  unfold Float64.toInt scale2
  simp only
  by_cases hk : k = 0
  · subst hk
    simp
  · have hneg : ¬ (0 : Int) ≤ -(k : Int) := by omega
    have hpos : 0 < 2 ^ k := Nat.two_pow_pos k
    rw [if_neg hneg]
    simp only [neg_neg, Int.toNat_ofNat, Nat.one_mul, Nat.mul_div_cancel _ hpos]


theorem scale2_neg_exp (q k : Nat) :
    scale2 (q * 2 ^ k) 1 (-(k : Int)) = (q * 2 ^ k, 2 ^ k) := by
  unfold scale2
  by_cases hk : k = 0
  · subst hk
    simp
  · have hneg : ¬ (0 : Int) ≤ -(k : Int) := by omega
    rw [if_neg hneg]
    simp

theorem add_zero_exact (neg : Bool) (q k : Nat) (hq : 0 < q) (hq53 : q < 2 ^ 53) :
    ∃ k' : Nat, Float64.add ⟨neg, q * 2 ^ k, -(k : Int)⟩ ⟨false, 0, 0⟩ =
      ⟨neg, q * 2 ^ k', -(k' : Int)⟩ := by
  have hpos : 0 < q * 2 ^ k := Nat.mul_pos hq (Nat.two_pow_pos k)
  have hmin : min (-(k : Int)) 0 = -(k : Int) := by
    apply min_eq_left
    omega
  unfold Float64.add
  simp only [hmin, Float64.smant, sub_self, Int.toNat_zero, pow_zero, mul_one, Bool.false_eq_true,
    if_false, Nat.cast_zero, zero_mul, add_zero]
  cases neg with
  | false =>
    simp only [Bool.false_eq_true, if_false, Int.natAbs_ofNat]
    have hn : ¬ (((q * 2 ^ k : Nat) : Int) < 0) := by omega
    rw [scale2_neg_exp]
    simp only [hn, decide_False]
    exact round_exact false q (2 ^ k) hq hq53 (Nat.two_pow_pos k)
  | true =>
    simp only [if_true, Int.natAbs_neg, Int.natAbs_ofNat]
    have hn : (-((q * 2 ^ k : Nat) : Int) < 0) := by omega
    rw [scale2_neg_exp]
    simp only [hn, decide_True]
    exact round_exact true q (2 ^ k) hq hq53 (Nat.two_pow_pos k)

theorem Seconds_whole (s : Int) (hs : s.natAbs < 2 ^ 53) :
    (Duration.Seconds (s * Second)).toInt = s := by
  have hsec : Second ≠ 0 := by decide
  have hz : Float64.div (Float64.ofInt 0) (Float64.ofInt 1000000000) = ⟨false, 0, 0⟩ := by decide
  unfold Duration.Seconds
  simp only
  rw [Int.mul_tdiv_cancel s hsec, Int.mul_tmod_left, hz]
  by_cases h0 : s = 0
  · subst h0
    decide
  · have hq : 0 < s.natAbs := Int.natAbs_pos.mpr h0
    obtain ⟨k, hk⟩ := round_exact (decide (s < 0)) s.natAbs 1 hq hs (by decide)
    rw [Nat.mul_one] at hk
    obtain ⟨k', hk'⟩ := add_zero_exact (decide (s < 0)) s.natAbs k hq hs
    rw [Float64.ofInt, hk, hk', toInt_exact]
    by_cases hneg : s < 0
    · simp only [hneg, decide_True, if_true]
      omega
    · simp only [hneg, decide_False, Bool.false_eq_true, if_false]
      omega

end FloatExact

/-! ## writeConfig is injective -/

section Injective

variable {E N : Type}

theorem hexKey_injective (k k' : Key) (h : hexKey k = hexKey k') : k = k' := by
  have h₁ := DecodeString_EncodeToString k.bytes
  have h₂ := DecodeString_EncodeToString k'.bytes
  rw [hexKey, hexKey] at h
  rw [h, h₂] at h₁
  obtain ⟨b, hb⟩ := k
  obtain ⟨b', hb'⟩ := k'
  simp only [Prod.mk.injEq, and_true] at h₁
  subst h₁
  rfl

theorem prefixed_optLine {α : Type} (k : Bytes) (f : α → Bytes) (o : Option α) :
    ∀ l ∈ optLine k f o, k <+: l := by
  intro l hl
  obtain ⟨a, -, rfl⟩ := (mem_optLine k f o l).mp hl
  exact List.prefix_append _ _

theorem prefixed_flagLine (k : Bytes) (b : Bool) : ∀ l ∈ flagLine k b, k <+: l := by
  intro l hl
  obtain ⟨-, rfl⟩ := (mem_flagLine k b l).mp hl
  exact List.prefix_append _ _

theorem prefixed_allowedLines [Stringer N] (p : PeerConfig E N) :
    ∀ l ∈ allowedLines p, lit "allowed_ip=" <+: l := by
  intro l hl
  simp only [allowedLines, List.mem_map] at hl
  obtain ⟨ip, -, rfl⟩ := hl
  exact List.prefix_append _ _

theorem headNot_block (k k' : Bytes) (X r : List Bytes) (hX : ∀ l ∈ X, k' <+: l)
    (h₁ : ¬ k <+: k') (h₂ : ¬ k' <+: k) (hr : ∀ l ∈ r.head?, ¬ k <+: l) :
    ∀ l ∈ (X ++ r).head?, ¬ k <+: l := by
  cases X with
  | nil => simpa using hr
  | cons x xs =>
    intro l hl hk
    simp only [List.cons_append, List.head?_cons, Option.mem_def, Option.some.injEq] at hl
    subst hl
    rcases List.prefix_or_prefix_of_prefix hk (hX x (by simp)) with h | h
    · exact h₁ h
    · exact h₂ h

theorem headNot_peers [Stringer E] [Stringer N] (k : Bytes) (ps : List (PeerConfig E N))
    (h₁ : ¬ k <+: lit "public_key=") (h₂ : ¬ lit "public_key=" <+: k) :
    ∀ l ∈ (ps.flatMap peerLines).head?, ¬ k <+: l := by
  cases ps with
  | nil => simp
  | cons p ps =>
    intro l hl
    simp only [List.flatMap_cons, peerLines, List.cons_append, List.head?_cons, Option.mem_def,
      Option.some.injEq] at hl
    subst hl
    exact not_prefix_append _ h₁ h₂

theorem block_cancel (k : Bytes) (X₁ X₂ r₁ r₂ : List Bytes) (hX₁ : ∀ l ∈ X₁, k <+: l)
    (hX₂ : ∀ l ∈ X₂, k <+: l) (hr₁ : ∀ l ∈ r₁.head?, ¬ k <+: l)
    (hr₂ : ∀ l ∈ r₂.head?, ¬ k <+: l) (h : X₁ ++ r₁ = X₂ ++ r₂) : X₁ = X₂ ∧ r₁ = r₂ := by
  induction X₁ generalizing X₂ with
  | nil =>
    cases X₂ with
    | nil => exact ⟨rfl, h⟩
    | cons y ys =>
      simp only [List.nil_append, List.cons_append] at h
      exact absurd (hX₂ y (by simp)) (hr₁ y (by rw [h]; simp))
  | cons x xs ih =>
    cases X₂ with
    | nil =>
      simp only [List.nil_append, List.cons_append] at h
      exact absurd (hX₁ x (by simp)) (hr₂ x (by rw [← h]; simp))
    | cons y ys =>
      simp only [List.cons_append, List.cons.injEq] at h
      obtain ⟨hxy, ht⟩ := h
      obtain ⟨h₁, h₂⟩ := ih ys (fun l hl => hX₁ l (by simp [hl])) (fun l hl => hX₂ l (by simp [hl])) ht
      exact ⟨by rw [hxy, h₁], h₂⟩

theorem optLine_inj {α : Type} (k : Bytes) (f : α → Bytes) (o₁ o₂ : Option α)
    (hf : ∀ a ∈ o₁, ∀ b ∈ o₂, f a = f b → a = b) (h : optLine k f o₁ = optLine k f o₂) :
    o₁ = o₂ := by
  cases o₁ with
  | none => cases o₂ with
    | none => rfl
    | some b => simp [optLine] at h
  | some a => cases o₂ with
    | none => simp [optLine] at h
    | some b =>
      simp only [optLine, List.cons.injEq, and_true] at h
      rw [hf a rfl b rfl (List.append_cancel_left h)]

theorem flagLine_inj (k : Bytes) (b₁ b₂ : Bool) (h : flagLine k b₁ = flagLine k b₂) : b₁ = b₂ := by
  cases b₁ <;> cases b₂ <;> simp [flagLine] at h ⊢

theorem allowedLines_inj [Stringer N] (ips₁ ips₂ : List N)
    (hf : ∀ a ∈ ips₁, ∀ b ∈ ips₂, Stringer.String a = Stringer.String b → a = b)
    (h : ips₁.map (fun ip => lit "allowed_ip=" ++ Stringer.String ip) =
      ips₂.map (fun ip => lit "allowed_ip=" ++ Stringer.String ip)) : ips₁ = ips₂ := by
  induction ips₁ generalizing ips₂ with
  | nil => cases ips₂ with
    | nil => rfl
    | cons b bs => simp at h
  | cons a as ih => cases ips₂ with
    | nil => simp at h
    | cons b bs =>
      simp only [List.map_cons, List.cons.injEq] at h
      obtain ⟨hab, ht⟩ := h
      have e := hf a (by simp) b (by simp) (List.append_cancel_left hab)
      have et := ih bs (fun x hx y hy => hf x (by simp [hx]) y (by simp [hy])) ht
      rw [e, et]

theorem peerLines_nested [Stringer E] [Stringer N] (p : PeerConfig E N) (r : List Bytes) :
    peerLines p ++ r =
      (lit "public_key=" ++ hexKey p.PublicKey) ::
        (flagLine (lit "remove=") p.Remove ++
          (optLine (lit "preshared_key=") hexKey p.PresharedKey ++
            (optLine (lit "endpoint=") Stringer.String p.Endpoint ++
              (optLine (lit "persistent_keepalive_interval=") keepaliveText
                  p.PersistentKeepaliveInterval ++
                (flagLine (lit "replace_allowed_ips=") p.ReplaceAllowedIPs ++
                  (allowedLines p ++ r)))))) := by
  simp only [peerLines, scalarLines, List.cons_append, List.append_assoc]

theorem peer_cancel [Stringer E] [Stringer N] (p₁ p₂ : PeerConfig E N)
    (ps₁ ps₂ : List (PeerConfig E N))
    (hE : ∀ a ∈ p₁.Endpoint, ∀ b ∈ p₂.Endpoint,
      (Stringer.String a : Bytes) = Stringer.String b → a = b)
    (hN : ∀ a ∈ p₁.AllowedIPs, ∀ b ∈ p₂.AllowedIPs,
      (Stringer.String a : Bytes) = Stringer.String b → a = b)
    (hK : ∀ a ∈ p₁.PersistentKeepaliveInterval, ∀ b ∈ p₂.PersistentKeepaliveInterval,
      keepaliveText a = keepaliveText b → a = b)
    (h : peerLines p₁ ++ ps₁.flatMap peerLines = peerLines p₂ ++ ps₂.flatMap peerLines) :
    p₁ = p₂ ∧ ps₁.flatMap peerLines = ps₂.flatMap peerLines := by
  rw [peerLines_nested, peerLines_nested] at h
  obtain ⟨hpk, h⟩ := List.cons.inj h
  have epk := hexKey_injective _ _ (List.append_cancel_left hpk)
  obtain ⟨e₁, h⟩ := block_cancel (lit "remove=") _ _ _ _ (prefixed_flagLine _ _)
    (prefixed_flagLine _ _)
    (by
      repeat' first
        | exact headNot_peers _ _ (by decide) (by decide)
        | refine headNot_block _ _ _ _ (prefixed_optLine _ _ _) (by decide) (by decide) ?_
        | refine headNot_block _ _ _ _ (prefixed_flagLine _ _) (by decide) (by decide) ?_
        | refine headNot_block _ _ _ _ (prefixed_allowedLines _) (by decide) (by decide) ?_)
    (by
      repeat' first
        | exact headNot_peers _ _ (by decide) (by decide)
        | refine headNot_block _ _ _ _ (prefixed_optLine _ _ _) (by decide) (by decide) ?_
        | refine headNot_block _ _ _ _ (prefixed_flagLine _ _) (by decide) (by decide) ?_
        | refine headNot_block _ _ _ _ (prefixed_allowedLines _) (by decide) (by decide) ?_)
    h
  obtain ⟨e₂, h⟩ := block_cancel (lit "preshared_key=") _ _ _ _ (prefixed_optLine _ _ _)
    (prefixed_optLine _ _ _)
    (by
      repeat' first
        | exact headNot_peers _ _ (by decide) (by decide)
        | refine headNot_block _ _ _ _ (prefixed_optLine _ _ _) (by decide) (by decide) ?_
        | refine headNot_block _ _ _ _ (prefixed_flagLine _ _) (by decide) (by decide) ?_
        | refine headNot_block _ _ _ _ (prefixed_allowedLines _) (by decide) (by decide) ?_)
    (by
      repeat' first
        | exact headNot_peers _ _ (by decide) (by decide)
        | refine headNot_block _ _ _ _ (prefixed_optLine _ _ _) (by decide) (by decide) ?_
        | refine headNot_block _ _ _ _ (prefixed_flagLine _ _) (by decide) (by decide) ?_
        | refine headNot_block _ _ _ _ (prefixed_allowedLines _) (by decide) (by decide) ?_)
    h
  obtain ⟨e₃, h⟩ := block_cancel (lit "endpoint=") _ _ _ _ (prefixed_optLine _ _ _)
    (prefixed_optLine _ _ _)
    (by
      repeat' first
        | exact headNot_peers _ _ (by decide) (by decide)
        | refine headNot_block _ _ _ _ (prefixed_optLine _ _ _) (by decide) (by decide) ?_
        | refine headNot_block _ _ _ _ (prefixed_flagLine _ _) (by decide) (by decide) ?_
        | refine headNot_block _ _ _ _ (prefixed_allowedLines _) (by decide) (by decide) ?_)
    (by
      repeat' first
        | exact headNot_peers _ _ (by decide) (by decide)
        | refine headNot_block _ _ _ _ (prefixed_optLine _ _ _) (by decide) (by decide) ?_
        | refine headNot_block _ _ _ _ (prefixed_flagLine _ _) (by decide) (by decide) ?_
        | refine headNot_block _ _ _ _ (prefixed_allowedLines _) (by decide) (by decide) ?_)
    h
  obtain ⟨e₄, h⟩ := block_cancel (lit "persistent_keepalive_interval=") _ _ _ _
    (prefixed_optLine _ _ _) (prefixed_optLine _ _ _)
    (by
      repeat' first
        | exact headNot_peers _ _ (by decide) (by decide)
        | refine headNot_block _ _ _ _ (prefixed_flagLine _ _) (by decide) (by decide) ?_
        | refine headNot_block _ _ _ _ (prefixed_allowedLines _) (by decide) (by decide) ?_)
    (by
      repeat' first
        | exact headNot_peers _ _ (by decide) (by decide)
        | refine headNot_block _ _ _ _ (prefixed_flagLine _ _) (by decide) (by decide) ?_
        | refine headNot_block _ _ _ _ (prefixed_allowedLines _) (by decide) (by decide) ?_)
    h
  obtain ⟨e₅, h⟩ := block_cancel (lit "replace_allowed_ips=") _ _ _ _ (prefixed_flagLine _ _)
    (prefixed_flagLine _ _)
    (by
      repeat' first
        | exact headNot_peers _ _ (by decide) (by decide)
        | refine headNot_block _ _ _ _ (prefixed_allowedLines _) (by decide) (by decide) ?_)
    (by
      repeat' first
        | exact headNot_peers _ _ (by decide) (by decide)
        | refine headNot_block _ _ _ _ (prefixed_allowedLines _) (by decide) (by decide) ?_)
    h
  obtain ⟨e₆, h⟩ := block_cancel (lit "allowed_ip=") _ _ _ _ (prefixed_allowedLines _)
    (prefixed_allowedLines _) (headNot_peers _ _ (by decide) (by decide))
    (headNot_peers _ _ (by decide) (by decide)) h
  refine ⟨?_, h⟩
  obtain ⟨pk₁, rm₁, psk₁, ep₁, ka₁, ra₁, ips₁⟩ := p₁
  obtain ⟨pk₂, rm₂, psk₂, ep₂, ka₂, ra₂, ips₂⟩ := p₂
  simp only at epk e₁ e₂ e₃ e₄ e₅ e₆ hE hN hK
  have f₁ := flagLine_inj _ _ _ e₁
  have f₂ := optLine_inj _ _ _ _ (fun a _ b _ hab => hexKey_injective a b hab) e₂
  have f₃ := optLine_inj _ _ _ _ hE e₃
  have f₄ := optLine_inj _ _ _ _ hK e₄
  have f₅ := flagLine_inj _ _ _ e₅
  have f₆ := allowedLines_inj _ _ hN e₆
  rw [epk, f₁, f₂, f₃, f₄, f₅, f₆]

theorem peers_inj [Stringer E] [Stringer N] (ps₁ ps₂ : List (PeerConfig E N))
    (hE : ∀ p₁ ∈ ps₁, ∀ p₂ ∈ ps₂, ∀ a ∈ p₁.Endpoint, ∀ b ∈ p₂.Endpoint,
      (Stringer.String a : Bytes) = Stringer.String b → a = b)
    (hN : ∀ p₁ ∈ ps₁, ∀ p₂ ∈ ps₂, ∀ a ∈ p₁.AllowedIPs, ∀ b ∈ p₂.AllowedIPs,
      (Stringer.String a : Bytes) = Stringer.String b → a = b)
    (hK : ∀ p₁ ∈ ps₁, ∀ p₂ ∈ ps₂, ∀ a ∈ p₁.PersistentKeepaliveInterval,
      ∀ b ∈ p₂.PersistentKeepaliveInterval, keepaliveText a = keepaliveText b → a = b)
    (h : ps₁.flatMap peerLines = ps₂.flatMap peerLines) : ps₁ = ps₂ := by
  induction ps₁ generalizing ps₂ with
  | nil =>
    cases ps₂ with
    | nil => rfl
    | cons p₂ ps₂ => simp [List.flatMap_cons, peerLines] at h
  | cons p₁ ps₁ ih =>
    cases ps₂ with
    | nil => simp [List.flatMap_cons, peerLines] at h
    | cons p₂ ps₂ =>
      rw [List.flatMap_cons, List.flatMap_cons] at h
      obtain ⟨hp, hrest⟩ := peer_cancel p₁ p₂ ps₁ ps₂ (hE p₁ (by simp) p₂ (by simp))
        (hN p₁ (by simp) p₂ (by simp)) (hK p₁ (by simp) p₂ (by simp)) h
      have hps := ih ps₂ (fun x hx y hy => hE x (by simp [hx]) y (by simp [hy]))
        (fun x hx y hy => hN x (by simp [hx]) y (by simp [hy]))
        (fun x hx y hy => hK x (by simp [hx]) y (by simp [hy])) hrest
      rw [hp, hps]

theorem configLines_nested [Stringer E] [Stringer N] (cfg : Config E N) :
    configLines cfg =
      optLine (lit "private_key=") hexKey cfg.PrivateKey ++
        (optLine (lit "listen_port=") fmtInt cfg.ListenPort ++
          (optLine (lit "fwmark=") fmtInt cfg.FirewallMark ++
            (flagLine (lit "replace_peers=") cfg.ReplacePeers ++
              cfg.Peers.flatMap peerLines))) := by
  simp only [configLines, deviceLines, List.append_assoc]

theorem configLines_inj [Stringer E] [Stringer N] (cfg₁ cfg₂ : Config E N)
    (hE : ∀ p₁ ∈ cfg₁.Peers, ∀ p₂ ∈ cfg₂.Peers, ∀ a ∈ p₁.Endpoint, ∀ b ∈ p₂.Endpoint,
      (Stringer.String a : Bytes) = Stringer.String b → a = b)
    (hN : ∀ p₁ ∈ cfg₁.Peers, ∀ p₂ ∈ cfg₂.Peers, ∀ a ∈ p₁.AllowedIPs, ∀ b ∈ p₂.AllowedIPs,
      (Stringer.String a : Bytes) = Stringer.String b → a = b)
    (hK : ∀ p₁ ∈ cfg₁.Peers, ∀ p₂ ∈ cfg₂.Peers, ∀ a ∈ p₁.PersistentKeepaliveInterval,
      ∀ b ∈ p₂.PersistentKeepaliveInterval, keepaliveText a = keepaliveText b → a = b)
    (h : configLines cfg₁ = configLines cfg₂) : cfg₁ = cfg₂ := by
  rw [configLines_nested, configLines_nested] at h
  obtain ⟨e₁, h⟩ := block_cancel (lit "private_key=") _ _ _ _ (prefixed_optLine _ _ _)
    (prefixed_optLine _ _ _)
    (by
      repeat' first
        | exact headNot_peers _ _ (by decide) (by decide)
        | refine headNot_block _ _ _ _ (prefixed_optLine _ _ _) (by decide) (by decide) ?_
        | refine headNot_block _ _ _ _ (prefixed_flagLine _ _) (by decide) (by decide) ?_)
    (by
      repeat' first
        | exact headNot_peers _ _ (by decide) (by decide)
        | refine headNot_block _ _ _ _ (prefixed_optLine _ _ _) (by decide) (by decide) ?_
        | refine headNot_block _ _ _ _ (prefixed_flagLine _ _) (by decide) (by decide) ?_)
    h
  obtain ⟨e₂, h⟩ := block_cancel (lit "listen_port=") _ _ _ _ (prefixed_optLine _ _ _)
    (prefixed_optLine _ _ _)
    (by
      repeat' first
        | exact headNot_peers _ _ (by decide) (by decide)
        | refine headNot_block _ _ _ _ (prefixed_optLine _ _ _) (by decide) (by decide) ?_
        | refine headNot_block _ _ _ _ (prefixed_flagLine _ _) (by decide) (by decide) ?_)
    (by
      repeat' first
        | exact headNot_peers _ _ (by decide) (by decide)
        | refine headNot_block _ _ _ _ (prefixed_optLine _ _ _) (by decide) (by decide) ?_
        | refine headNot_block _ _ _ _ (prefixed_flagLine _ _) (by decide) (by decide) ?_)
    h
  obtain ⟨e₃, h⟩ := block_cancel (lit "fwmark=") _ _ _ _ (prefixed_optLine _ _ _)
    (prefixed_optLine _ _ _)
    (by
      repeat' first
        | exact headNot_peers _ _ (by decide) (by decide)
        | refine headNot_block _ _ _ _ (prefixed_flagLine _ _) (by decide) (by decide) ?_)
    (by
      repeat' first
        | exact headNot_peers _ _ (by decide) (by decide)
        | refine headNot_block _ _ _ _ (prefixed_flagLine _ _) (by decide) (by decide) ?_)
    h
  obtain ⟨e₄, h⟩ := block_cancel (lit "replace_peers=") _ _ _ _ (prefixed_flagLine _ _)
    (prefixed_flagLine _ _) (headNot_peers _ _ (by decide) (by decide))
    (headNot_peers _ _ (by decide) (by decide)) h
  have e₅ := peers_inj cfg₁.Peers cfg₂.Peers hE hN hK h
  obtain ⟨sk₁, port₁, mark₁, rp₁, ps₁⟩ := cfg₁
  obtain ⟨sk₂, port₂, mark₂, rp₂, ps₂⟩ := cfg₂
  simp only at e₁ e₂ e₃ e₄ e₅
  have f₁ := optLine_inj _ _ _ _ (fun a _ b _ hab => hexKey_injective a b hab) e₁
  have f₂ := optLine_inj _ _ _ _ (fun a _ b _ hab => fmtInt_injective a b hab) e₂
  have f₃ := optLine_inj _ _ _ _ (fun a _ b _ hab => fmtInt_injective a b hab) e₃
  have f₄ := flagLine_inj _ _ _ e₄
  rw [f₁, f₂, f₃, f₄, e₅]

theorem keepaliveText_inj (a b : Int) (ha : WholeSeconds a) (hb : WholeSeconds b)
    (h : keepaliveText a = keepaliveText b) : a = b := by
  have key : ∀ d : Int, WholeSeconds d →
      d = Int.tdiv d 1000000000 * Second ∧ (Int.tdiv d 1000000000).natAbs < 2 ^ 53 := by
    intro d hd
    obtain ⟨hmod, hlo, hhi⟩ := hd
    have hsplit := Int.tmod_add_tdiv d 1000000000
    rw [hmod] at hsplit
    have hsec : Second = (1000000000 : Int) := rfl
    have h53 : (2 : Nat) ^ 53 = 9007199254740992 := by norm_num
    rw [h53, hsec]
    constructor <;> omega
  obtain ⟨ea, hna⟩ := key a ha
  obtain ⟨eb, hnb⟩ := key b hb
  have hint := fmtInt_injective _ _ h
  rw [ea, eb, Seconds_whole _ hna, Seconds_whole _ hnb] at hint
  rw [ea, eb, hint]

/-- C20. `writeConfig` is injective on configurations whose present keep-alive
intervals are whole numbers of seconds (of a 64-bit duration), whose endpoint
and prefix texts contain no line feed, and between whose endpoints and
allowed-IP entries the text renderings are injective (as they are when the
renderings are injective and free of line feeds altogether): two such
configurations with the same output text are equal, with the same presence and
value of private key, listen port and firewall mark, the same `ReplacePeers`
flag and the same sequence of peers, field by field. -/
theorem writeConfig_injective [Stringer E] [Stringer N] (w : Buffer) (cfg₁ cfg₂ : Config E N)
    (hnl₁ : cfg₁.NewlineFree) (hnl₂ : cfg₂.NewlineFree) (hinj : TextsInjective cfg₁ cfg₂)
    (hk₁ : cfg₁.WholeSeconds) (hk₂ : cfg₂.WholeSeconds)
    (h : writeConfig w cfg₁ = writeConfig w cfg₂) : cfg₁ = cfg₂ := by
  rw [writeConfig_unlines, writeConfig_unlines] at h
  have hl := congrArg linesOf (List.append_cancel_left h)
  rw [linesOf_unlines _ (configLines_newlineFree cfg₁ hnl₁),
    linesOf_unlines _ (configLines_newlineFree cfg₂ hnl₂)] at hl
  exact configLines_inj cfg₁ cfg₂ (fun p₁ h₁ p₂ h₂ => (hinj p₁ h₁ p₂ h₂).1)
    (fun p₁ h₁ p₂ h₂ => (hinj p₁ h₁ p₂ h₂).2)
    (fun p₁ h₁ p₂ h₂ a ha b hb => keepaliveText_inj a b (hk₁ p₁ h₁ a ha) (hk₂ p₂ h₂ b hb)) hl

/-- Witness for C20 at `configFull` and `configSparse`, which differ in their
`ReplacePeers` flag: the hypotheses hold, so their outputs differ. -/
theorem writeConfig_injective_witness :
    configFull.NewlineFree ∧ configSparse.NewlineFree ∧ TextsInjective configFull configSparse ∧
      configFull.WholeSeconds ∧ configSparse.WholeSeconds ∧
      writeConfig [] configFull ≠ writeConfig [] configSparse :=
  ⟨by decide, by decide, by decide, by decide, by decide, fun h =>
    absurd (congrArg Config.ReplacePeers
      (writeConfig_injective [] configFull configSparse (by decide) (by decide) (by decide)
        (by decide) (by decide) h)) (by decide)⟩

end Injective

end Wguser
